import Mathlib

/-!
# Schema resolution of `pkg/codegen/schema.go`

A shallow embedding of the schema-resolution core of the code generator:
`GenerateGoSchema` (structural Go types), `GenerateEsSchema` (search-index
mapping templates), the `allOf` mergers and the reference cycle guard, with
theorems about them.

Conventions of the embedding.

* A Go function that can return an error, panic, or recurse without bound is a
  Lean function into `Outcome`: `ok`, `error` (a returned non-nil `error`),
  `panic` (a run-time panic such as a nil dereference) or `outOfFuel` (the
  recursion budget of the model was exhausted).
* The recursive resolvers take a recursion budget `fuel : Nat`; every recursive
  call of the Go function spends one unit. Helper functions that call back into
  a resolver receive the resolver (at the remaining budget) as an argument.
* A `*openapi3.SchemaRef` is an `Option SchemaRef`. The `Value` pointer of a
  node whose `Ref` is set points at the named definition; it is looked up in
  the table of definitions `Defs`, which is how cyclic documents are written.
  A node without `Ref` carries its own schema.
* A Go `map` is an association list; `for ... range` over a map whose result
  depends on the enumeration order goes through `Env.mapRange`.
-/

/-! ## Results of fallible functions -/

/-- Result of a Go call in the model. -/
inductive Outcome (α : Type) where
  | ok (v : α)
  | error (msg : String)
  | panic (msg : String)
  | outOfFuel
  deriving DecidableEq

namespace Outcome

/-- The call returned normally with a nil error. -/
def isOk {α : Type} : Outcome α → Bool
  | ok _ => true
  | _ => false

/-- The call returned a non-nil error. -/
def isError {α : Type} : Outcome α → Bool
  | error _ => true
  | _ => false

/-- The call stopped with a returned error or a panic (it completed, without a value). -/
def failed {α : Type} : Outcome α → Bool
  | error _ => true
  | panic _ => true
  | _ => false

/-- The value of a successful call. -/
def value? {α : Type} : Outcome α → Option α
  | ok v => some v
  | _ => none

end Outcome

/-- Go's `errors.Wrap(err, msg)`: the message is prefixed. -/
def errorsWrap (err : String) (msg : String) : String :=
  msg ++ ": " ++ err

/-! ## Strings -/

/-- Byte-wise lexicographic `<` on strings, as Go compares strings
(code-point order and UTF-8 byte order coincide). -/
def charsLess : List Char → List Char → Bool
  | [], [] => false
  | [], _ :: _ => true
  | _ :: _, [] => false
  | a :: as, b :: bs =>
    if a.toNat < b.toNat then true
    else if b.toNat < a.toNat then false
    else charsLess as bs

/-- Go's `a < b` on strings. -/
def stringLess (a b : String) : Bool :=
  charsLess a.data b.data

/-- Go's `a <= b` on strings. -/
def stringLessEq (a b : String) : Bool :=
  !stringLess b a

/-- Insert a string into an ascending list (the step of `sort.Strings`). -/
def insertSorted (a : String) : List String → List String
  | [] => [a]
  | b :: bs => if stringLessEq a b then a :: b :: bs else b :: insertSorted a bs

/-- Go's `sort.Strings`: the strings in ascending order. -/
def sortStrings : List String → List String
  | [] => []
  | a :: as => insertSorted a (sortStrings as)

/-- Go's `strings.Join`. -/
def stringsJoin (parts : List String) (sep : String) : String :=
  String.intercalate sep parts

/-- Splitting a character list at every occurrence of `sep`; `cur` holds the
characters of the current piece in reverse. -/
def splitChars (sep : Char) : List Char → List Char → List String
  | [], cur => [String.mk cur.reverse]
  | c :: cs, cur =>
    if c = sep then String.mk cur.reverse :: splitChars sep cs []
    else splitChars sep cs (c :: cur)

/-- Go's `strings.Split(s, ",")`. -/
def stringsSplitComma (s : String) : List String :=
  splitChars ',' s.data []

/-! ## The schema graph (`openapi3`) -/

namespace openapi3

/-- An entry of `Schema.Extensions` as the decoders of `parseValidateRule` and
`parseEsType` see it: raw JSON that decodes as a string, raw JSON that decodes
as a list of strings, or anything else (both decodings fail, or the value is
not raw JSON). -/
inductive ExtensionValue where
  | str (s : String)
  | strs (l : List String)
  | other

/-- An element of `Schema.Enum` (`interface{}`): a string, or another literal
given by its `fmt.Sprint` text. -/
inductive EnumValue where
  | str (s : String)
  | other (text : String)

/-- The text `fmt.Sprint` prints for an enum literal. -/
def EnumValue.sprint : EnumValue → String
  | .str s => s
  | .other t => t

/-- A `float64` bound, given by the two texts the code prints for it:
`%d` of its integer truncation and `%f` of the value. -/
structure Float64 where
  intText : String
  floatText : String

/-- The type `SchemaRef`, over the type of schemas: the field `Ref`, and in
`Own` the schema of the node itself, which is what `Value` points at when
`Ref` is empty. The `Value` of a node whose `Ref` is set is not stored in the
node: it is looked up in the table of definitions (`SchemaRefOf.Value`). -/
structure SchemaRefOf (α : Type) where
  Ref : String
  Own : Option α

/-- The type `openapi3.Schema` (the fields the code reads). -/
structure Schema where
  OneOf : Option (List (Option (SchemaRefOf Schema)))
  AnyOf : Option (List (Option (SchemaRefOf Schema)))
  AllOf : Option (List (Option (SchemaRefOf Schema)))
  Type_ : String
  Format : String
  Description : String
  Enum : List EnumValue
  Nullable : Bool
  Min : Option Float64
  Max : Option Float64
  MinLength : Nat
  MaxLength : Option Nat
  Pattern : String
  MinItems : Nat
  MaxItems : Option Nat
  Items : Option (SchemaRefOf Schema)
  Required : List String
  Properties : List (String × Option (SchemaRefOf Schema))
  AdditionalPropertiesAllowed : Option Bool
  AdditionalProperties : Option (SchemaRefOf Schema)
  Extensions : List (String × ExtensionValue)

/-- The type `openapi3.SchemaRef`. -/
abbrev SchemaRef := SchemaRefOf Schema

/-- The zero value `openapi3.Schema{}`. -/
def Schema.zero : Schema :=
  { OneOf := none, AnyOf := none, AllOf := none, Type_ := "", Format := "",
    Description := "", Enum := [], Nullable := false, Min := none, Max := none,
    MinLength := 0, MaxLength := none, Pattern := "", MinItems := 0,
    MaxItems := none, Items := none, Required := [], Properties := [],
    AdditionalPropertiesAllowed := none, AdditionalProperties := none,
    Extensions := [] }

/-- The named definitions of the document: what the `Value` pointer of a
reference node points at (`none`: the pointer is nil). -/
abbrev Defs := String → Option Schema

/-- A node without `Ref`, with its own schema. -/
def SchemaRefOf.inline {α : Type} (Value : Option α) : SchemaRefOf α :=
  { Ref := "", Own := Value }

/-- A node with `Ref` set. -/
def SchemaRefOf.ref {α : Type} (Ref : String) : SchemaRefOf α :=
  { Ref := Ref, Own := none }

/-- The field `SchemaRef.Value`: the named definition when `Ref` is set, the
node's own schema otherwise. -/
def SchemaRefOf.Value (defs : Defs) (sref : SchemaRef) : Option Schema :=
  if sref.Ref ≠ "" then defs sref.Ref else sref.Own

/-- Lookup `m[key]` in a Go map of pointers (a missing key gives nil). -/
def mapIndex {α : Type} (m : List (String × Option α)) (key : String) : Option α :=
  match m with
  | [] => none
  | (k, v) :: rest => if k = key then v else mapIndex rest key

end openapi3

/-! ## Depth of a node -/

namespace openapi3

mutual
/-- Nesting depth of a schema: the greatest depth of a member of its `allOf`,
of its items, of a property and of its additional properties. -/
def Schema.depth : Schema → Nat
  | ⟨_, _, allOf, _, _, _, _, _, _, _, _, _, _, _, _, items, _, props, _, addl, _⟩ =>
    max (depthMembers? allOf) (max (depthRef? items) (max (depthProps props) (depthRef? addl)))
/-- Depth of a node pointer: the number of nested calls a resolver makes on it. -/
def depthRef? : Option (SchemaRefOf Schema) → Nat
  | none => 1
  | some r => depthRef r
/-- Depth of a node. -/
def depthRef : SchemaRefOf Schema → Nat
  | ⟨_, own⟩ => depthValue own
/-- Depth of the schema of a node. -/
def depthValue : Option Schema → Nat
  | none => 1
  | some s => s.depth + 1
/-- Depth of an `allOf` slice. -/
def depthMembers? : Option (List (Option (SchemaRefOf Schema))) → Nat
  | none => 0
  | some l => depthMembers l
/-- Depth of a list of members. -/
def depthMembers : List (Option (SchemaRefOf Schema)) → Nat
  | [] => 0
  | m :: rest => max (depthRef? m) (depthMembers rest)
/-- Depth of a `properties` map. -/
def depthProps : List (String × Option (SchemaRefOf Schema)) → Nat
  | [] => 0
  | p :: rest => max (depthProp p) (depthProps rest)
/-- Depth of an entry of a `properties` map. -/
def depthProp : String × Option (SchemaRefOf Schema) → Nat
  | (_, p) => depthRef? p
end

end openapi3

/-! ## Helpers of the package that are not part of the translated file -/

/-- Modelled from the spec: `SortedSchemaKeys` of the package's utilities is
missing from the sources; the spec has the properties "processed in sorted
order" with a "deterministic sorting of property names". The keys of the map
in ascending order. -/
def SortedSchemaKeys {α : Type} (dict : List (String × α)) : List String :=
  sortStrings (dict.map Prod.fst)

/-- Modelled from the spec: `StringInArray` of the package's utilities is
missing from the sources; the spec computes `required` "via membership in the
parent's `required` set". -/
def StringInArray (str : String) (array : List String) : Bool :=
  match array with
  | [] => false
  | elt :: rest => if elt = str then true else StringInArray str rest

/-- Modelled from the spec: `SchemaHasAdditionalProperties` of the package's
utilities is missing from the sources; the spec's `additionalProperties` is
"absent | boolean | SchemaNode" and a schema is open when it permits
"arbitrary extra fields of a declared (or generic) value type". -/
def SchemaHasAdditionalProperties (schema : openapi3.Schema) : Bool :=
  match schema.AdditionalPropertiesAllowed with
  | some true => true
  | _ =>
    match schema.AdditionalProperties with
    | some _ => true
    | none => false

/-- The remaining helpers of the package's utilities, which the translated
file calls and the sources do not contain, together with the order in which
the Go runtime enumerates a map in `for ... range`.

`PathToTypeName` receives the slice itself and can rewrite its elements in
place (the helper of the package camel-cases every segment):
`PathToTypeName path` is the name it returns and `PathToTypeNameLeaves path`
the elements of the slice after the call. A slice built by `append` may share
its array with the slice it extends; the paths of the callers are kept as they
were, which gives the same names whenever rewriting a rewritten segment changes
nothing. -/
structure Env where
  RefPathToGoType : String → Except String String
  SchemaNameToTypeName : String → String
  PathToTypeName : List String → String
  PathToTypeNameLeaves : List String → List String
  StringToGoComment : String → String
  mapRange : List (String × String) → List (String × String)

/-! ## Resolved schemas (`codegen`) -/

namespace codegen

/-- The type `Property`, over the type of resolved schemas. -/
structure PropertyOf (S : Type) where
  Description : String
  JsonFieldName : String
  Schema : S
  Required : Bool
  Nullable : Bool
  Validation : List (String × String)
  EsTag : String

/-- The type `TypeDefinition`, over the type of resolved schemas. -/
structure TypeDefinitionOf (S : Type) where
  TypeName : String
  JsonName : String
  ResponseName : String
  Schema : S

/-- The type `Schema`: a resolved type definition. -/
structure Schema where
  GoType : String
  RefType : String
  EsTemplate : String
  EnumValues : List String
  Properties : List (PropertyOf Schema)
  HasAdditionalProperties : Bool
  AdditionalPropertiesType : Option Schema
  AdditionalTypes : List (TypeDefinitionOf Schema)
  SkipOptionalPointer : Bool

/-- The type `Property`. -/
abbrev Property := PropertyOf Schema

/-- The type `TypeDefinition`. -/
abbrev TypeDefinition := TypeDefinitionOf Schema

/-- The zero value `Schema{}`. -/
def Schema.zero : Schema :=
  { GoType := "", RefType := "", EsTemplate := "", EnumValues := [],
    Properties := [], HasAdditionalProperties := false,
    AdditionalPropertiesType := none, AdditionalTypes := [],
    SkipOptionalPointer := false }

/-- `func (s Schema) IsRef() bool`. -/
def Schema.IsRef (s : Schema) : Bool :=
  s.RefType != ""

/-- `func (s Schema) TypeDecl() string`. -/
def Schema.TypeDecl (s : Schema) : String :=
  if s.IsRef then s.RefType else s.GoType

/-- `func (s Schema) EsTemplateDecl() string`. -/
def Schema.EsTemplateDecl (s : Schema) : String :=
  s.EsTemplate

/-- `func PropertiesEqual(a, b Property) bool`. -/
def PropertiesEqual (a b : Property) : Bool :=
  a.JsonFieldName == b.JsonFieldName && a.Schema.TypeDecl == b.Schema.TypeDecl
    && a.Required == b.Required

/-- The scan of `MergeProperty`: the name of the first existing property that
has the name of `p` and is not equal to it. -/
def MergeProperty.conflict (p : Property) : List Property → Option String
  | [] => none
  | e :: rest =>
    if e.JsonFieldName == p.JsonFieldName && !PropertiesEqual e p then some e.JsonFieldName
    else MergeProperty.conflict p rest

/-- `func (s *Schema) MergeProperty(p Property) error`: the error, or the
schema after the call. -/
def Schema.MergeProperty (s : Schema) (p : Property) : Except String Schema :=
  match MergeProperty.conflict p s.Properties with
  | some name => .error ("property '" ++ name ++ "' already exists with a different type")
  | none => .ok { s with Properties := s.Properties ++ [p] }

/-- `func (p Property) GoFieldName() string`. -/
def PropertyOf.GoFieldName (env : Env) (p : Property) : String :=
  env.SchemaNameToTypeName p.JsonFieldName

/-- `func (p Property) GoTypeDef() string`. -/
def PropertyOf.GoTypeDef (p : Property) : String :=
  let typeDef := p.Schema.TypeDecl
  if !p.Schema.SkipOptionalPointer && (!p.Required || p.Nullable) then "*" ++ typeDef
  else typeDef

/-- Assignment `m[key] = value` on a Go map. -/
def mapSet (m : List (String × String)) (key value : String) : List (String × String) :=
  match m with
  | [] => [(key, value)]
  | (k, v) :: rest => if k = key then (key, value) :: rest else (k, v) :: mapSet rest key value

/-- The enum rule text of `parseValidateRule`: every literal followed by a blank. -/
def oneofText : List openapi3.EnumValue → String → String
  | [], e => e
  | enum :: rest, e => oneofText rest (e ++ enum.sprint ++ " ")

/-- The loop of `parseValidateRule` over `schema.Extensions`. -/
def customTagLoop : List (String × openapi3.ExtensionValue) → List (String × String) →
    Outcome (List (String × String))
  | [], v => .ok v
  | (key, ext) :: rest, v =>
    if key = "x-go-custom-tag" then
      match ext with
      | .str s => customTagLoop rest (mapSet v "custom-tag" (stringsJoin [s] ","))
      | .strs e => customTagLoop rest (mapSet v "custom-tag" (stringsJoin e ","))
      | .other => .panic "x-go-custom-tag is neither a string nor a list of strings"
    else customTagLoop rest v

/-- `func parseValidateRule(schema *openapi3.Schema, required bool) map[string]string`. -/
def parseValidateRule (schema : Option openapi3.Schema) (_required : Bool) :
    Outcome (List (String × String)) :=
  let v : List (String × String) := []
  match schema with
  | none => .ok v
  | some schema =>
    let v := if schema.MinLength > 0 then mapSet v "minlength" ("min=" ++ Nat.repr schema.MinLength) else v
    let v := match schema.MaxLength with
      | some n => mapSet v "maxlength" ("max=" ++ Nat.repr n)
      | none => v
    let v := match schema.Min with
      | some x =>
        if schema.Type_ = "integer" then mapSet v "min" ("min=" ++ x.intText)
        else mapSet v "min" ("min=" ++ x.floatText)
      | none => v
    let v := match schema.Max with
      | some x =>
        if schema.Type_ = "integer" then mapSet v "max" ("max=" ++ x.intText)
        else mapSet v "max" ("max=" ++ x.floatText)
      | none => v
    let v := if schema.Pattern ≠ "" then mapSet v "regex" ("regex=" ++ schema.Pattern) else v
    let v := if schema.Type_ = "array" then
        let v := if schema.MinItems > 0 then mapSet v "minitems" ("min=" ++ Nat.repr schema.MinItems) else v
        match schema.MaxItems with
        | some n => mapSet v "maxitems" ("max=" ++ Nat.repr n)
        | none => v
      else v
    let v := if schema.Enum.length > 0 then
        if schema.Type_ ≠ "array" then mapSet v "oneof" (oneofText schema.Enum "oneof=")
        else v
      else v
    if schema.Extensions.length > 0 then customTagLoop schema.Extensions v
    else .ok v

/-- The loop of `parseEsType` over `schema.Extensions`. -/
def esTagLoop : List (String × openapi3.ExtensionValue) → String → Outcome String
  | [], v => .ok v
  | (key, ext) :: rest, v =>
    if key = "x-es-tag" then
      match ext with
      | .str s => esTagLoop rest (stringsJoin [s] ",")
      | .strs e => esTagLoop rest (stringsJoin e ",")
      | .other => .panic "x-es-tag is neither a string nor a list of strings"
    else esTagLoop rest v

/-- `func parseEsType(schema *openapi3.Schema) string`. -/
def parseEsType (schema : Option openapi3.Schema) : Outcome String :=
  match schema with
  | none => .panic "nil pointer dereference"
  | some schema =>
    if schema.Extensions.length > 0 then esTagLoop schema.Extensions ""
    else .ok ""

/-- The field text `GenFieldsFromProperties` emits for one property. -/
def fieldText (env : Env) (p : Property) : String :=
  let field := ""
  let field := if p.Description ≠ "" then field ++ ("\n" ++ env.StringToGoComment p.Description ++ "\n")
    else field
  let field := field ++ ("    " ++ p.GoFieldName env ++ " " ++ p.GoTypeDef)
  let validator :=
    if p.Validation.length > 0 then
      let s : List String := []
      let s := if !p.Required || p.Nullable then s ++ ["omitempty"] else s
      let s := s ++ (env.mapRange p.Validation).map Prod.snd
      stringsJoin s ","
    else ""
  if p.Required || p.Nullable then
    if validator ≠ "" then
      field ++ (" `json:\"" ++ p.JsonFieldName ++ "\" validate:\"" ++ validator ++ "\"`")
    else field ++ (" `json:\"" ++ p.JsonFieldName ++ "\"`")
  else
    if validator ≠ "" then
      field ++ (" `json:\"" ++ p.JsonFieldName ++ ",omitempty\" validate:\"" ++ validator ++ "\"`")
    else field ++ (" `json:\"" ++ p.JsonFieldName ++ ",omitempty\"`")

/-- `func GenFieldsFromProperties(props []Property) []string`. -/
def GenFieldsFromProperties (env : Env) (props : List Property) : List String :=
  props.map (fieldText env)

/-- `func GenStructFromSchema(schema Schema) string`. -/
def GenStructFromSchema (env : Env) (schema : Schema) : Outcome String :=
  let objectParts := ["struct \x7b"]
  let objectParts := objectParts ++ GenFieldsFromProperties env schema.Properties
  if schema.HasAdditionalProperties then
    match schema.AdditionalPropertiesType with
    | none => .panic "nil pointer dereference"
    | some apt =>
      let addPropsType := if apt.RefType ≠ "" then apt.RefType else apt.GoType
      let objectParts := objectParts ++
        ["AdditionalProperties map[string]" ++ addPropsType ++ " `json:\"-\"`"]
      .ok (stringsJoin (objectParts ++ ["\x7d"]) "\n")
  else .ok (stringsJoin (objectParts ++ ["\x7d"]) "\n")

end codegen

namespace codegen

open openapi3 (SchemaRef Defs)

/-- A resolver of schema nodes at a path: `GenerateGoSchema` or
`GenerateEsSchema` at the remaining recursion budget. -/
abbrev Resolver := Option SchemaRef → List String → Outcome Schema

/-- The property loop of `GenerateGoSchema` (over the sorted keys), appending
to `outSchema.Properties`. -/
def goPropertyLoop (env : Env) (defs : Defs) (gen : Resolver) (schema : openapi3.Schema)
    (path : List String) : List String → List Property → Outcome (List Property)
  | [], props => .ok props
  | pName :: rest, props =>
    let p := openapi3.mapIndex schema.Properties pName
    let propertyPath := path ++ [pName]
    match gen p propertyPath with
    | .error err =>
      .error (errorsWrap err ("error generating Go schema for property '" ++ pName ++ "'"))
    | .panic msg => .panic msg
    | .outOfFuel => .outOfFuel
    | .ok pSchema =>
      let required := StringInArray pName schema.Required
      let pSchema :=
        if pSchema.HasAdditionalProperties && pSchema.RefType == "" then
          let typeName := env.PathToTypeName propertyPath
          let typeDef : TypeDefinition :=
            { TypeName := typeName,
              JsonName := stringsJoin (env.PathToTypeNameLeaves propertyPath) ".",
              ResponseName := "", Schema := pSchema }
          { pSchema with
            AdditionalTypes := pSchema.AdditionalTypes ++ [typeDef], RefType := typeName }
        else pSchema
      match p with
      | none => .panic "nil pointer dereference"
      | some pRef =>
        let description :=
          match pRef.Value defs with
          | some value => value.Description
          | none => ""
        match parseValidateRule (pRef.Value defs) required with
        | .error err => .error err
        | .panic msg => .panic msg
        | .outOfFuel => .outOfFuel
        | .ok v =>
          match pRef.Value defs with
          | none => .panic "nil pointer dereference"
          | some value =>
            let prop : Property :=
              { JsonFieldName := pName, Schema := pSchema, Required := required,
                Description := description, Nullable := value.Nullable, Validation := v,
                EsTag := "" }
            goPropertyLoop env defs gen schema path rest (props ++ [prop])

/-- The loop of `MergeSchemas` over the properties of one member. -/
def mergePropertyLoop : List Property → Schema → Except String Schema
  | [], outSchema => .ok outSchema
  | p :: rest, outSchema =>
    match outSchema.MergeProperty p with
    | .error err => .error (errorsWrap err "error merging properties")
    | .ok outSchema => mergePropertyLoop rest outSchema

/-- The loop of `MergeSchemas` over the members of the `allOf`. -/
def mergeSchemasLoop (env : Env) (gen : Resolver) (path : List String) :
    List (Option SchemaRef) → Schema → Outcome Schema
  | [], outSchema => .ok outSchema
  | schemaOrRef :: rest, outSchema =>
    match schemaOrRef with
    | none => .panic "nil pointer dereference"
    | some member =>
      let ref := member.Ref
      match (if ref ≠ "" then env.RefPathToGoType ref else .ok "") with
      | .error err => .error (errorsWrap err "error converting reference path to a go type")
      | .ok refType =>
        match gen schemaOrRef path with
        | .error err => .error (errorsWrap err "error generating Go schema in allOf")
        | .panic msg => .panic msg
        | .outOfFuel => .outOfFuel
        | .ok schema =>
          let schema := { schema with RefType := refType }
          match mergePropertyLoop schema.Properties outSchema with
          | .error err => .error err
          | .ok outSchema =>
            if schema.HasAdditionalProperties then
              if outSchema.HasAdditionalProperties then
                match schema.AdditionalPropertiesType, outSchema.AdditionalPropertiesType with
                | some a, some b =>
                  if a.TypeDecl ≠ b.TypeDecl then
                    .error "additional properties in allOf have incompatible types"
                  else mergeSchemasLoop env gen path rest outSchema
                | _, _ => .panic "nil pointer dereference"
              else
                mergeSchemasLoop env gen path rest
                  { outSchema with
                    HasAdditionalProperties := true,
                    AdditionalPropertiesType := schema.AdditionalPropertiesType }
            else mergeSchemasLoop env gen path rest outSchema

/-- The loop of `GenStructFromAllOf` over the members, appending to `objectParts`. -/
def genStructFromAllOfLoop (env : Env) (gen : Resolver) (path : List String) :
    List (Option SchemaRef) → List String → Outcome (List String)
  | [], objectParts => .ok objectParts
  | schemaOrRef :: rest, objectParts =>
    match schemaOrRef with
    | none => .panic "nil pointer dereference"
    | some member =>
      let ref := member.Ref
      if ref ≠ "" then
        match env.RefPathToGoType ref with
        | .error err => .error err
        | .ok goType =>
          genStructFromAllOfLoop env gen path rest
            (objectParts ++ ["   // Embedded struct due to allOf(" ++ ref ++ ")"]
              ++ ["   " ++ goType])
      else
        match gen schemaOrRef path with
        | .error err => .error err
        | .panic msg => .panic msg
        | .outOfFuel => .outOfFuel
        | .ok goSchema =>
          genStructFromAllOfLoop env gen path rest
            (objectParts ++ ["   // Embedded fields due to inline allOf schema"]
              ++ GenFieldsFromProperties env goSchema.Properties)

/-- `func GenStructFromAllOf(allOf []*openapi3.SchemaRef, path []string) (string, error)`. -/
def GenStructFromAllOf (env : Env) (gen : Resolver) (allOf : List (Option SchemaRef))
    (path : List String) : Outcome String :=
  match genStructFromAllOfLoop env gen path allOf ["struct \x7b"] with
  | .error err => .error err
  | .panic msg => .panic msg
  | .outOfFuel => .outOfFuel
  | .ok objectParts => .ok (stringsJoin (objectParts ++ ["\x7d"]) "\n")

/-- `func MergeSchemas(allOf []*openapi3.SchemaRef, path []string) (Schema, error)`. -/
def MergeSchemas (env : Env) (gen : Resolver) (allOf : List (Option SchemaRef))
    (path : List String) : Outcome Schema :=
  match mergeSchemasLoop env gen path allOf Schema.zero with
  | .error err => .error err
  | .panic msg => .panic msg
  | .outOfFuel => .outOfFuel
  | .ok outSchema =>
    match GenStructFromAllOf env gen allOf path with
    | .error err => .error (errorsWrap err "unable to generate aggregate type for AllOf")
    | .panic msg => .panic msg
    | .outOfFuel => .outOfFuel
    | .ok goType => .ok { outSchema with GoType := goType }

/-- The loop of `GenerateGoSchema` over `schema.Enum` (the assertion
`enumValue.(string)` panics on another literal). -/
def enumValuesLoop : List openapi3.EnumValue → List String → Outcome (List String)
  | [], values => .ok values
  | .str s :: rest, values => enumValuesLoop rest (values ++ [s])
  | .other _ :: _, _ => .panic "interface conversion: interface is not string"

/-- The branch of `GenerateGoSchema` for an object with properties or
additional properties ("We've got an object with some properties"): the
property loop, the additional properties and the struct text. -/
def goSchemaObject (env : Env) (defs : Defs) (gen : Resolver) (schema : openapi3.Schema)
    (path : List String) (outSchema : Schema) : Outcome Schema :=
  match goPropertyLoop env defs gen schema path
      (SortedSchemaKeys schema.Properties) outSchema.Properties with
  | .error err => .error err
  | .panic msg => .panic msg
  | .outOfFuel => .outOfFuel
  | .ok props =>
    let outSchema := { outSchema with Properties := props }
    let outSchema :=
      { outSchema with
        HasAdditionalProperties := SchemaHasAdditionalProperties schema,
        AdditionalPropertiesType := some { Schema.zero with GoType := "interface\x7b\x7d" } }
    let additional : Outcome Schema :=
      match schema.AdditionalProperties with
      | some additionalProperties =>
        match gen (some additionalProperties) path with
        | .error err =>
          .error (errorsWrap err "error generating type for additional properties")
        | .panic msg => .panic msg
        | .outOfFuel => .outOfFuel
        | .ok additionalSchema =>
          .ok { outSchema with AdditionalPropertiesType := some additionalSchema }
      | none => .ok outSchema
    match additional with
    | .error err => .error err
    | .panic msg => .panic msg
    | .outOfFuel => .outOfFuel
    | .ok outSchema =>
      match GenStructFromSchema env outSchema with
      | .error err => .error err
      | .panic msg => .panic msg
      | .outOfFuel => .outOfFuel
      | .ok goType => .ok { outSchema with GoType := goType }

/-- The branch of `GenerateGoSchema` for a type other than empty or `object`
(the `switch t`): arrays and the primitive types. -/
def goSchemaTyped (gen : Resolver) (schema : openapi3.Schema) (path : List String)
    (outSchema : Schema) : Outcome Schema :=
  let t := schema.Type_
  let f := schema.Format
  if t = "array" then
    match gen schema.Items path with
    | .error err => .error (errorsWrap err "error generating type for array")
    | .panic msg => .panic msg
    | .outOfFuel => .outOfFuel
    | .ok arrayType =>
      .ok { outSchema with
            GoType := "[]" ++ arrayType.TypeDecl, Properties := arrayType.Properties }
  else if t = "integer" then
    if f = "int64" then .ok { outSchema with GoType := "int64" }
    else if f = "int32" then .ok { outSchema with GoType := "int32" }
    else if f = "" then .ok { outSchema with GoType := "int" }
    else .error ("invalid integer format: " ++ f)
  else if t = "number" then
    if f = "double" then .ok { outSchema with GoType := "float64" }
    else if f = "float" ∨ f = "" then .ok { outSchema with GoType := "float32" }
    else .error ("invalid number format: " ++ f)
  else if t = "boolean" then
    if f ≠ "" then .error ("invalid format (" ++ f ++ ") for boolean")
    else .ok { outSchema with GoType := "bool" }
  else if t = "string" then
    match enumValuesLoop schema.Enum outSchema.EnumValues with
    | .error err => .error err
    | .panic msg => .panic msg
    | .outOfFuel => .outOfFuel
    | .ok enumValues =>
      let outSchema := { outSchema with EnumValues := enumValues }
      if f = "byte" then .ok { outSchema with GoType := "[]byte" }
      else if f = "date" then .ok { outSchema with GoType := "openapi_types.Date" }
      else if f = "date-time" then .ok { outSchema with GoType := "time.Time" }
      else if f = "json" then
        .ok { outSchema with GoType := "json.RawMessage", SkipOptionalPointer := true }
      else .ok { outSchema with GoType := "string" }
  else .error ("unhandled Schema type: " ++ t)

/-- `func GenerateGoSchema(sref *openapi3.SchemaRef, path []string) (Schema, error)`. -/
def GenerateGoSchema (env : Env) (defs : Defs) : Nat → Resolver
  | 0, _, _ => .outOfFuel
  | _ + 1, none, _ => .ok { Schema.zero with GoType := "interface\x7b\x7d", RefType := "" }
  | fuel + 1, some sref, path =>
    let refType := ""
    if sref.Ref ≠ "" then
      match env.RefPathToGoType sref.Ref with
      | .error err =>
        .error ("error turning reference (" ++ sref.Ref ++ ") into a Go type: " ++ err)
      | .ok refType => .ok { Schema.zero with GoType := refType }
    else
    match sref.Value defs with
    | none => .panic "nil pointer dereference"
    | some schema =>
    if schema.AnyOf.isSome then
      .ok { Schema.zero with GoType := "interface\x7b\x7d", RefType := refType }
    else if schema.OneOf.isSome then
      .ok { Schema.zero with GoType := "interface\x7b\x7d", RefType := refType }
    else
    match schema.AllOf with
    | some allOf =>
      match MergeSchemas env (GenerateGoSchema env defs fuel) allOf path with
      | .error err => .error (errorsWrap err "error merging schemas")
      | .panic msg => .panic msg
      | .outOfFuel => .outOfFuel
      | .ok mergedSchema => .ok { mergedSchema with RefType := refType }
    | none =>
    let t := schema.Type_
    let outSchema := { Schema.zero with RefType := refType }
    if t = "" ∨ t = "object" then
      if schema.Properties.length = 0 ∧ !SchemaHasAdditionalProperties schema then
        let outType := if t = "object" then "map[string]interface\x7b\x7d" else "interface\x7b\x7d"
        .ok { outSchema with GoType := outType }
      else goSchemaObject env defs (GenerateGoSchema env defs fuel) schema path outSchema
    else goSchemaTyped (GenerateGoSchema env defs fuel) schema path outSchema

end codegen

namespace codegen

open openapi3 (SchemaRef Defs)

/-- `func isDuplicate(refs []string) bool`; `keys` is the set recorded so far. -/
def isDuplicate.scan : List String → List String → Bool
  | [], _ => false
  | entry :: rest, keys =>
    if keys.contains entry then true else isDuplicate.scan rest (entry :: keys)

/-- `func isDuplicate(refs []string) bool`. -/
def isDuplicate (refs : List String) : Bool :=
  isDuplicate.scan refs []

/-- State of the walk of `isInfinityObject`: `*refs` and `*isRecall`. -/
abbrev WalkState := List String × Bool

/-- The property loop of `isInfinityObject` (over the sorted keys). -/
def infinityPropertyLoop (walk : Option SchemaRef → WalkState → Outcome WalkState)
    (schema : openapi3.Schema) : List String → WalkState → Outcome WalkState
  | [], st => .ok st
  | pName :: rest, st =>
    match walk (openapi3.mapIndex schema.Properties pName) st with
    | .ok st => infinityPropertyLoop walk schema rest st
    | other => other

/-- `func isInfinityObject(ref *openapi3.SchemaRef, refs *[]string, isRecall *bool)`:
the state after the call. -/
def isInfinityObject (defs : Defs) : Nat → Option SchemaRef → WalkState → Outcome WalkState
  | 0, _, _ => .outOfFuel
  | _ + 1, none, _ => .panic "nil pointer dereference"
  | fuel + 1, some ref, (refs, _) =>
    let schema := ref.Value defs
    let refs := if ref.Ref ≠ "" then refs ++ [ref.Ref] else refs
    let dup := isDuplicate refs
    if dup then .ok (refs, dup)
    else
    match schema with
    | none => .panic "nil pointer dereference"
    | some schema =>
      if schema.Type_ = "" ∨ schema.Type_ = "object" then
        if schema.Properties.length = 0 then .ok (refs, dup)
        else
          match infinityPropertyLoop (isInfinityObject defs fuel) schema
              (SortedSchemaKeys schema.Properties) (refs, dup) with
          | .ok st =>
            match schema.AdditionalProperties with
            | some additionalProperties =>
              isInfinityObject defs fuel (some additionalProperties) st
            | none => .ok st
          | other => other
      else if schema.Type_ = "array" then
        isInfinityObject defs fuel schema.Items (refs, dup)
      else .ok (refs, dup)

/-- `func isDeepMapObject(reference *openapi3.SchemaRef) (string, error)`. -/
def isDeepMapObject (defs : Defs) (fuel : Nat) (reference : Option SchemaRef) : Outcome String :=
  match isInfinityObject defs fuel reference ([], false) with
  | .error err => .error err
  | .panic msg => .panic msg
  | .outOfFuel => .outOfFuel
  | .ok (_, isCall) =>
    if isCall then .ok ("\"type\": \"" ++ "nested" ++ "\"")
    else .ok ""

/-- `func GenEsTemplateFromProperties(props []Property) []string`. -/
def GenEsTemplateFromProperties : List Property → List String
  | [] => []
  | p :: rest =>
    if p.Schema.EsTemplate ≠ "" then
      ("\"" ++ p.JsonFieldName ++ "\": \x7b" ++ p.Schema.EsTemplate ++ "\x7d")
        :: GenEsTemplateFromProperties rest
    else if p.EsTag = "" then GenEsTemplateFromProperties rest
    else
      ("\"" ++ p.JsonFieldName ++ "\":" ++ ("\x7b\"type\": \"" ++ p.EsTag ++ "\"\x7d"))
        :: GenEsTemplateFromProperties rest

/-- `func GenEsTemplateFromSchema(schema Schema) string`. -/
def GenEsTemplateFromSchema (schema : Schema) : String :=
  let objectParts := ["\"properties\": \x7b"]
  let fields := GenEsTemplateFromProperties schema.Properties
  if stringsJoin fields "" = "" then ""
  else stringsJoin (objectParts ++ [stringsJoin fields ",\n"] ++ ["\x7d"]) "\n"

/-- The loop of `GenEsTemplateFromAllOf` over the members, appending to `props`. -/
def esAllOfLoop (gen : Resolver) (path : List String) :
    List (Option SchemaRef) → List String → Outcome (List String)
  | [], props => .ok props
  | schemaOrRef :: rest, props =>
    match gen schemaOrRef path with
    | .error err => .error err
    | .panic msg => .panic msg
    | .outOfFuel => .outOfFuel
    | .ok esSchema => esAllOfLoop gen path rest (props ++ [esSchema.EsTemplateDecl])

/-- `func GenEsTemplateFromAllOf(allOf []*openapi3.SchemaRef, path []string, tag string) (string, error)`. -/
def GenEsTemplateFromAllOf (gen : Resolver) (allOf : List (Option SchemaRef))
    (path : List String) (tag : String) : Outcome String :=
  if tag ≠ "" then .ok ("\"type\": \"" ++ "nested" ++ "\"")
  else
    match esAllOfLoop gen path allOf [] with
    | .error err => .error err
    | .panic msg => .panic msg
    | .outOfFuel => .outOfFuel
    | .ok props =>
      if stringsJoin props "" = "" then .ok ""
      else .ok (stringsJoin props "\n")

/-- `func MergeSchemasForEs(allOf []*openapi3.SchemaRef, path []string, tag string) (Schema, error)`. -/
def MergeSchemasForEs (gen : Resolver) (allOf : List (Option SchemaRef))
    (path : List String) (tag : String) : Outcome Schema :=
  match GenEsTemplateFromAllOf gen allOf path tag with
  | .error err => .error (errorsWrap err "unable to generate aggregate indices for AllOf")
  | .panic msg => .panic msg
  | .outOfFuel => .outOfFuel
  | .ok template =>
    let template := if template ≠ "" then "\"type\": \"nested\"," ++ template else template
    .ok { Schema.zero with EsTemplate := template }

/-- `func GenEsTemplateFromReference(reference *openapi3.SchemaRef, path []string) (string, error)`;
`fuel` is the budget of the cycle guard's walk, `gen` is `GenerateEsSchema`. -/
def GenEsTemplateFromReference (defs : Defs) (fuel : Nat) (gen : Resolver)
    (reference : Option SchemaRef) (path : List String) : Outcome String :=
  match isDeepMapObject defs fuel reference with
  | .error err => .error err
  | .panic msg => .panic msg
  | .outOfFuel => .outOfFuel
  | .ok s =>
    if s ≠ "" then .ok s
    else
      match reference with
      | none => .panic "nil pointer dereference"
      | some reference =>
        let newRef : SchemaRef := .inline (reference.Value defs)
        match gen (some newRef) path with
        | .error err => .error err
        | .panic msg => .panic msg
        | .outOfFuel => .outOfFuel
        | .ok esSchema =>
          let template :=
            if esSchema.EsTemplateDecl ≠ "" then "\"type\": \"nested\"," ++ esSchema.EsTemplateDecl
            else ""
          .ok template

/-- The property loop of `GenerateEsSchema` (over the sorted keys), appending
to `outSchema.Properties`. -/
def esPropertyLoop (defs : Defs) (gen : Resolver) (schema : openapi3.Schema)
    (path : List String) : List String → List Property → Outcome (List Property)
  | [], props => .ok props
  | pName :: rest, props =>
    let p := openapi3.mapIndex schema.Properties pName
    let propertyPath := path ++ [pName]
    match gen p propertyPath with
    | .error err =>
      .error (errorsWrap err ("error generating Es schema for property '" ++ pName ++ "'"))
    | .panic msg => .panic msg
    | .outOfFuel => .outOfFuel
    | .ok pSchema =>
      match p with
      | none => .panic "nil pointer dereference"
      | some pRef =>
        match parseEsType (pRef.Value defs) with
        | .error err => .error err
        | .panic msg => .panic msg
        | .outOfFuel => .outOfFuel
        | .ok e =>
          let prop : Property :=
            { JsonFieldName := pName, Schema := pSchema, EsTag := e, Description := "",
              Required := false, Nullable := false, Validation := [] }
          esPropertyLoop defs gen schema path rest (props ++ [prop])

/-- The fragment `GenerateEsSchema` emits for one directive of a search-type annotation. -/
def esDirective (v : String) : String :=
  if v = "fielddata" then "\"fielddata\": \"true\""
  else if v = "text" then
    "\"type\": \"" ++ v ++
      "\",\"fields\": \x7b\"keyword\": \x7b\"type\": \"keyword\", \"ignore_above\" : 256\x7d\x7d"
  else "\"type\": \"" ++ v ++ "\""

/-- The branch of `GenerateEsSchema` for an object with properties or
additional properties ("We've got an object with some properties"): the
property loop and the template of the properties. -/
def esSchemaObject (defs : Defs) (gen : Resolver) (schema : openapi3.Schema)
    (path : List String) (outSchema : Schema) : Outcome Schema :=
  match esPropertyLoop defs gen schema path
      (SortedSchemaKeys schema.Properties) outSchema.Properties with
  | .error err => .error err
  | .panic msg => .panic msg
  | .outOfFuel => .outOfFuel
  | .ok props =>
    let outSchema :=
      { outSchema with
        Properties := props,
        HasAdditionalProperties := SchemaHasAdditionalProperties schema,
        AdditionalPropertiesType := some { Schema.zero with GoType := "interface\x7b\x7d" } }
    let d := GenEsTemplateFromSchema outSchema
    if d ≠ "" then .ok { outSchema with EsTemplate := d }
    else .ok outSchema

/-- The branch of `GenerateEsSchema` for a type other than empty or `object`:
the translation of the node's search-type annotation and the `switch t`. -/
def esSchemaTyped (gen : Resolver) (schema : openapi3.Schema) (path : List String)
    (outSchema : Schema) : Outcome Schema :=
  let t := schema.Type_
  let f := schema.Format
  match parseEsType (some schema) with
  | .error err => .error err
  | .panic msg => .panic msg
  | .outOfFuel => .outOfFuel
  | .ok e =>
    let outSchema :=
      if e ≠ "" then
        { outSchema with EsTemplate := stringsJoin ((stringsSplitComma e).map esDirective) "," }
      else outSchema
    if t = "array" then
      match gen schema.Items path with
      | .error err => .error (errorsWrap err "error generating type for array")
      | .panic msg => .panic msg
      | .outOfFuel => .outOfFuel
      | .ok arrayType =>
        let outSchema :=
          if arrayType.EsTemplateDecl ≠ "" then
            { outSchema with EsTemplate := "\"type\": \"nested\"," ++ arrayType.EsTemplateDecl }
          else outSchema
        .ok { outSchema with Properties := arrayType.Properties }
    else if t = "integer" then
      if f ≠ "int64" ∧ f ≠ "int32" ∧ f ≠ "" then .error ("invalid integer format: " ++ f)
      else .ok outSchema
    else if t = "number" then
      if f ≠ "double" ∧ f ≠ "float" ∧ f ≠ "" then .error ("invalid number format: " ++ f)
      else .ok outSchema
    else if t = "boolean" then
      if f ≠ "" then .error ("invalid format (" ++ f ++ ") for boolean")
      else .ok outSchema
    else if t = "string" then .ok outSchema
    else .error ("unhandled Schema type: " ++ t)

/-- `func GenerateEsSchema(sref *openapi3.SchemaRef, path []string) (Schema, error)`. -/
def GenerateEsSchema (defs : Defs) : Nat → Resolver
  | 0, _, _ => .outOfFuel
  | _ + 1, none, _ => .ok Schema.zero
  | fuel + 1, some sref, path =>
    if sref.Ref ≠ "" then
      match GenEsTemplateFromReference defs fuel (GenerateEsSchema defs fuel) (some sref) path with
      | .error err =>
        .error ("error turning reference (" ++ sref.Ref ++
          ") into a ElasticSearch index template: " ++ err)
      | .panic msg => .panic msg
      | .outOfFuel => .outOfFuel
      | .ok template => .ok { Schema.zero with EsTemplate := template }
    else
    match sref.Value defs with
    | none => .panic "nil pointer dereference"
    | some schema =>
    if schema.AnyOf.isSome then .ok Schema.zero
    else if schema.OneOf.isSome then .ok Schema.zero
    else
    match schema.AllOf with
    | some allOf =>
      match parseEsType (some schema) with
      | .error err => .error err
      | .panic msg => .panic msg
      | .outOfFuel => .outOfFuel
      | .ok tag =>
        match MergeSchemasForEs (GenerateEsSchema defs fuel) allOf path tag with
        | .error err => .error (errorsWrap err "error merging schemas")
        | .panic msg => .panic msg
        | .outOfFuel => .outOfFuel
        | .ok mergedSchema => .ok mergedSchema
    | none =>
    let t := schema.Type_
    let outSchema := Schema.zero
    if t = "" ∨ t = "object" then
      if schema.Properties.length = 0 ∧ !SchemaHasAdditionalProperties schema then .ok outSchema
      else esSchemaObject defs (GenerateEsSchema defs fuel) schema path outSchema
    else esSchemaTyped (GenerateEsSchema defs fuel) schema path outSchema

end codegen


/-! ## Vocabulary of the statements about `allOf` -/

namespace codegen

/-- Two properties do not conflict: when they have the same name they are
equal in the sense of `PropertiesEqual` (same type declaration, same
required-ness). -/
def Compatible (e p : Property) : Prop :=
  e.JsonFieldName = p.JsonFieldName → PropertiesEqual e p = true

/-- Absence of conflict is decidable. -/
instance Compatible.decidable (e p : Property) : Decidable (Compatible e p) := by
  unfold Compatible
  infer_instance

/-- The type declaration of the additional properties of a resolved schema. -/
def Schema.additionalTypeDecl (s : Schema) : Option String :=
  s.AdditionalPropertiesType.map Schema.TypeDecl

end codegen

namespace codegen

/-- A member of an `allOf` list is resolved to `s` by the resolver `gen`: the
member is not nil, its reference (if it is one) translates to a type name, and
`gen` returns `s` for it. -/
def ResolvesTo (env : Env) (gen : Resolver) (path : List String)
    (m : Option openapi3.SchemaRef) (s : Schema) : Prop :=
  ∃ member, m = some member
    ∧ (member.Ref ≠ "" → ∃ t, env.RefPathToGoType member.Ref = .ok t)
    ∧ gen m path = .ok s

/-- The properties of the resolved members, in member order. -/
def memberProperties (ss : List Schema) : List Property :=
  (ss.map (fun s => s.Properties)).flatten

/-- The first resolved member with open additional properties. -/
def firstOpen (ss : List Schema) : Option Schema :=
  ss.find? (fun s => s.HasAdditionalProperties)

end codegen

/-! ## Auxiliary type definitions -/

namespace codegen

mutual
/-- `func (s Schema) GetAdditionalTypeDefs() []TypeDefinition`: the auxiliary
types of the properties, in property order, then those of the schema. -/
def Schema.GetAdditionalTypeDefs : Schema → List TypeDefinition
  | ⟨_, _, _, _, properties, _, _, additionalTypes, _⟩ =>
    propertiesTypeDefs properties ++ additionalTypes
/-- The loop of `GetAdditionalTypeDefs` over `s.Properties`. -/
def propertiesTypeDefs : List (PropertyOf Schema) → List TypeDefinition
  | [] => []
  | p :: rest => propertyTypeDefs p ++ propertiesTypeDefs rest
/-- The call `p.Schema.GetAdditionalTypeDefs()` of the loop. -/
def propertyTypeDefs : PropertyOf Schema → List TypeDefinition
  | ⟨_, _, schema, _, _, _, _⟩ => schema.GetAdditionalTypeDefs
end

mutual
/-- The property schemas nested in a resolved schema, at any depth. -/
def Schema.nested : Schema → List Schema
  | ⟨_, _, _, _, properties, _, _, _, _⟩ => nestedOfProperties properties
/-- The property schemas nested in a list of properties. -/
def nestedOfProperties : List (PropertyOf Schema) → List Schema
  | [] => []
  | p :: rest => nestedOfProperty p ++ nestedOfProperties rest
/-- The schema of a property and the property schemas nested in it. -/
def nestedOfProperty : PropertyOf Schema → List Schema
  | ⟨_, _, schema, _, _, _, _⟩ => schema :: schema.nested
end

/-- Lookup `m[key]` in a Go map of strings, with the presence flag. -/
def mapGet (m : List (String × String)) (key : String) : Option String :=
  match m with
  | [] => none
  | (k, v) :: rest => if k = key then some v else mapGet rest key

/-- The schema of a property after the hoisting step of `GenerateGoSchema`
(`if pSchema.HasAdditionalProperties && pSchema.RefType == ""`): a type
definition named from the property path is appended and referred to; its
`JsonName` joins the path as `PathToTypeName` has left it. -/
def hoisted (env : Env) (propertyPath : List String) (pSchema : Schema) : Schema :=
  if pSchema.HasAdditionalProperties && pSchema.RefType == "" then
    { pSchema with
      AdditionalTypes := pSchema.AdditionalTypes ++
        [{ TypeName := env.PathToTypeName propertyPath,
           JsonName := stringsJoin (env.PathToTypeNameLeaves propertyPath) ".",
           ResponseName := "", Schema := pSchema }],
      RefType := env.PathToTypeName propertyPath }
  else pSchema

end codegen

/-! ## The steps of `parseValidateRule` -/

namespace codegen

/-- The step of `parseValidateRule` for `schema.MinLength`. -/
def ruleMinLength (schema : openapi3.Schema) (v : List (String × String)) :
    List (String × String) :=
  if schema.MinLength > 0 then mapSet v "minlength" ("min=" ++ Nat.repr schema.MinLength) else v

/-- The step of `parseValidateRule` for `schema.MaxLength`. -/
def ruleMaxLength (schema : openapi3.Schema) (v : List (String × String)) :
    List (String × String) :=
  match schema.MaxLength with
  | some n => mapSet v "maxlength" ("max=" ++ Nat.repr n)
  | none => v

/-- The step of `parseValidateRule` for `schema.Min`. -/
def ruleMin (schema : openapi3.Schema) (v : List (String × String)) : List (String × String) :=
  match schema.Min with
  | some x =>
    if schema.Type_ = "integer" then mapSet v "min" ("min=" ++ x.intText)
    else mapSet v "min" ("min=" ++ x.floatText)
  | none => v

/-- The step of `parseValidateRule` for `schema.Max`. -/
def ruleMax (schema : openapi3.Schema) (v : List (String × String)) : List (String × String) :=
  match schema.Max with
  | some x =>
    if schema.Type_ = "integer" then mapSet v "max" ("max=" ++ x.intText)
    else mapSet v "max" ("max=" ++ x.floatText)
  | none => v

/-- The step of `parseValidateRule` for `schema.Pattern`. -/
def rulePattern (schema : openapi3.Schema) (v : List (String × String)) :
    List (String × String) :=
  if schema.Pattern ≠ "" then mapSet v "regex" ("regex=" ++ schema.Pattern) else v

/-- The step of `parseValidateRule` for the item counts of an array. -/
def ruleItems (schema : openapi3.Schema) (v : List (String × String)) : List (String × String) :=
  if schema.Type_ = "array" then
    let v := if schema.MinItems > 0 then mapSet v "minitems" ("min=" ++ Nat.repr schema.MinItems) else v
    match schema.MaxItems with
    | some n => mapSet v "maxitems" ("max=" ++ Nat.repr n)
    | none => v
  else v

/-- The step of `parseValidateRule` for `schema.Enum`. -/
def ruleEnum (schema : openapi3.Schema) (v : List (String × String)) : List (String × String) :=
  if schema.Enum.length > 0 then
    if schema.Type_ ≠ "array" then mapSet v "oneof" (oneofText schema.Enum "oneof=")
    else v
  else v

/-- The rules `parseValidateRule` has collected when it reaches the loop over
the extensions. -/
def constraintRules (schema : openapi3.Schema) : List (String × String) :=
  ruleEnum schema (ruleItems schema (rulePattern schema (ruleMax schema (ruleMin schema
    (ruleMaxLength schema (ruleMinLength schema []))))))

end codegen

/-! ## The tags of a struct field -/

namespace codegen

/-- The variable `validator` of `GenFieldsFromProperties` when the tags of the
field are written: empty without a rule, otherwise `omitempty` (for a property
that is not required, or nullable) and the rules, joined by commas. -/
def validatorOf (env : Env) (p : Property) : String :=
  if p.Validation.length > 0 then
    stringsJoin ((if !p.Required || p.Nullable then ["omitempty"] else [])
      ++ (env.mapRange p.Validation).map Prod.snd) ","
  else ""

/-- The text `GenFieldsFromProperties` writes before the tags of a field: the
comment, if there is a description, the field name and the field type. -/
def fieldHead (env : Env) (p : Property) : String :=
  (if p.Description ≠ "" then "\n" ++ env.StringToGoComment p.Description ++ "\n" else "")
    ++ ("    " ++ p.GoFieldName env ++ " " ++ p.GoTypeDef)

end codegen

/-! ## The primitive mapping -/

namespace codegen

/-- The primitive mapping in the words of the specification: the scalar type
of a primitive kind `t` with the format `f`, and `none` for a format that is
incompatible with the kind (a format of a boolean, an unrecognized format of an
integer or a number). Every unrecognized format of a string falls back to the
plain string. -/
def primitiveMapping (t f : String) : Option String :=
  if t = "integer" then
    if f = "int64" then some "int64"
    else if f = "int32" then some "int32"
    else if f = "" then some "int"
    else none
  else if t = "number" then
    if f = "double" then some "float64"
    else if f = "float" ∨ f = "" then some "float32"
    else none
  else if t = "boolean" then
    if f = "" then some "bool" else none
  else if t = "string" then
    if f = "byte" then some "[]byte"
    else if f = "date" then some "openapi_types.Date"
    else if f = "date-time" then some "time.Time"
    else if f = "json" then some "json.RawMessage"
    else some "string"
  else none

end codegen

/-! ## The receiver of `MergeProperty` -/

namespace codegen

/-- `func (s *Schema) MergeProperty(p Property) error` with its receiver: the
schema `*s` after the call and the error returned (`none` for `nil`). The scan
returns the error before `s.Properties` is assigned. -/
def MergeProperty.state (s : Schema) (p : Property) : Schema × Option String :=
  match MergeProperty.conflict p s.Properties with
  | some name => (s, some ("property '" ++ name ++ "' already exists with a different type"))
  | none => ({ s with Properties := s.Properties ++ [p] }, none)

end codegen

/-! ## Vocabulary of the statements about the members of an `allOf` -/

namespace codegen

/-- The resolved schemas of the members that are not references (`Ref` is
empty), in member order; `ss` are the resolved schemas of the members `ms`. -/
def inlineResolutions (ms : List (Option openapi3.SchemaRef)) (ss : List Schema) : List Schema :=
  ((ms.zip ss).filter (fun x =>
    match x.1 with
    | some member => member.Ref == ""
    | none => false)).map Prod.snd

end codegen

/-! ## The type and format conditions -/

namespace codegen

/-- The `InvalidFormat` conditions in the words of the specification, for a
type `t` other than empty, `object` and `array` with the format `f`: an
integer or a number with an unrecognized format, a boolean with a format, and
an unrecognised type name; with the message of the error. -/
def invalidFormat (t f : String) : Option String :=
  if t = "integer" then
    if f ≠ "int64" ∧ f ≠ "int32" ∧ f ≠ "" then some ("invalid integer format: " ++ f) else none
  else if t = "number" then
    if f ≠ "double" ∧ f ≠ "float" ∧ f ≠ "" then some ("invalid number format: " ++ f) else none
  else if t = "boolean" then
    if f ≠ "" then some ("invalid format (" ++ f ++ ") for boolean") else none
  else if t = "string" then none
  else some ("unhandled Schema type: " ++ t)

end codegen

/-! ## The struct text of an `allOf` -/

namespace codegen

/-- The lines `GenStructFromAllOf` appends for the member `m`, resolved to `s`:
for a reference the comment and the embedded type name (the `GoType` of the
resolved reference), otherwise the comment and the fields of the member's
properties. -/
def memberStructParts (env : Env) (m : Option openapi3.SchemaRef) (s : Schema) : List String :=
  match m with
  | some member =>
    if member.Ref ≠ "" then
      ["   // Embedded struct due to allOf(" ++ member.Ref ++ ")", "   " ++ s.GoType]
    else
      ["   // Embedded fields due to inline allOf schema"]
        ++ GenFieldsFromProperties env s.Properties
  | none => []

end codegen

/-! ## Example documents -/

namespace Examples

/-- A definition that refers to itself through `allOf`: `A = allOf [ $ref A ]`. -/
def allOfCycle : openapi3.Schema :=
  { openapi3.Schema.zero with AllOf := some [some (.ref "A")] }

/-- The document whose only definition is `A`. -/
def allOfCycleDefs : openapi3.Defs := fun name =>
  if name = "A" then some allOfCycle else none

/-- A string property carrying the search-type annotation `tag`. -/
def taggedString (tag : String) : openapi3.Schema :=
  { openapi3.Schema.zero with Type_ := "string", Extensions := [("x-es-tag", .strs [tag])] }

/-- An object with one text-tagged string field `code`. -/
def item : openapi3.Schema :=
  { openapi3.Schema.zero with
    Type_ := "object",
    Properties := [("code", some (.inline (some (taggedString "text"))))] }

/-- An object whose two sibling properties refer to the same definition `Item`. -/
def pair : openapi3.Schema :=
  { openapi3.Schema.zero with
    Type_ := "object",
    Properties := [("first", some (.ref "Item")), ("second", some (.ref "Item"))] }

/-- The acyclic document with the definitions `Pair` and `Item`. -/
def pairDefs : openapi3.Defs := fun name =>
  if name = "Pair" then some pair
  else if name = "Item" then some item
  else none

/-- An object whose property `child` refers to the object itself. -/
def node : openapi3.Schema :=
  { openapi3.Schema.zero with
    Type_ := "object",
    Properties := [("child", some (.ref "Node"))] }

/-- The document whose only definition is the self-referential `Node`. -/
def nodeDefs : openapi3.Defs := fun name =>
  if name = "Node" then some node else none

/-- Helpers for evaluating examples: a reference translates to its own text,
names are kept, a path is joined by `_` and left as it is, a comment is
prefixed by `// `, and a map is enumerated in the order `mapRange`. -/
def exampleEnv (mapRange : List (String × String) → List (String × String)) : Env :=
  { RefPathToGoType := fun ref => .ok ref,
    SchemaNameToTypeName := fun name => name,
    PathToTypeName := fun path => stringsJoin path "_",
    PathToTypeNameLeaves := fun path => path,
    StringToGoComment := fun s => "// " ++ s,
    mapRange := mapRange }

end Examples


namespace Examples

/-- The fixture's definition `fhir-concept`: an object with the required
text-tagged string `code` and the optional text-tagged string `display`. -/
def fhirConcept : openapi3.Schema :=
  { openapi3.Schema.zero with
    Type_ := "object",
    Required := ["code"],
    Properties :=
      [("code", some (.inline (some
          { openapi3.Schema.zero with
            Type_ := "string",
            Extensions := [("x-go-custom-tag", .strs ["fhirCode"]), ("x-es-tag", .strs ["text"])] }))),
       ("display", some (.inline (some
          { openapi3.Schema.zero with
            Type_ := "string",
            MaxLength := some 1048576,
            Extensions :=
              [("x-go-custom-tag", .strs ["fhirString"]), ("x-es-tag", .strs ["text"])] })))] }

/-- The fixture's definition `fhir-code-system`: an object with the
keyword-tagged string `id`, the text-tagged string `status` with the enum
`[active]`, and the array `concept` of references to `fhir-concept`. -/
def fhirCodeSystem : openapi3.Schema :=
  { openapi3.Schema.zero with
    Type_ := "object",
    Properties :=
      [("id", some (.inline (some
          { openapi3.Schema.zero with
            Type_ := "string",
            Extensions := [("x-go-custom-tag", .strs ["fhirID"]), ("x-es-tag", .strs ["keyword"])] }))),
       ("status", some (.inline (some
          { openapi3.Schema.zero with
            Type_ := "string",
            Enum := [.str "active"],
            Extensions := [("x-es-tag", .strs ["text"])] }))),
       ("concept", some (.inline (some
          { openapi3.Schema.zero with
            Type_ := "array",
            Items := some (.ref "#/components/schemas/fhir-concept") })))],
    Extensions := [("x-tags", .strs ["elastic"])] }

/-- The fixture document of the test `TestElasticSearch`. -/
def fhirDefs : openapi3.Defs := fun name =>
  if name = "#/components/schemas/fhir-code-system" then some fhirCodeSystem
  else if name = "#/components/schemas/fhir-concept" then some fhirConcept
  else none

/-- The fragment of a text-tagged field: type `text` with the `keyword` sub-field. -/
def textFragment : String :=
  "\"type\": \"text\",\"fields\": \x7b\"keyword\": \x7b\"type\": \"keyword\", \"ignore_above\" : 256\x7d\x7d"

/-- The number of positions of `text` at which `pattern` starts. -/
def countOccurrences (pattern : List Char) : List Char → Nat
  | [] => if pattern.isEmpty then 1 else 0
  | c :: cs =>
    (if pattern.isPrefixOf (c :: cs) then 1 else 0) + countOccurrences pattern cs

/-- An inline `allOf` member declaring the single property `x` of type string. -/
def memberX : openapi3.SchemaRef :=
  .inline (some
    { openapi3.Schema.zero with
      Type_ := "object",
      Properties :=
        [("x", some (.inline (some { openapi3.Schema.zero with Type_ := "string" })))] })

/-- A required property with two validation rules. -/
def twoRules : codegen.Property :=
  { Description := "", JsonFieldName := "name",
    Schema := { codegen.Schema.zero with GoType := "string" },
    Required := true, Nullable := false,
    Validation := [("minlength", "min=1"), ("maxlength", "max=5")], EsTag := "" }

/-- An object whose string property `name` has a minimum and a maximum length. -/
def bounded : openapi3.Schema :=
  { openapi3.Schema.zero with
    Type_ := "object",
    Required := ["name"],
    Properties :=
      [("name", some (.inline (some
          { openapi3.Schema.zero with Type_ := "string", MinLength := 1, MaxLength := some 5 })))] }

/-- An inline `allOf` member declaring the single property `x` of type integer. -/
def memberXInteger : openapi3.SchemaRef :=
  .inline (some
    { openapi3.Schema.zero with
      Type_ := "object",
      Properties :=
        [("x", some (.inline (some { openapi3.Schema.zero with Type_ := "integer" })))] })

/-- An inline `allOf` member without properties whose additional properties
are of the type `format` of string (`""`: string, `"date"`: a date). -/
def openMember (name format : String) : openapi3.SchemaRef :=
  .inline (some
    { openapi3.Schema.zero with
      Type_ := "object",
      Properties :=
        [(name, some (.inline (some { openapi3.Schema.zero with Type_ := "boolean" })))],
      AdditionalProperties :=
        some (.inline (some { openapi3.Schema.zero with Type_ := "string", Format := format })) })

end Examples

namespace Examples

/-- A node whose extension `x-go-custom-tag` is neither a string nor a list
of strings (a number, say). -/
def badCustomTag : openapi3.Schema :=
  { openapi3.Schema.zero with Type_ := "string", Extensions := [("x-go-custom-tag", .other)] }

/-- The field `status` of the fixture: a text-tagged string with the enum `[active]`. -/
def statusField : openapi3.Schema :=
  { openapi3.Schema.zero with
    Type_ := "string",
    Enum := [.str "active"],
    Extensions := [("x-es-tag", .strs ["text"])] }

end Examples

namespace Examples

/-- An object whose required string property `name` carries the extension
`x-go-custom-tag` with the empty string. -/
def emptyCustomTag : openapi3.Schema :=
  { openapi3.Schema.zero with
    Type_ := "object",
    Required := ["name"],
    Properties :=
      [("name", some (.inline (some
          { openapi3.Schema.zero with
            Type_ := "string", Extensions := [("x-go-custom-tag", .str "")] })))] }

end Examples

namespace Examples

/-- A string of the raw-passthrough format `json` with the enum `[a, b]`. -/
def rawJson : openapi3.Schema :=
  { openapi3.Schema.zero with
    Type_ := "string", Format := "json", Enum := [.str "a", .str "b"] }

end Examples

namespace Examples

/-- A string whose search-type annotation lists the directives `text` and `date`. -/
def twoDirectives : openapi3.Schema :=
  { openapi3.Schema.zero with Type_ := "string", Extensions := [("x-es-tag", .strs ["text", "date"])] }

end Examples

namespace Examples

/-- An object whose property `m` is an open map with values of the type `t`. -/
def holderSchema (t : String) : openapi3.Schema :=
  { openapi3.Schema.zero with
    Type_ := "object",
    Properties :=
      [("m", some (.inline (some
          { openapi3.Schema.zero with
            Type_ := "object",
            AdditionalProperties :=
              some (.inline (some { openapi3.Schema.zero with Type_ := t })) })))] }

/-- The object `holderSchema t` as an inline node. -/
def holder (t : String) : openapi3.SchemaRef :=
  .inline (some (holderSchema t))

/-- The `allOf` of two inline members that both declare the open map `m`, one
with strings and one with integers as values. -/
def twoHolders : openapi3.Schema :=
  { openapi3.Schema.zero with AllOf := some [some (holder "string"), some (holder "integer")] }

end Examples

namespace Examples

/-- An inline `allOf` member declaring the single property `code` of type integer. -/
def memberCodeInteger : openapi3.SchemaRef :=
  .inline (some
    { openapi3.Schema.zero with
      Type_ := "object",
      Properties :=
        [("code", some (.inline (some { openapi3.Schema.zero with Type_ := "integer" })))] })

end Examples

namespace Examples

/-- An `allOf` node that carries the search-type annotation `text` itself and
whose only member is an integer of the invalid format `wide`. -/
def taggedAllOf : openapi3.Schema :=
  { openapi3.Schema.zero with
    AllOf := some [some (.inline (some
      { openapi3.Schema.zero with Type_ := "integer", Format := "wide" }))],
    Extensions := [("x-es-tag", .strs ["text"])] }

/-- An `allOf` node without annotation whose members are a keyword-tagged
string, an untagged string and a text-tagged string. -/
def plainAllOf : openapi3.Schema :=
  { openapi3.Schema.zero with
    AllOf := some
      [some (.inline (some (taggedString "keyword"))),
       some (.inline (some { openapi3.Schema.zero with Type_ := "string" })),
       some (.inline (some (taggedString "date")))] }

end Examples

namespace Examples

/-- An array with the annotation `keyword` whose items are the inline object
`item` (one text-tagged string field `code`). -/
def arrayOfItems : openapi3.Schema :=
  { openapi3.Schema.zero with
    Type_ := "array",
    Items := some (.inline (some item)),
    Extensions := [("x-es-tag", .strs ["keyword"])] }

end Examples

namespace Examples

/-- An array without annotation whose items are keyword-tagged strings. -/
def arrayOfKeywords : openapi3.Schema :=
  { openapi3.Schema.zero with
    Type_ := "array",
    Items := some (.inline (some (taggedString "keyword"))) }

end Examples

namespace Examples

/-- An integer of the unrecognized format `wide`, annotated `long`. -/
def wideInteger : openapi3.Schema :=
  { openapi3.Schema.zero with
    Type_ := "integer", Format := "wide", Extensions := [("x-es-tag", .strs ["long"])] }

end Examples

namespace Examples

/-- An object with the text-tagged field `code`; with `extra`, its additional
properties are `extra`. -/
def codeObject (extra : Option openapi3.SchemaRef) : openapi3.Schema :=
  { openapi3.Schema.zero with
    Type_ := "object",
    Properties := [("code", some (.inline (some (taggedString "text"))))],
    AdditionalProperties := extra }

/-- The document whose definition `Open` is the object `codeObject extra`. -/
def openDefs (extra : Option openapi3.SchemaRef) : openapi3.Defs := fun name =>
  if name = "Open" then some (codeObject extra) else none

end Examples

namespace Examples

/-- An array node without an items schema. -/
def bareArray : openapi3.Schema :=
  { openapi3.Schema.zero with Type_ := "array" }

/-- The document with the definitions `Arr`, the array without items, and
`Holder`, an object whose property `tags` is the array without items. -/
def bareArrayDefs : openapi3.Defs := fun name =>
  if name = "Arr" then some bareArray
  else if name = "Holder" then
    some { openapi3.Schema.zero with
           Type_ := "object",
           Properties := [("tags", some (.inline (some bareArray)))] }
  else none

end Examples

namespace Examples

/-- An inline `allOf` member whose property `y` is a string with the enum
`[1]`, a literal that is not a string. -/
def badEnumMember : openapi3.SchemaRef :=
  .inline (some
    { openapi3.Schema.zero with
      Type_ := "object",
      Properties :=
        [("y", some (.inline (some
            { openapi3.Schema.zero with Type_ := "string", Enum := [.other "1"] })))] })

end Examples

namespace Examples

/-- An integer of the unrecognized format `bogus` whose extension `x-es-tag`
is neither a string nor a list of strings (the number 5, say). -/
def bogusInteger : openapi3.Schema :=
  { openapi3.Schema.zero with
    Type_ := "integer", Format := "bogus", Extensions := [("x-es-tag", .other)] }

end Examples

namespace Examples

/-- A segment with its first letter in upper case. -/
def upperFirst (segment : String) : String :=
  match segment.data with
  | [] => ""
  | c :: cs => String.mk (c.toUpper :: cs)

/-- Helpers like `exampleEnv id`, but with a `PathToTypeName` that rewrites the
slice in place as the helper of the package does: every segment gets an
upper-case first letter, and the name joins the rewritten segments by `_`. -/
def camelEnv : Env :=
  { RefPathToGoType := fun ref => .ok ref,
    SchemaNameToTypeName := fun name => name,
    PathToTypeName := fun path => stringsJoin (path.map upperFirst) "_",
    PathToTypeNameLeaves := fun path => path.map upperFirst,
    StringToGoComment := fun s => "// " ++ s,
    mapRange := id }

end Examples

set_option maxRecDepth 100000

/-! ## The fields of a node -/

namespace openapi3

/-- A node without `Ref` has the empty `Ref`. -/
@[simp] theorem Ref_inline {α : Type} (v : Option α) : (SchemaRefOf.inline v).Ref = "" := rfl

/-- A node with `Ref` set has that `Ref`. -/
@[simp] theorem Ref_ref {α : Type} (r : String) : (SchemaRefOf.ref r : SchemaRefOf α).Ref = r := rfl

/-- The `Value` of a node without `Ref` is its own schema. -/
@[simp] theorem Value_inline (defs : Defs) (v : Option Schema) :
    (SchemaRefOf.inline v).Value defs = v := by
  simp [SchemaRefOf.Value, SchemaRefOf.inline]

/-- The `Value` of a node with `Ref` set is the named definition. -/
theorem Value_ref (defs : Defs) (r : String) (h : r ≠ "") :
    (SchemaRefOf.ref r : SchemaRef).Value defs = defs r := by
  simp [SchemaRefOf.Value, SchemaRefOf.ref, h]

end openapi3

/-! ## The cycle guard and references on the index-template path -/

namespace codegen

open openapi3 (SchemaRef Defs)
open Examples

/-- On the document `A = allOf [ $ref A ]` neither the reference to `A` nor the
definition of `A` is resolved within any recursion budget. -/
theorem allOfCycle_outOfFuel (path : List String) (fuel : Nat) :
    GenerateEsSchema allOfCycleDefs fuel (some (.ref "A")) path = .outOfFuel
      ∧ GenerateEsSchema allOfCycleDefs fuel (some (.inline (some allOfCycle))) path
          = .outOfFuel := by
  induction fuel with
  | zero => exact ⟨rfl, rfl⟩
  | succ n ih =>
    obtain ⟨ihRef, ihDef⟩ := ih
    constructor
    · cases n with
      | zero => rfl
      | succ m =>
        simp only [GenerateEsSchema]
        simp [GenEsTemplateFromReference, isDeepMapObject, isInfinityObject,
          openapi3.Ref_inline, openapi3.Ref_ref, openapi3.Value_inline, openapi3.Value_ref, allOfCycleDefs, isDuplicate,
          isDuplicate.scan, ihDef]
        simp [allOfCycle, openapi3.Schema.zero]
    · simp only [GenerateEsSchema]
      simp [openapi3.Ref_inline, openapi3.Ref_ref, openapi3.Value_inline, openapi3.Value_ref, allOfCycle,
        openapi3.Schema.zero, parseEsType, MergeSchemasForEs, GenEsTemplateFromAllOf,
        esAllOfLoop, ihRef]

/-- C1 (the code misses the case): on the document `A = allOf [ $ref A ]`, whose
reference cycle passes through an `allOf` member, the cycle guard does not
fire on the reference to `A` (`isDeepMapObject` returns the empty string), and
`GenerateEsSchema` on that reference does not return within any number of
recursive calls: for every recursion budget and path the budget is exhausted.
The walk of the guard follows properties, additional properties and array
items, never `allOf` members, so it does not see this cycle. -/
theorem GenerateEsSchema_allOf_cycle_never_returns :
    ∀ (fuel : Nat) (path : List String),
      isDeepMapObject allOfCycleDefs (fuel + 1) (some (.ref "A")) = .ok ""
        ∧ GenerateEsSchema allOfCycleDefs fuel (some (.ref "A")) path = .outOfFuel := by
  intro fuel path
  refine ⟨?_, (allOfCycle_outOfFuel path fuel).1⟩
  simp [isDeepMapObject, isInfinityObject, openapi3.Value_ref, allOfCycleDefs, isDuplicate,
    isDuplicate.scan, allOfCycle, openapi3.Schema.zero]

/-- C2 (the guard is not path-scoped): in the acyclic document `Pair`/`Item`
the sibling properties `first` and `second` of `Pair` both refer to `Item`.
The definition of `Pair` itself expands (each property to the nested `code`
field), yet on the reference to `Pair` the guard fires: `isDeepMapObject`
reports the nested marker and `GenEsTemplateFromReference` and
`GenerateEsSchema` return the bare marker, because the names visited are
collected in one list shared by all branches of the walk. -/
theorem sibling_references_trip_the_guard :
    isInfinityObject pairDefs 3 (some (.ref "Pair")) ([], false)
        = .ok (["Pair", "Item", "Item"], true)
      ∧ isDeepMapObject pairDefs 3 (some (.ref "Pair")) = .ok "\"type\": \"nested\""
      ∧ GenEsTemplateFromReference pairDefs 3 (GenerateEsSchema pairDefs 3)
          (some (.ref "Pair")) [] = .ok "\"type\": \"nested\""
      ∧ GenerateEsSchema pairDefs 4 (some (.ref "Pair")) []
          = .ok { Schema.zero with EsTemplate := "\"type\": \"nested\"" }
      ∧ (GenerateEsSchema pairDefs 4 (some (.inline (some pair))) []).value?.map
            (fun s => s.EsTemplate)
          = some ("\"properties\": \x7b\n" ++
              "\"first\": \x7b\"type\": \"nested\",\"properties\": \x7b\n" ++
              "\"code\": \x7b\"type\": \"text\",\"fields\": \x7b\"keyword\": " ++
              "\x7b\"type\": \"keyword\", \"ignore_above\" : 256\x7d\x7d\x7d\n\x7d\x7d,\n" ++
              "\"second\": \x7b\"type\": \"nested\",\"properties\": \x7b\n" ++
              "\"code\": \x7b\"type\": \"text\",\"fields\": \x7b\"keyword\": " ++
              "\x7b\"type\": \"keyword\", \"ignore_above\" : 256\x7d\x7d\x7d\n\x7d\x7d\n\x7d") := by
  refine ⟨by decide, by decide, by decide, rfl, by decide⟩

/-- What `isDeepMapObject` returns is the empty string or the nested marker. -/
theorem isDeepMapObject_ok (defs : Defs) (fuel : Nat) (reference : Option SchemaRef)
    (s : String) (h : isDeepMapObject defs fuel reference = .ok s) :
    s = "" ∨ s = "\"type\": \"nested\"" := by
  unfold isDeepMapObject at h
  split at h
  · cases h
  · cases h
  · cases h
  · split at h
    · right
      cases h
      decide
    · left
      cases h
      rfl

/-- C3: when the cycle guard fires for a reference node (`isDeepMapObject`
returns a non-empty string), `GenEsTemplateFromReference` returns exactly the
fragment `"type": "nested"` whatever the resolver it is given (the referenced
definition is not expanded), and `GenerateEsSchema` on that reference node
returns without error the schema whose `EsTemplate` is that fragment and whose
other fields, `Properties` included, are empty. -/
theorem guard_fired_gives_bare_nested (defs : Defs) (fuel : Nat)
    (reference : Option SchemaRef) (path : List String) (s : String)
    (h : isDeepMapObject defs fuel reference = .ok s) (hs : s ≠ "") :
    (∀ gen : Resolver,
        GenEsTemplateFromReference defs fuel gen reference path = .ok "\"type\": \"nested\"")
      ∧ ∀ sref : SchemaRef, reference = some sref → sref.Ref ≠ "" →
          GenerateEsSchema defs (fuel + 1) reference path
              = .ok { Schema.zero with EsTemplate := "\"type\": \"nested\"" }
            ∧ ({ Schema.zero with EsTemplate := "\"type\": \"nested\"" } : Schema).Properties = [] := by
  have hs' : s = "\"type\": \"nested\"" := by
    rcases isDeepMapObject_ok defs fuel reference s h with h0 | h1
    · exact absurd h0 hs
    · exact h1
  subst hs'
  have hgen : ∀ gen : Resolver,
      GenEsTemplateFromReference defs fuel gen reference path = .ok "\"type\": \"nested\"" := by
    intro gen
    simp [GenEsTemplateFromReference, h]
  refine ⟨hgen, ?_⟩
  intro sref hsref hne
  subst hsref
  refine ⟨?_, rfl⟩
  simp only [GenerateEsSchema]
  simp [hne, hgen]

/-- C3 at a concrete input: the self-referential `Node`. -/
theorem guard_fired_gives_bare_nested_witness :
    isDeepMapObject nodeDefs 3 (some (.ref "Node")) = .ok "\"type\": \"nested\""
      ∧ GenerateEsSchema nodeDefs 4 (some (.ref "Node")) ["Node"]
          = .ok { Schema.zero with EsTemplate := "\"type\": \"nested\"" } :=
  ⟨by decide,
    ((guard_fired_gives_bare_nested nodeDefs 3 (some (.ref "Node")) ["Node"]
      "\"type\": \"nested\"" (by decide) (by decide)).2 (.ref "Node") rfl (by decide)).1⟩

end codegen

/-! ## References on the type path -/

namespace codegen

open openapi3 (SchemaRef Defs)
open Examples

/-- C10 (reference opacity): for a node whose `Ref` is non-empty the result of
`GenerateGoSchema` is determined by the `Ref` string alone: for any two nodes
with that `Ref`, any two tables of definitions (any two referenced `Value`s),
any two paths and any two positive budgets the results are equal. The result
is either the error of the translation `RefPathToGoType`, or the schema whose
type declaration is the translated name and which has no properties, enum
values, additional properties or auxiliary types. -/
theorem GenerateGoSchema_reference_only (env : Env) (defs₁ defs₂ : Defs) (fuel₁ fuel₂ : Nat)
    (path₁ path₂ : List String) (sref₁ sref₂ : SchemaRef)
    (href : sref₁.Ref ≠ "") (hsame : sref₂.Ref = sref₁.Ref) :
    GenerateGoSchema env defs₁ (fuel₁ + 1) (some sref₁) path₁
        = GenerateGoSchema env defs₂ (fuel₂ + 1) (some sref₂) path₂
      ∧ ((∃ err, env.RefPathToGoType sref₁.Ref = .error err
            ∧ GenerateGoSchema env defs₁ (fuel₁ + 1) (some sref₁) path₁
                = .error ("error turning reference (" ++ sref₁.Ref ++ ") into a Go type: "
                    ++ err))
          ∨ ∃ name s, env.RefPathToGoType sref₁.Ref = .ok name
              ∧ GenerateGoSchema env defs₁ (fuel₁ + 1) (some sref₁) path₁ = .ok s
              ∧ s.TypeDecl = name ∧ s.Properties = [] ∧ s.EnumValues = []
              ∧ s.HasAdditionalProperties = false ∧ s.AdditionalTypes = []) := by
  have h : ∀ (defs : Defs) (fuel : Nat) (path : List String) (sref : SchemaRef),
      sref.Ref = sref₁.Ref →
      GenerateGoSchema env defs (fuel + 1) (some sref) path
        = match env.RefPathToGoType sref₁.Ref with
          | .error err =>
            .error ("error turning reference (" ++ sref₁.Ref ++ ") into a Go type: " ++ err)
          | .ok refType => .ok { Schema.zero with GoType := refType } := by
    intro defs fuel path sref hs
    simp only [GenerateGoSchema]
    rw [if_pos (by rw [hs]; exact href), hs]
  refine ⟨by rw [h _ _ _ _ rfl, h _ _ _ _ hsame], ?_⟩
  rw [h _ _ _ _ rfl]
  cases hr : env.RefPathToGoType sref₁.Ref with
  | error err => exact Or.inl ⟨err, rfl, rfl⟩
  | ok name =>
    refine Or.inr ⟨name, { Schema.zero with GoType := name }, rfl, rfl, ?_, rfl, rfl, rfl, rfl⟩
    simp [Schema.TypeDecl, Schema.IsRef, Schema.zero]

/-- C10 at a concrete input: two nodes with the reference `Item`, one read
against the document `Pair`/`Item`, the other, carrying a schema of its own,
against the document `Node`. -/
theorem GenerateGoSchema_reference_only_witness :
    GenerateGoSchema (exampleEnv id) pairDefs 1 (some (.ref "Item")) ["a"]
      = GenerateGoSchema (exampleEnv id) nodeDefs 5
          (some { Ref := "Item", Own := some node }) ["b", "c"] :=
  (GenerateGoSchema_reference_only (exampleEnv id) pairDefs nodeDefs 0 4 ["a"] ["b", "c"]
    (.ref "Item") { Ref := "Item", Own := some node } (by decide) rfl).1

end codegen

/-! ## The end-to-end fixture -/

namespace codegen

open openapi3 (SchemaRef Defs)
open Examples

/-- C7 (as stated, refuted by the code): on the fixture `fhir-code-system` the fragment of
the field `concept` is `"type": "nested","type": "nested","properties": ...`:
the array adds the nested marker to the template of its items, which the
reference to `fhir-concept` has already marked nested, so the key `"type"`
with the value `"nested"` occurs twice in the concept object, not once. -/
theorem fixture_concept_has_type_twice :
    (GenerateEsSchema fhirDefs 5 (some (.inline (some fhirCodeSystem)))
        ["fhir-code-system"]).value?.map
      (fun s => s.Properties.map (fun p =>
        (p.JsonFieldName,
          countOccurrences "\"type\": \"nested\"".data p.Schema.EsTemplate.data,
          countOccurrences "\"type\": \"nested\",\"type\": \"nested\",\"properties\"".data
            p.Schema.EsTemplate.data)))
      = some [("concept", 2, 1), ("id", 0, 0), ("status", 0, 0)] := by
  decide

/-- What `GenerateEsSchema` returns on the fixture `fhir-code-system`: it
succeeds; the properties are `concept`, `id`, `status` in this order; `id` is
`"type": "keyword"`, `status` is type text with the keyword sub-field, and
`concept` is the nested marker twice followed by the properties `code` and
`display`, each of type text with the keyword sub-field; the template is the
`"properties"` mapping of these three fields. -/
theorem fixture_index_template :
    (GenerateEsSchema fhirDefs 5 (some (.inline (some fhirCodeSystem)))
        ["fhir-code-system"]).isOk = true
      ∧ (GenerateEsSchema fhirDefs 5 (some (.inline (some fhirCodeSystem)))
            ["fhir-code-system"]).value?.map
          (fun s => s.Properties.map (fun p => (p.JsonFieldName, p.Schema.EsTemplate)))
        = some
            [("concept",
                "\"type\": \"nested\",\"type\": \"nested\",\"properties\": \x7b\n" ++
                "\"code\": \x7b" ++ textFragment ++ "\x7d,\n" ++
                "\"display\": \x7b" ++ textFragment ++ "\x7d\n\x7d"),
              ("id", "\"type\": \"keyword\""),
              ("status", textFragment)]
      ∧ (GenerateEsSchema fhirDefs 5 (some (.inline (some fhirCodeSystem)))
            ["fhir-code-system"]).value?.map (fun s => s.EsTemplate)
        = some
            ("\"properties\": \x7b\n" ++
              "\"concept\": \x7b\"type\": \"nested\",\"type\": \"nested\",\"properties\": \x7b\n" ++
              "\"code\": \x7b" ++ textFragment ++ "\x7d,\n" ++
              "\"display\": \x7b" ++ textFragment ++ "\x7d\n\x7d\x7d,\n" ++
              "\"id\": \x7b\"type\": \"keyword\"\x7d,\n" ++
              "\"status\": \x7b" ++ textFragment ++ "\x7d\n\x7d") := by
  refine ⟨by decide, by decide, by decide⟩

end codegen

/-! ## Text of the type declarations -/

namespace codegen

open openapi3 (SchemaRef Defs)
open Examples

/-- C8 (the text depends on the enumeration order): the property `name` with
the two rules `minlength` and `maxlength` gets the validate tag `min=1,max=5`
when the runtime enumerates its `Validation` map in one order and
`max=5,min=1` in the other, so `GenFieldsFromProperties` and the `GoType` of
`GenerateGoSchema` differ between two runs on the same input. -/
theorem validate_tag_depends_on_map_order :
    GenFieldsFromProperties (exampleEnv id) [twoRules]
        = ["    name string `json:\"name\" validate:\"min=1,max=5\"`"]
      ∧ GenFieldsFromProperties (exampleEnv List.reverse) [twoRules]
        = ["    name string `json:\"name\" validate:\"max=5,min=1\"`"]
      ∧ GenFieldsFromProperties (exampleEnv id) [twoRules]
        ≠ GenFieldsFromProperties (exampleEnv List.reverse) [twoRules]
      ∧ (GenerateGoSchema (exampleEnv id) (fun _ => none) 2
            (some (.inline (some bounded))) []).value?.map (fun s => s.GoType)
        = some "struct \x7b\n    name string `json:\"name\" validate:\"min=1,max=5\"`\n\x7d"
      ∧ (GenerateGoSchema (exampleEnv List.reverse) (fun _ => none) 2
            (some (.inline (some bounded))) []).value?.map (fun s => s.GoType)
        = some "struct \x7b\n    name string `json:\"name\" validate:\"max=5,min=1\"`\n\x7d" := by
  refine ⟨by decide, by decide, by decide, by decide, by decide⟩

/-- C5 (the property is kept twice): for the `allOf` of two inline members that
both declare the string property `x`, with the same type and required-ness,
`MergeSchemas` succeeds, and the merged `Properties` hold two properties named
`x`; the struct text declares the field `x` twice. -/
theorem equal_properties_are_merged_twice :
    (MergeSchemas (exampleEnv id) (GenerateGoSchema (exampleEnv id) (fun _ => none) 2)
        [some memberX, some memberX] []).value?.map
      (fun s => (s.Properties.map (fun p => (p.JsonFieldName, p.Schema.TypeDecl, p.Required)),
        s.GoType))
      = some ([("x", "string", false), ("x", "string", false)],
          "struct \x7b\n   // Embedded fields due to inline allOf schema\n" ++
          "    x *string `json:\"x,omitempty\"`\n" ++
          "   // Embedded fields due to inline allOf schema\n" ++
          "    x *string `json:\"x,omitempty\"`\n\x7d") := by
  decide

end codegen

/-! ## Order of the properties -/

/-- The comparison `charsLess` is the lexicographic order of character lists. -/
theorem charsLess_iff_lt : ∀ a b : List Char, charsLess a b = true ↔ a < b
  | [], [] => by simp [charsLess]
  | [], b :: bs => by
    simp only [charsLess, true_iff]
    exact List.nil_lt_cons b bs
  | a :: as, [] => by
    simp only [charsLess, Bool.false_eq_true, false_iff]
    exact not_lt.2 List.nil_le
  | a :: as, b :: bs => by
    have hab : a.toNat < b.toNat ↔ a < b := Iff.rfl
    have hba : b.toNat < a.toNat ↔ b < a := Iff.rfl
    unfold charsLess
    by_cases h₁ : a.toNat < b.toNat
    · simp only [h₁, if_true, true_iff]
      exact List.Lex.rel (hab.1 h₁)
    · by_cases h₂ : b.toNat < a.toNat
      · simp only [h₁, h₂, if_true, if_false, Bool.false_eq_true, false_iff]
        exact not_lt.2 (le_of_lt (List.Lex.rel (hba.1 h₂)))
      · simp only [h₁, h₂, if_false]
        have heq : a = b :=
          le_antisymm (not_lt.1 (fun h => h₂ (hba.2 h))) (not_lt.1 (fun h => h₁ (hab.2 h)))
        subst heq
        rw [charsLess_iff_lt as bs]
        exact (List.Lex.cons_iff).symm

/-- The comparison `stringLess` is the order `<` of strings. -/
theorem stringLess_iff_lt (a b : String) : stringLess a b = true ↔ a < b := by
  unfold stringLess
  rw [charsLess_iff_lt]
  exact String.lt_iff_toList_lt.symm

/-- The comparison `stringLessEq` is the order `≤` of strings. -/
theorem stringLessEq_iff_le (a b : String) : stringLessEq a b = true ↔ a ≤ b := by
  unfold stringLessEq
  rw [Bool.not_eq_true', ← Bool.not_eq_true, stringLess_iff_lt]
  exact not_lt

/-- The step `insertSorted` is the ordered insertion for `≤`. -/
theorem insertSorted_eq (a : String) (l : List String) :
    insertSorted a l = List.orderedInsert (fun x y : String => x ≤ y) a l := by
  induction l with
  | nil => rfl
  | cons b bs ih =>
    unfold insertSorted
    by_cases h : a ≤ b
    · rw [List.orderedInsert_of_le _ _ h, if_pos ((stringLessEq_iff_le a b).2 h)]
    · rw [if_neg (fun h' => h ((stringLessEq_iff_le a b).1 h')), ih]
      simp [List.orderedInsert, h]

/-- The function `sortStrings` is insertion sort for `≤`. -/
theorem sortStrings_eq (l : List String) :
    sortStrings l = List.insertionSort (fun x y : String => x ≤ y) l := by
  induction l with
  | nil => rfl
  | cons a as ih =>
    unfold sortStrings
    rw [List.insertionSort, ih, insertSorted_eq]

/-- The keys `SortedSchemaKeys` returns are the keys of the map, rearranged. -/
theorem SortedSchemaKeys_perm {α : Type} (dict : List (String × α)) :
    (SortedSchemaKeys dict).Perm (dict.map Prod.fst) := by
  unfold SortedSchemaKeys
  rw [sortStrings_eq]
  exact List.perm_insertionSort _ _

/-- The keys `SortedSchemaKeys` returns ascend, strictly when the keys of the
map are distinct. -/
theorem SortedSchemaKeys_sorted {α : Type} (dict : List (String × α))
    (hkeys : (dict.map Prod.fst).Nodup) :
    List.Sorted (fun x y : String => x < y) (SortedSchemaKeys dict) := by
  have hle : List.Sorted (fun x y : String => x ≤ y) (SortedSchemaKeys dict) := by
    unfold SortedSchemaKeys
    rw [sortStrings_eq]
    exact List.sorted_insertionSort _ _
  exact hle.lt_of_le ((SortedSchemaKeys_perm dict).nodup_iff.2 hkeys)

/-- The helper `StringInArray` is membership. -/
theorem StringInArray_iff (str : String) (array : List String) :
    StringInArray str array = true ↔ str ∈ array := by
  induction array with
  | nil => simp [StringInArray]
  | cons elt rest ih =>
    unfold StringInArray
    by_cases h : elt = str
    · simp [h]
    · have h' : ¬ str = elt := fun e => h e.symm
      simp [h, h', ih]

namespace codegen

open openapi3 (SchemaRef Defs)
open Examples

/-- A successful property loop of `GenerateGoSchema` appends one property per
key, in the order of the keys, with `Required` computed by `StringInArray`. -/
theorem goPropertyLoop_ok (env : Env) (defs : Defs) (gen : Resolver) (schema : openapi3.Schema)
    (path : List String) : ∀ (keys : List String) (acc props : List Property),
    goPropertyLoop env defs gen schema path keys acc = .ok props →
      props.map (fun p => p.JsonFieldName) = acc.map (fun p => p.JsonFieldName) ++ keys
        ∧ ∀ p ∈ props, p ∈ acc ∨ p.Required = StringInArray p.JsonFieldName schema.Required := by
  intro keys
  induction keys with
  | nil =>
    intro acc props h
    simp only [goPropertyLoop, Outcome.ok.injEq] at h
    subst h
    exact ⟨by simp, fun p hp => Or.inl hp⟩
  | cons k ks ih =>
    intro acc props h
    simp only [goPropertyLoop] at h
    split at h
    · cases h
    · cases h
    · cases h
    · split at h
      · cases h
      · split at h
        · cases h
        · cases h
        · cases h
        · split at h
          · cases h
          · obtain ⟨hn, hr⟩ := ih _ _ h
            constructor
            · rw [hn]; simp
            · intro p hp
              rcases hr p hp with hacc | hreq
              · rcases List.mem_append.1 hacc with h1 | h2
                · exact Or.inl h1
                · right
                  simp only [List.mem_singleton] at h2
                  subst h2
                  rfl
              · exact Or.inr hreq

/-- A successful property loop of `GenerateEsSchema` appends one property per
key, in the order of the keys. -/
theorem esPropertyLoop_ok (defs : Defs) (gen : Resolver) (schema : openapi3.Schema)
    (path : List String) : ∀ (keys : List String) (acc props : List Property),
    esPropertyLoop defs gen schema path keys acc = .ok props →
      props.map (fun p => p.JsonFieldName) = acc.map (fun p => p.JsonFieldName) ++ keys := by
  intro keys
  induction keys with
  | nil =>
    intro acc props h
    simp only [esPropertyLoop, Outcome.ok.injEq] at h
    subst h
    simp
  | cons k ks ih =>
    intro acc props h
    simp only [esPropertyLoop] at h
    split at h
    · cases h
    · cases h
    · cases h
    · split at h
      · cases h
      · split at h
        · cases h
        · cases h
        · cases h
        · rw [ih _ _ h]; simp

/-- Inversion of a successful object branch of `GenerateGoSchema`. -/
theorem goSchemaObject_ok (env : Env) (defs : Defs) (gen : Resolver) (schema : openapi3.Schema)
    (path : List String) (out s : Schema)
    (h : goSchemaObject env defs gen schema path out = .ok s) :
    ∃ props apt goType,
      goPropertyLoop env defs gen schema path (SortedSchemaKeys schema.Properties)
          out.Properties = .ok props
        ∧ (match schema.AdditionalProperties with
            | some additionalProperties => gen (some additionalProperties) path = .ok apt
            | none => apt = { Schema.zero with GoType := "interface\x7b\x7d" })
        ∧ GenStructFromSchema env
            { out with
              Properties := props,
              HasAdditionalProperties := SchemaHasAdditionalProperties schema,
              AdditionalPropertiesType := some apt } = .ok goType
        ∧ s = { out with
                Properties := props,
                HasAdditionalProperties := SchemaHasAdditionalProperties schema,
                AdditionalPropertiesType := some apt,
                GoType := goType } := by
  unfold goSchemaObject at h
  split at h
  · cases h
  · cases h
  · cases h
  · rename_i props hloop
    simp only [] at h
    cases hadd : schema.AdditionalProperties with
    | none =>
      simp only [hadd] at h
      split at h
      · cases h
      · cases h
      · cases h
      · rename_i goType hstruct
        cases h
        exact ⟨props, _, goType, hloop, rfl, hstruct, rfl⟩
    | some ap =>
      simp only [hadd] at h
      cases hgen : gen (some ap) path with
      | error e => simp only [hgen] at h; cases h
      | panic e => simp only [hgen] at h; cases h
      | outOfFuel => simp only [hgen] at h; cases h
      | ok apt =>
        simp only [hgen] at h
        split at h
        · cases h
        · cases h
        · cases h
        · rename_i goType hstruct
          cases h
          exact ⟨props, apt, goType, hloop, hgen, hstruct, rfl⟩

/-- The equation of `GenerateGoSchema` on a node without `Ref`, `anyOf`,
`oneOf` and `allOf`. -/
theorem GenerateGoSchema_plain (env : Env) (defs : Defs) (n : Nat) (schema : openapi3.Schema)
    (path : List String)
    (hAny : schema.AnyOf = none) (hOne : schema.OneOf = none) (hAll : schema.AllOf = none) :
    GenerateGoSchema env defs (n + 1) (some (.inline (some schema))) path
      = if schema.Type_ = "" ∨ schema.Type_ = "object" then
          if schema.Properties.length = 0 ∧ !SchemaHasAdditionalProperties schema then
            .ok { Schema.zero with
                  RefType := "",
                  GoType := if schema.Type_ = "object" then "map[string]interface\x7b\x7d"
                    else "interface\x7b\x7d" }
          else goSchemaObject env defs (GenerateGoSchema env defs n) schema path
            { Schema.zero with RefType := "" }
        else goSchemaTyped (GenerateGoSchema env defs n) schema path
          { Schema.zero with RefType := "" } := by
  simp only [GenerateGoSchema, openapi3.Ref_inline, openapi3.Value_inline, ne_eq,
    not_true_eq_false, if_false, hAny, hOne, hAll, Option.isSome_none, Bool.false_eq_true]

/-- The equation of `GenerateGoSchema` on an `allOf` node. -/
theorem GenerateGoSchema_allOf (env : Env) (defs : Defs) (n : Nat) (schema : openapi3.Schema)
    (path : List String) (allOf : List (Option SchemaRef))
    (hAny : schema.AnyOf = none) (hOne : schema.OneOf = none) (hAll : schema.AllOf = some allOf) :
    GenerateGoSchema env defs (n + 1) (some (.inline (some schema))) path
      = match MergeSchemas env (GenerateGoSchema env defs n) allOf path with
        | .error err => .error (errorsWrap err "error merging schemas")
        | .panic msg => .panic msg
        | .outOfFuel => .outOfFuel
        | .ok mergedSchema => .ok { mergedSchema with RefType := "" } := by
  simp only [GenerateGoSchema, openapi3.Ref_inline, openapi3.Value_inline, ne_eq,
    not_true_eq_false, if_false, hAny, hOne, hAll, Option.isSome_none, Bool.false_eq_true]

/-- The properties of a successful `GenerateGoSchema` on an object node with
declared properties. -/
theorem GenerateGoSchema_object_properties (env : Env) (defs : Defs) (fuel : Nat)
    (schema : openapi3.Schema) (path : List String) (s : Schema)
    (hAny : schema.AnyOf = none) (hOne : schema.OneOf = none) (hAll : schema.AllOf = none)
    (hType : schema.Type_ = "" ∨ schema.Type_ = "object") (hProps : schema.Properties ≠ [])
    (h : GenerateGoSchema env defs fuel (some (.inline (some schema))) path = .ok s) :
    s.Properties.map (fun p => p.JsonFieldName) = SortedSchemaKeys schema.Properties
      ∧ ∀ p ∈ s.Properties, p.Required = StringInArray p.JsonFieldName schema.Required := by
  cases fuel with
  | zero => simp [GenerateGoSchema] at h
  | succ n =>
    have hlen : ¬ schema.Properties.length = 0 := by
      intro h0
      exact hProps (List.length_eq_zero.1 h0)
    rw [GenerateGoSchema_plain env defs n schema path hAny hOne hAll] at h
    simp only [hType, if_true, hlen, false_and, if_false] at h
    obtain ⟨props, apt, goType, hloop, -, -, hs⟩ := goSchemaObject_ok env defs _ schema path _ s h
    obtain ⟨hn, hr⟩ := goPropertyLoop_ok env defs _ schema path _ _ _ hloop
    subst hs
    refine ⟨by rw [hn]; simp [Schema.zero], ?_⟩
    intro p hp
    rcases hr p hp with hacc | hreq
    · simp [Schema.zero] at hacc
    · exact hreq

end codegen

namespace codegen

open openapi3 (SchemaRef Defs)
open Examples

/-- Inversion of a successful object branch of `GenerateEsSchema`. -/
theorem esSchemaObject_ok (defs : Defs) (gen : Resolver) (schema : openapi3.Schema)
    (path : List String) (out s : Schema)
    (h : esSchemaObject defs gen schema path out = .ok s) :
    ∃ props,
      esPropertyLoop defs gen schema path (SortedSchemaKeys schema.Properties)
          out.Properties = .ok props
        ∧ s.Properties = props
        ∧ s.HasAdditionalProperties = SchemaHasAdditionalProperties schema
        ∧ s.AdditionalPropertiesType = some { Schema.zero with GoType := "interface\x7b\x7d" } := by
  unfold esSchemaObject at h
  split at h
  · cases h
  · cases h
  · cases h
  · rename_i props hloop
    simp only [] at h
    split at h
    · cases h
      exact ⟨props, hloop, rfl, rfl, rfl⟩
    · cases h
      exact ⟨props, hloop, rfl, rfl, rfl⟩

/-- The equation of `GenerateEsSchema` on a node without `Ref`, `anyOf`,
`oneOf` and `allOf`. -/
theorem GenerateEsSchema_plain (defs : Defs) (n : Nat) (schema : openapi3.Schema)
    (path : List String)
    (hAny : schema.AnyOf = none) (hOne : schema.OneOf = none) (hAll : schema.AllOf = none) :
    GenerateEsSchema defs (n + 1) (some (.inline (some schema))) path
      = if schema.Type_ = "" ∨ schema.Type_ = "object" then
          if schema.Properties.length = 0 ∧ !SchemaHasAdditionalProperties schema then
            .ok Schema.zero
          else esSchemaObject defs (GenerateEsSchema defs n) schema path Schema.zero
        else esSchemaTyped (GenerateEsSchema defs n) schema path Schema.zero := by
  simp only [GenerateEsSchema, openapi3.Ref_inline, openapi3.Value_inline, ne_eq,
    not_true_eq_false, if_false, hAny, hOne, hAll, Option.isSome_none, Bool.false_eq_true]

/-- The properties of a successful `GenerateEsSchema` on an object node with
declared properties. -/
theorem GenerateEsSchema_object_properties (defs : Defs) (fuel : Nat)
    (schema : openapi3.Schema) (path : List String) (s : Schema)
    (hAny : schema.AnyOf = none) (hOne : schema.OneOf = none) (hAll : schema.AllOf = none)
    (hType : schema.Type_ = "" ∨ schema.Type_ = "object") (hProps : schema.Properties ≠ [])
    (h : GenerateEsSchema defs fuel (some (.inline (some schema))) path = .ok s) :
    s.Properties.map (fun p => p.JsonFieldName) = SortedSchemaKeys schema.Properties := by
  cases fuel with
  | zero => simp [GenerateEsSchema] at h
  | succ n =>
    have hlen : ¬ schema.Properties.length = 0 := by
      intro h0
      exact hProps (List.length_eq_zero.1 h0)
    rw [GenerateEsSchema_plain defs n schema path hAny hOne hAll] at h
    simp only [hType, if_true, hlen, false_and, if_false] at h
    obtain ⟨props, hloop, hs, -, -⟩ := esSchemaObject_ok defs _ schema path _ s h
    have hn := esPropertyLoop_ok defs _ schema path _ _ _ hloop
    rw [hs, hn]
    simp [Schema.zero]

/-- C9: for an object node with declared properties (no `anyOf`, `oneOf` or
`allOf`, type empty or `object`, distinct keys) on which `GenerateGoSchema`
succeeds, the names of the result's `Properties` are the keys of the node's
`properties` map in strictly ascending order, each key once, and the
`Required` flag of each property is membership of its name in the node's
`required` list; every successful `GenerateEsSchema` on the node returns
`Properties` with the same names in the same order. -/
theorem object_properties_in_sorted_key_order (env : Env) (defs : Defs) (fuel : Nat)
    (schema : openapi3.Schema) (path : List String) (s : Schema)
    (hAny : schema.AnyOf = none) (hOne : schema.OneOf = none) (hAll : schema.AllOf = none)
    (hType : schema.Type_ = "" ∨ schema.Type_ = "object") (hProps : schema.Properties ≠ [])
    (hKeys : (schema.Properties.map Prod.fst).Nodup)
    (h : GenerateGoSchema env defs fuel (some (.inline (some schema))) path = .ok s) :
    List.Sorted (fun a b : String => a < b) (s.Properties.map (fun p => p.JsonFieldName))
      ∧ (s.Properties.map (fun p => p.JsonFieldName)).Perm (schema.Properties.map Prod.fst)
      ∧ (∀ p ∈ s.Properties, p.Required = true ↔ p.JsonFieldName ∈ schema.Required)
      ∧ ∀ (fuel' : Nat) (path' : List String) (s' : Schema),
          GenerateEsSchema defs fuel' (some (.inline (some schema))) path' = .ok s' →
            s'.Properties.map (fun p => p.JsonFieldName)
              = s.Properties.map (fun p => p.JsonFieldName) := by
  obtain ⟨hn, hr⟩ :=
    GenerateGoSchema_object_properties env defs fuel schema path s hAny hOne hAll hType hProps h
  refine ⟨?_, ?_, ?_, ?_⟩
  · rw [hn]; exact SortedSchemaKeys_sorted _ hKeys
  · rw [hn]; exact SortedSchemaKeys_perm _
  · intro p hp
    rw [hr p hp]
    exact StringInArray_iff _ _
  · intro fuel' path' s' h'
    rw [hn]
    exact GenerateEsSchema_object_properties defs fuel' schema path' s' hAny hOne hAll hType
      hProps h'

/-- C9 at a concrete input: the fixture `fhir-code-system`, whose keys are
declared in the order `id`, `status`, `concept`. -/
theorem object_properties_in_sorted_key_order_witness :
    ∃ s, GenerateGoSchema (exampleEnv id) fhirDefs 3 (some (.inline (some fhirCodeSystem))) []
          = .ok s
      ∧ s.Properties.map (fun p => p.JsonFieldName) = ["concept", "id", "status"]
      ∧ List.Sorted (fun a b : String => a < b) (s.Properties.map (fun p => p.JsonFieldName)) := by
  have hok : (GenerateGoSchema (exampleEnv id) fhirDefs 3
      (some (.inline (some fhirCodeSystem))) []).value?.map
        (fun s => s.Properties.map (fun p => p.JsonFieldName))
      = some ["concept", "id", "status"] := by decide
  cases h : GenerateGoSchema (exampleEnv id) fhirDefs 3 (some (.inline (some fhirCodeSystem))) []
    with
  | ok s =>
    rw [h] at hok
    refine ⟨s, rfl, by simpa [Outcome.value?] using hok, ?_⟩
    exact (object_properties_in_sorted_key_order (exampleEnv id) fhirDefs 3 fhirCodeSystem [] s
      rfl rfl rfl (Or.inr rfl) (by simp [fhirCodeSystem]) (by decide) h).1
  | error e => rw [h] at hok; simp [Outcome.value?] at hok
  | panic e => rw [h] at hok; simp [Outcome.value?] at hok
  | outOfFuel => rw [h] at hok; simp [Outcome.value?] at hok

end codegen

/-! ## Every node is resolved within its depth -/

namespace openapi3

/-- The depth of a schema in terms of its fields. -/
theorem Schema.depth_eq (s : Schema) :
    s.depth = max (depthMembers? s.AllOf) (max (depthRef? s.Items)
      (max (depthProps s.Properties) (depthRef? s.AdditionalProperties))) := by
  cases s
  simp [Schema.depth]

/-- Every node pointer has depth at least one. -/
theorem one_le_depthRef? (r : Option SchemaRef) : 1 ≤ depthRef? r := by
  cases r with
  | none => simp [depthRef?]
  | some r =>
    obtain ⟨ref, own⟩ := r
    cases own <;> simp [depthRef?, depthRef, depthValue]

/-- A member is at most as deep as the list. -/
theorem depthRef?_le_depthMembers (l : List (Option SchemaRef)) (m : Option SchemaRef)
    (h : m ∈ l) : depthRef? m ≤ depthMembers l := by
  induction l with
  | nil => cases h
  | cons a as ih =>
    simp only [depthMembers]
    rcases List.mem_cons.1 h with h1 | h2
    · subst h1; exact le_max_left _ _
    · exact le_trans (ih h2) (le_max_right _ _)

/-- The node of a key is at most as deep as the map. -/
theorem depthRef?_mapIndex_le (props : List (String × Option SchemaRef)) (k : String)
    (h : k ∈ props.map Prod.fst) : depthRef? (mapIndex props k) ≤ depthProps props := by
  induction props with
  | nil => cases h
  | cons a as ih =>
    obtain ⟨k', v⟩ := a
    simp only [depthProps, mapIndex]
    by_cases hk : k' = k
    · simp only [hk, if_true]
      exact le_max_left _ _
    · simp only [hk, if_false]
      have : k ∈ as.map Prod.fst := by
        simp only [List.map_cons, List.mem_cons] at h
        rcases h with h1 | h2
        · exact absurd h1.symm hk
        · exact h2
      exact le_trans (ih this) (le_max_right _ _)
end openapi3

namespace codegen
open openapi3 (SchemaRef Defs)

/-- The extension loop of `parseValidateRule` needs no recursion budget. -/
theorem customTagLoop_ne_outOfFuel : ∀ (exts : List (String × openapi3.ExtensionValue))
    (v : List (String × String)), customTagLoop exts v ≠ .outOfFuel
  | [], v => by simp [customTagLoop]
  | (key, ext) :: rest, v => by
    simp only [customTagLoop]
    split
    · split
      · exact customTagLoop_ne_outOfFuel rest _
      · exact customTagLoop_ne_outOfFuel rest _
      · simp
    · exact customTagLoop_ne_outOfFuel rest _

/-- The function `parseValidateRule` needs no recursion budget. -/
theorem parseValidateRule_ne_outOfFuel (schema : Option openapi3.Schema) (required : Bool) :
    parseValidateRule schema required ≠ .outOfFuel := by
  unfold parseValidateRule
  split
  · simp
  · lift_lets
    intros
    split
    · exact customTagLoop_ne_outOfFuel _ _
    · simp

/-- The enum loop needs no recursion budget. -/
theorem enumValuesLoop_ne_outOfFuel : ∀ (enum : List openapi3.EnumValue) (values : List String),
    enumValuesLoop enum values ≠ .outOfFuel
  | [], values => by simp [enumValuesLoop]
  | .str s :: rest, values => by
    simp only [enumValuesLoop]
    exact enumValuesLoop_ne_outOfFuel rest _
  | .other _ :: _, _ => by simp [enumValuesLoop]

/-- The function `GenStructFromSchema` needs no recursion budget. -/
theorem GenStructFromSchema_ne_outOfFuel (env : Env) (schema : Schema) :
    GenStructFromSchema env schema ≠ .outOfFuel := by
  unfold GenStructFromSchema
  simp only []
  split
  · split <;> simp
  · simp

/-- The property loop of `GenerateGoSchema` exhausts the budget only when the resolver does on a property. -/
theorem goPropertyLoop_outOfFuel (env : Env) (defs : Defs) (gen : Resolver)
    (schema : openapi3.Schema) (path : List String) :
    ∀ (keys : List String) (acc : List Property),
      goPropertyLoop env defs gen schema path keys acc = .outOfFuel →
        ∃ k ∈ keys, gen (openapi3.mapIndex schema.Properties k) (path ++ [k]) = .outOfFuel := by
  intro keys
  induction keys with
  | nil => intro acc h; simp [goPropertyLoop] at h
  | cons k ks ih =>
    intro acc h
    simp only [goPropertyLoop] at h
    split at h
    · cases h
    · cases h
    · rename_i hg
      exact ⟨k, List.mem_cons_self _ _, hg⟩
    · split at h
      · cases h
      · split at h
        · cases h
        · cases h
        · rename_i hv
          exact absurd hv (parseValidateRule_ne_outOfFuel _ _)
        · split at h
          · cases h
          · obtain ⟨k', hk', hg⟩ := ih _ h
            exact ⟨k', List.mem_cons_of_mem _ hk', hg⟩

/-- A successful loop over the properties of a member appends them all. -/
theorem mergePropertyLoop_ok : ∀ (ps : List Property) (out out' : Schema),
    mergePropertyLoop ps out = .ok out' →
      out' = { out with Properties := out.Properties ++ ps } := by
  intro ps
  induction ps with
  | nil => intro out out' h; simp only [mergePropertyLoop, Except.ok.injEq] at h; subst h; cases out; simp
  | cons p rest ih =>
    intro out out' h
    simp only [mergePropertyLoop] at h
    split at h
    · cases h
    · rename_i o ho
      have := ih _ _ h
      subst this
      simp only [Schema.MergeProperty] at ho
      split at ho
      · cases ho
      · cases ho
        simp

/-- The member loop of `MergeSchemas` exhausts the budget only when the resolver does on a member. -/
theorem mergeSchemasLoop_outOfFuel (env : Env) (gen : Resolver) (path : List String) :
    ∀ (ms : List (Option SchemaRef)) (out : Schema),
      mergeSchemasLoop env gen path ms out = .outOfFuel →
        ∃ m ∈ ms, gen m path = .outOfFuel := by
  intro ms
  induction ms with
  | nil => intro out h; simp [mergeSchemasLoop] at h
  | cons m rest ih =>
    intro out h
    have step : ∀ o, mergeSchemasLoop env gen path rest o = .outOfFuel →
        ∃ m' ∈ m :: rest, gen m' path = .outOfFuel := by
      intro o ho
      obtain ⟨m', hm', hg⟩ := ih o ho
      exact ⟨m', List.mem_cons_of_mem _ hm', hg⟩
    simp only [mergeSchemasLoop] at h
    split at h
    · cases h
    · split at h
      · cases h
      · split at h
        · cases h
        · cases h
        · rename_i hg
          exact ⟨_, List.mem_cons_self _ _, hg⟩
        · split at h
          · cases h
          · split at h
            · split at h
              · split at h
                · split at h
                  · cases h
                  · exact step _ h
                · cases h
              · exact step _ h
            · exact step _ h

/-- The member loop of `GenStructFromAllOf` exhausts the budget only when the resolver does on a member. -/
theorem genStructFromAllOfLoop_outOfFuel (env : Env) (gen : Resolver) (path : List String) :
    ∀ (ms : List (Option SchemaRef)) (parts : List String),
      genStructFromAllOfLoop env gen path ms parts = .outOfFuel →
        ∃ m ∈ ms, gen m path = .outOfFuel := by
  intro ms
  induction ms with
  | nil => intro parts h; simp [genStructFromAllOfLoop] at h
  | cons m rest ih =>
    intro parts h
    have step : ∀ o, genStructFromAllOfLoop env gen path rest o = .outOfFuel →
        ∃ m' ∈ m :: rest, gen m' path = .outOfFuel := by
      intro o ho
      obtain ⟨m', hm', hg⟩ := ih o ho
      exact ⟨m', List.mem_cons_of_mem _ hm', hg⟩
    simp only [genStructFromAllOfLoop] at h
    split at h
    · cases h
    · split at h
      · split at h
        · cases h
        · exact step _ h
      · split at h
        · cases h
        · cases h
        · rename_i hg
          exact ⟨_, List.mem_cons_self _ _, hg⟩
        · exact step _ h

/-- The function `MergeSchemas` exhausts the budget only when the resolver does on a member. -/
theorem MergeSchemas_outOfFuel (env : Env) (gen : Resolver) (path : List String)
    (ms : List (Option SchemaRef)) (h : MergeSchemas env gen ms path = .outOfFuel) :
    ∃ m ∈ ms, gen m path = .outOfFuel := by
  unfold MergeSchemas at h
  split at h
  · cases h
  · cases h
  · rename_i hl
    exact mergeSchemasLoop_outOfFuel env gen path ms _ hl
  · unfold GenStructFromAllOf at h
    split at h
    · cases h
    · cases h
    · rename_i hs
      split at hs
      · cases hs
      · cases hs
      · rename_i hl
        exact genStructFromAllOfLoop_outOfFuel env gen path ms _ hl
      · cases hs
    · cases h

/-- The object branch exhausts the budget only when the resolver does on a property or on the additional properties. -/
theorem goSchemaObject_outOfFuel (env : Env) (defs : Defs) (gen : Resolver)
    (schema : openapi3.Schema) (path : List String) (out : Schema)
    (h : goSchemaObject env defs gen schema path out = .outOfFuel) :
    (∃ k ∈ SortedSchemaKeys schema.Properties,
        gen (openapi3.mapIndex schema.Properties k) (path ++ [k]) = .outOfFuel)
      ∨ gen schema.AdditionalProperties path = .outOfFuel := by
  unfold goSchemaObject at h
  split at h
  · cases h
  · cases h
  · rename_i hloop
    exact Or.inl (goPropertyLoop_outOfFuel env defs gen schema path _ _ hloop)
  · simp only [] at h
    cases hadd : schema.AdditionalProperties with
    | none =>
      simp only [hadd] at h
      split at h
      · cases h
      · cases h
      · rename_i hs
        exact absurd hs (GenStructFromSchema_ne_outOfFuel _ _)
      · cases h
    | some ap =>
      simp only [hadd] at h
      cases hgen : gen (some ap) path with
      | error e => simp only [hgen] at h; cases h
      | panic e => simp only [hgen] at h; cases h
      | outOfFuel => exact Or.inr rfl
      | ok apt =>
        simp only [hgen] at h
        split at h
        · cases h
        · cases h
        · rename_i hs
          exact absurd hs (GenStructFromSchema_ne_outOfFuel _ _)
        · cases h

/-- The typed branch exhausts the budget only when the resolver does on the items. -/
theorem goSchemaTyped_outOfFuel (gen : Resolver) (schema : openapi3.Schema)
    (path : List String) (out : Schema)
    (h : goSchemaTyped gen schema path out = .outOfFuel) :
    gen schema.Items path = .outOfFuel := by
  unfold goSchemaTyped at h
  simp only [] at h
  split at h
  · split at h
    · cases h
    · cases h
    · rename_i hg; exact hg
    · cases h
  · split at h
    · split at h
      · cases h
      · split at h
        · cases h
        · split at h <;> cases h
    · split at h
      · split at h
        · cases h
        · split at h <;> cases h
      · split at h
        · split at h <;> cases h
        · split at h
          · split at h
            · cases h
            · cases h
            · rename_i he
              exact absurd he (enumValuesLoop_ne_outOfFuel _ _)
            · split at h
              · cases h
              · split at h
                · cases h
                · split at h
                  · cases h
                  · split at h <;> cases h
          · cases h

/-- The function `GenerateGoSchema` is total: with a budget of at least the depth of the node it returns a schema, returns an error or panics. -/
theorem GenerateGoSchema_ne_outOfFuel (env : Env) (defs : Defs) :
    ∀ (fuel : Nat) (sref : Option SchemaRef) (path : List String),
      openapi3.depthRef? sref ≤ fuel → GenerateGoSchema env defs fuel sref path ≠ .outOfFuel := by
  intro fuel
  induction fuel with
  | zero =>
    intro sref path h
    have := openapi3.one_le_depthRef? sref
    omega
  | succ n ih =>
    intro sref path hd
    cases sref with
    | none => simp [GenerateGoSchema]
    | some sref =>
      obtain ⟨ref, own⟩ := sref
      by_cases href : ref = ""
      · subst href
        cases own with
        | none =>
          simp [GenerateGoSchema, openapi3.SchemaRefOf.Value]
        | some schema =>
          have hs : schema.depth ≤ n := by
            simp only [openapi3.depthRef?, openapi3.depthRef, openapi3.depthValue] at hd
            omega
          rw [openapi3.Schema.depth_eq] at hs
          have hAllOf : openapi3.depthMembers? schema.AllOf ≤ n := le_trans (le_max_left _ _) hs
          have hItems : openapi3.depthRef? schema.Items ≤ n :=
            le_trans (le_trans (le_max_left _ _) (le_max_right _ _)) hs
          have hProps : openapi3.depthProps schema.Properties ≤ n :=
            le_trans (le_trans (le_trans (le_max_left _ _) (le_max_right _ _))
              (le_max_right _ _)) hs
          have hAddl : openapi3.depthRef? schema.AdditionalProperties ≤ n :=
            le_trans (le_trans (le_trans (le_max_right _ _) (le_max_right _ _))
              (le_max_right _ _)) hs
          have hnode : (⟨"", some schema⟩ : SchemaRef) = .inline (some schema) := rfl
          rw [hnode]
          cases hAny : schema.AnyOf with
          | some a => simp [GenerateGoSchema, hAny]
          | none =>
            cases hOne : schema.OneOf with
            | some a => simp [GenerateGoSchema, hAny, hOne]
            | none =>
              cases hAll : schema.AllOf with
              | some allOf =>
                rw [GenerateGoSchema_allOf env defs n schema path allOf hAny hOne hAll]
                rw [hAll] at hAllOf
                simp only [openapi3.depthMembers?] at hAllOf
                split
                · simp
                · simp
                · rename_i hm
                  obtain ⟨m, hmem, hg⟩ := MergeSchemas_outOfFuel env _ path allOf hm
                  exact absurd hg (ih m path
                    (le_trans (openapi3.depthRef?_le_depthMembers allOf m hmem) hAllOf))
                · simp
              | none =>
                rw [GenerateGoSchema_plain env defs n schema path hAny hOne hAll]
                split
                · split
                  · simp
                  · intro h
                    rcases goSchemaObject_outOfFuel env defs _ schema path _ h with
                      ⟨k, hk, hg⟩ | hg
                    · have hk' : k ∈ schema.Properties.map Prod.fst :=
                        (SortedSchemaKeys_perm schema.Properties).mem_iff.1 hk
                      exact ih _ _ (le_trans
                        (openapi3.depthRef?_mapIndex_le schema.Properties k hk') hProps) hg
                    · exact ih _ _ hAddl hg
                · intro h
                  exact ih _ _ hItems (goSchemaTyped_outOfFuel _ schema path _ h)
      · simp only [GenerateGoSchema, ne_eq, href, not_false_eq_true, if_true]
        split <;> simp
end codegen

/-! ## Merging the members of an `allOf` -/

namespace codegen

open openapi3 (SchemaRef Defs)

/-- The test `PropertiesEqual` compares name, type declaration and required-ness. -/
theorem PropertiesEqual_iff (a b : Property) :
    PropertiesEqual a b = true ↔
      a.JsonFieldName = b.JsonFieldName ∧ a.Schema.TypeDecl = b.Schema.TypeDecl
        ∧ a.Required = b.Required := by
  simp [PropertiesEqual, and_assoc]

/-- A property does not conflict with itself. -/
theorem Compatible.refl (p : Property) : Compatible p p := by
  intro _
  simp [PropertiesEqual_iff]

/-- Absence of conflict is symmetric. -/
theorem Compatible.symm {e p : Property} (h : Compatible e p) : Compatible p e := by
  intro hn
  have := (PropertiesEqual_iff e p).1 (h hn.symm)
  exact (PropertiesEqual_iff p e).2 ⟨this.1.symm, this.2.1.symm, this.2.2.symm⟩

/-- The test of the scan of `MergeProperty` is the negation of `Compatible`. -/
theorem conflict_test_iff (e p : Property) :
    (e.JsonFieldName == p.JsonFieldName && !PropertiesEqual e p) = true ↔ ¬ Compatible e p := by
  unfold Compatible
  simp only [Bool.and_eq_true, beq_iff_eq, Bool.not_eq_true', Classical.not_imp,
    Bool.not_eq_true]

/-- The scan of `MergeProperty` finds nothing exactly when no existing property conflicts. -/
theorem conflict_eq_none_iff (p : Property) (l : List Property) :
    MergeProperty.conflict p l = none ↔ ∀ e ∈ l, Compatible e p := by
  induction l with
  | nil => simp [MergeProperty.conflict]
  | cons e rest ih =>
    simp only [MergeProperty.conflict, List.mem_cons, forall_eq_or_imp]
    by_cases hc : Compatible e p
    · rw [if_neg (fun h => (conflict_test_iff e p).1 h hc), ih]
      exact ⟨fun h => ⟨hc, h⟩, fun h => h.2⟩
    · rw [if_pos ((conflict_test_iff e p).2 hc)]
      constructor
      · intro h; cases h
      · intro h; exact absurd h.1 hc

/-- The method `MergeProperty` succeeds exactly when no existing property conflicts, and then appends the property. -/
theorem MergeProperty_ok_iff (s : Schema) (p : Property) (s' : Schema) :
    s.MergeProperty p = .ok s' ↔
      (∀ e ∈ s.Properties, Compatible e p) ∧ s' = { s with Properties := s.Properties ++ [p] } := by
  unfold Schema.MergeProperty
  cases hc : MergeProperty.conflict p s.Properties with
  | none =>
    simp only [Except.ok.injEq]
    rw [conflict_eq_none_iff] at hc
    constructor
    · intro h; exact ⟨hc, h.symm⟩
    · intro h; exact h.2.symm
  | some name =>
    have : ¬ ∀ e ∈ s.Properties, Compatible e p := by
      intro h
      rw [(conflict_eq_none_iff p s.Properties).2 h] at hc
      cases hc
    simp [this]

/-- The loop over the properties of a member succeeds exactly when they conflict neither with the existing properties nor with each other, and then appends them all. -/
theorem mergePropertyLoop_ok_iff : ∀ (ps : List Property) (out out' : Schema),
    mergePropertyLoop ps out = .ok out' ↔
      ((∀ e ∈ out.Properties, ∀ p ∈ ps, Compatible e p) ∧ ps.Pairwise Compatible)
        ∧ out' = { out with Properties := out.Properties ++ ps } := by
  intro ps
  induction ps with
  | nil =>
    intro out out'
    simp only [mergePropertyLoop, Except.ok.injEq, List.not_mem_nil, false_imp_iff,
      implies_true, List.Pairwise.nil, and_self, true_and, List.append_nil]
    constructor
    · intro h; subst h; cases out; rfl
    · intro h; rw [h]; cases out; rfl
  | cons p rest ih =>
    intro out out'
    simp only [mergePropertyLoop]
    cases hm : out.MergeProperty p with
    | error e =>
      constructor
      · intro h; cases h
      · rintro ⟨⟨hc, -⟩, -⟩
        exfalso
        have : out.MergeProperty p = .ok { out with Properties := out.Properties ++ [p] } :=
          (MergeProperty_ok_iff _ _ _).2 ⟨fun e he => hc e he p (List.mem_cons_self _ _), rfl⟩
        rw [this] at hm
        cases hm
    | ok o =>
      obtain ⟨hcp, ho⟩ := (MergeProperty_ok_iff _ _ _).1 hm
      subst ho
      rw [ih]
      simp only [List.pairwise_cons, List.append_assoc, List.singleton_append]
      constructor
      · rintro ⟨⟨h1, h2⟩, h3⟩
        refine ⟨⟨?_, ?_, h2⟩, h3⟩
        · intro e he q hq
          rcases List.mem_cons.1 hq with hq | hq
          · subst hq; exact hcp e he
          · exact h1 e (List.mem_append_left _ he) q hq
        · intro q hq
          exact h1 p (List.mem_append_right _ (List.mem_singleton_self p)) q hq
      · rintro ⟨⟨h1, h2, h3⟩, h4⟩
        refine ⟨⟨?_, h3⟩, h4⟩
        intro e he q hq
        rcases List.mem_append.1 he with he | he
        · exact h1 e he q (List.mem_cons_of_mem _ hq)
        · rw [List.mem_singleton] at he
          subst he; exact h2 q hq

/-- Inversion of a successful member loop of `MergeSchemas`: the merged properties are pairwise free of conflict, they contain the properties of every member, and every member with open additional properties agrees with the merged schema on their type declaration. -/
theorem mergeSchemasLoop_ok (env : Env) (gen : Resolver) (path : List String) :
    ∀ (ms : List (Option SchemaRef)) (out out' : Schema),
      mergeSchemasLoop env gen path ms out = .ok out' →
      out.Properties.Pairwise Compatible →
        out'.Properties.Pairwise Compatible
          ∧ (∀ p ∈ out.Properties, p ∈ out'.Properties)
          ∧ (out.HasAdditionalProperties = true →
              out'.HasAdditionalProperties = true
                ∧ out'.AdditionalPropertiesType = out.AdditionalPropertiesType)
          ∧ ∀ m ∈ ms, ∃ s, gen m path = .ok s
              ∧ (∀ p ∈ s.Properties, p ∈ out'.Properties)
              ∧ (s.HasAdditionalProperties = true →
                  out'.HasAdditionalProperties = true
                    ∧ s.additionalTypeDecl = out'.additionalTypeDecl) := by
  intro ms
  induction ms with
  | nil =>
    intro out out' h hpw
    simp only [mergeSchemasLoop, Outcome.ok.injEq] at h
    subst h
    exact ⟨hpw, fun p hp => hp, fun h => ⟨h, rfl⟩, fun m hm => by cases hm⟩
  | cons m rest ih =>
    intro out out' h hpw
    simp only [mergeSchemasLoop] at h
    split at h
    · cases h
    · rename_i member
      split at h
      · cases h
      · rename_i refType hrefType
        cases hg : gen (some member) path with
        | error e => simp only [hg] at h; cases h
        | panic e => simp only [hg] at h; cases h
        | outOfFuel => simp only [hg] at h; cases h
        | ok schema =>
          simp only [hg] at h
          cases hmp : mergePropertyLoop schema.Properties out with
          | error e => simp only [hmp] at h; cases h
          | ok out1 =>
            simp only [hmp] at h
            obtain ⟨⟨hc1, hc2⟩, hout1⟩ := (mergePropertyLoop_ok_iff _ _ _).1 hmp
            have hpw1 : out1.Properties.Pairwise Compatible := by
              rw [hout1]
              exact List.pairwise_append.2 ⟨hpw, hc2, hc1⟩
            have hsub1 : ∀ p ∈ out.Properties, p ∈ out1.Properties := by
              intro p hp; rw [hout1]; exact List.mem_append_left _ hp
            have hsub2 : ∀ p ∈ schema.Properties, p ∈ out1.Properties := by
              intro p hp; rw [hout1]; exact List.mem_append_right _ hp
            have hadd1 : out1.HasAdditionalProperties = out.HasAdditionalProperties := by
              rw [hout1]
            have htype1 : out1.AdditionalPropertiesType = out.AdditionalPropertiesType := by
              rw [hout1]
            have hmem : ∀ m' ∈ some member :: rest, m' = some member ∨ m' ∈ rest :=
              fun m' hm' => List.mem_cons.1 hm'
            cases hsa : schema.HasAdditionalProperties with
            | false =>
              simp only [hsa, Bool.false_eq_true, if_false] at h
              obtain ⟨i1, i2, i3, i4⟩ := ih out1 out' h hpw1
              refine ⟨i1, fun p hp => i2 p (hsub1 p hp), ?_, ?_⟩
              · intro ho
                obtain ⟨j1, j2⟩ := i3 (hadd1.trans ho)
                exact ⟨j1, j2.trans htype1⟩
              · intro m' hm'
                rcases hmem m' hm' with hm' | hm'
                · subst hm'
                  refine ⟨schema, hg, fun p hp => i2 p (hsub2 p hp), ?_⟩
                  intro hs
                  rw [hsa] at hs
                  cases hs
                · exact i4 m' hm'
            | true =>
              simp only [hsa, if_true] at h
              cases hoa : out1.HasAdditionalProperties with
              | true =>
                simp only [hoa, if_true] at h
                split at h
                · rename_i a b ha hb
                  split at h
                  · cases h
                  · rename_i hab
                    have hab' : a.TypeDecl = b.TypeDecl := not_not.1 hab
                    obtain ⟨i1, i2, i3, i4⟩ := ih out1 out' h hpw1
                    obtain ⟨j1, j2⟩ := i3 hoa
                    refine ⟨i1, fun p hp => i2 p (hsub1 p hp), ?_, ?_⟩
                    · intro _
                      exact ⟨j1, j2.trans htype1⟩
                    · intro m' hm'
                      rcases hmem m' hm' with hm' | hm'
                      · subst hm'
                        refine ⟨schema, hg, fun p hp => i2 p (hsub2 p hp), ?_⟩
                        intro _
                        refine ⟨j1, ?_⟩
                        simp only [Schema.additionalTypeDecl, j2] at ha hb ⊢
                        rw [ha, hb]
                        simp [hab']
                      · exact i4 m' hm'
                · cases h
              | false =>
                simp only [hoa, Bool.false_eq_true, if_false] at h
                obtain ⟨i1, i2, i3, i4⟩ := ih _ out' h hpw1
                obtain ⟨j1, j2⟩ := i3 rfl
                refine ⟨i1, fun p hp => i2 p (hsub1 p hp), ?_, ?_⟩
                · intro ho
                  rw [hadd1, ho] at hoa
                  cases hoa
                · intro m' hm'
                  rcases hmem m' hm' with hm' | hm'
                  · subst hm'
                    refine ⟨schema, hg, fun p hp => i2 p (hsub2 p hp), ?_⟩
                    intro _
                    refine ⟨j1, ?_⟩
                    simp only [Schema.additionalTypeDecl, j2]
                  · exact i4 m' hm'
end codegen

namespace codegen
open openapi3 (SchemaRef Defs)

/-- Where open additional properties of a merged schema come from: the
initial schema or a member. -/
theorem mergeSchemasLoop_open (env : Env) (gen : Resolver) (path : List String) :
    ∀ (ms : List (Option SchemaRef)) (out out' : Schema),
      mergeSchemasLoop env gen path ms out = .ok out' →
      out'.HasAdditionalProperties = true →
        out.HasAdditionalProperties = true
          ∨ ∃ m ∈ ms, ∃ s, gen m path = .ok s ∧ s.HasAdditionalProperties = true := by
  intro ms
  induction ms with
  | nil =>
    intro out out' h ho
    simp only [mergeSchemasLoop, Outcome.ok.injEq] at h
    subst h
    exact Or.inl ho
  | cons m rest ih =>
    intro out out' h ho
    simp only [mergeSchemasLoop] at h
    split at h
    · cases h
    · rename_i member
      split at h
      · cases h
      · cases hg : gen (some member) path with
        | error e => simp only [hg] at h; cases h
        | panic e => simp only [hg] at h; cases h
        | outOfFuel => simp only [hg] at h; cases h
        | ok schema =>
          simp only [hg] at h
          cases hmp : mergePropertyLoop schema.Properties out with
          | error e => simp only [hmp] at h; cases h
          | ok out1 =>
            simp only [hmp] at h
            obtain ⟨-, hout1⟩ := (mergePropertyLoop_ok_iff _ _ _).1 hmp
            have hadd1 : out1.HasAdditionalProperties = out.HasAdditionalProperties := by
              rw [hout1]
            have lift : (∃ m ∈ rest, ∃ s, gen m path = .ok s ∧ s.HasAdditionalProperties = true) →
                ∃ m ∈ some member :: rest, ∃ s, gen m path = .ok s
                  ∧ s.HasAdditionalProperties = true := by
              rintro ⟨m', hm', s, hs⟩
              exact ⟨m', List.mem_cons_of_mem _ hm', s, hs⟩
            cases hsa : schema.HasAdditionalProperties with
            | false =>
              simp only [hsa, Bool.false_eq_true, if_false] at h
              rcases ih out1 out' h ho with h1 | h2
              · exact Or.inl (hadd1 ▸ h1)
              · exact Or.inr (lift h2)
            | true =>
              exact Or.inr ⟨some member, List.mem_cons_self _ _, schema, hg, hsa⟩

/-- The member loop of `MergeSchemas` panics only on a nil member, on a member
whose resolution panics, or on open additional properties without a type. -/
theorem mergeSchemasLoop_panic (env : Env) (gen : Resolver) (path : List String) :
    ∀ (ms : List (Option SchemaRef)) (out : Schema) (msg : String),
      mergeSchemasLoop env gen path ms out = .panic msg →
      (out.HasAdditionalProperties = true → out.AdditionalPropertiesType.isSome = true) →
        ∃ m ∈ ms, m = none ∨ (∃ msg', gen m path = .panic msg')
          ∨ ∃ s, gen m path = .ok s ∧ s.HasAdditionalProperties = true
              ∧ s.AdditionalPropertiesType = none := by
  intro ms
  induction ms with
  | nil => intro out msg h; simp [mergeSchemasLoop] at h
  | cons m rest ih =>
    intro out msg h hinv
    have step : ∀ o, mergeSchemasLoop env gen path rest o = .panic msg →
        (o.HasAdditionalProperties = true → o.AdditionalPropertiesType.isSome = true) →
        ∃ m' ∈ m :: rest, m' = none ∨ (∃ msg', gen m' path = .panic msg')
          ∨ ∃ s, gen m' path = .ok s ∧ s.HasAdditionalProperties = true
              ∧ s.AdditionalPropertiesType = none := by
      intro o ho hio
      obtain ⟨m', hm', hg⟩ := ih o msg ho hio
      exact ⟨m', List.mem_cons_of_mem _ hm', hg⟩
    simp only [mergeSchemasLoop] at h
    split at h
    · exact ⟨none, List.mem_cons_self _ _, Or.inl rfl⟩
    · rename_i member
      split at h
      · cases h
      · cases hg : gen (some member) path with
        | error e => simp only [hg] at h; cases h
        | panic e => exact ⟨some member, List.mem_cons_self _ _, Or.inr (Or.inl ⟨e, hg⟩)⟩
        | outOfFuel => simp only [hg] at h; cases h
        | ok schema =>
          simp only [hg] at h
          cases hmp : mergePropertyLoop schema.Properties out with
          | error e => simp only [hmp] at h; cases h
          | ok out1 =>
            simp only [hmp] at h
            obtain ⟨-, hout1⟩ := (mergePropertyLoop_ok_iff _ _ _).1 hmp
            have hinv1 : out1.HasAdditionalProperties = true →
                out1.AdditionalPropertiesType.isSome = true := by
              rw [hout1]; exact hinv
            cases hsa : schema.HasAdditionalProperties with
            | false =>
              simp only [hsa, Bool.false_eq_true, if_false] at h
              exact step out1 h hinv1
            | true =>
              simp only [hsa, if_true] at h
              cases hst : schema.AdditionalPropertiesType with
              | none =>
                exact ⟨some member, List.mem_cons_self _ _,
                  Or.inr (Or.inr ⟨schema, hg, hsa, hst⟩)⟩
              | some a =>
                cases hoa : out1.HasAdditionalProperties with
                | true =>
                  simp only [hoa, if_true, hst] at h
                  have := hinv1 hoa
                  cases hot : out1.AdditionalPropertiesType with
                  | none => rw [hot] at this; cases this
                  | some b =>
                    simp only [hot] at h
                    split at h
                    · cases h
                    · exact step out1 h hinv1
                | false =>
                  simp only [hoa, Bool.false_eq_true, if_false] at h
                  refine step _ h ?_
                  intro _
                  simp [hst]

/-- The member loop of `GenStructFromAllOf` panics only on a nil member or on
a member whose resolution panics. -/
theorem genStructFromAllOfLoop_panic (env : Env) (gen : Resolver) (path : List String) :
    ∀ (ms : List (Option SchemaRef)) (parts : List String) (msg : String),
      genStructFromAllOfLoop env gen path ms parts = .panic msg →
        ∃ m ∈ ms, m = none ∨ ∃ msg', gen m path = .panic msg' := by
  intro ms
  induction ms with
  | nil => intro parts msg h; simp [genStructFromAllOfLoop] at h
  | cons m rest ih =>
    intro parts msg h
    have step : ∀ o, genStructFromAllOfLoop env gen path rest o = .panic msg →
        ∃ m' ∈ m :: rest, m' = none ∨ ∃ msg', gen m' path = .panic msg' := by
      intro o ho
      obtain ⟨m', hm', hg⟩ := ih o msg ho
      exact ⟨m', List.mem_cons_of_mem _ hm', hg⟩
    simp only [genStructFromAllOfLoop] at h
    split at h
    · exact ⟨none, List.mem_cons_self _ _, Or.inl rfl⟩
    · rename_i member
      split at h
      · split at h
        · cases h
        · exact step _ h
      · cases hg : gen (some member) path with
        | error e => simp only [hg] at h; cases h
        | panic e => exact ⟨some member, List.mem_cons_self _ _, Or.inr ⟨e, hg⟩⟩
        | outOfFuel => simp only [hg] at h; cases h
        | ok schema =>
          simp only [hg] at h
          exact step _ h

/-- Inversion of a successful `MergeSchemas`: the member loop succeeded and the
result is its schema with the struct text as `GoType`. -/
theorem MergeSchemas_ok (env : Env) (gen : Resolver) (path : List String)
    (ms : List (Option SchemaRef)) (out' : Schema)
    (h : MergeSchemas env gen ms path = .ok out') :
    ∃ out goType, mergeSchemasLoop env gen path ms Schema.zero = .ok out
      ∧ GenStructFromAllOf env gen ms path = .ok goType
      ∧ out' = { out with GoType := goType } := by
  unfold MergeSchemas at h
  split at h
  · cases h
  · cases h
  · cases h
  · rename_i out hloop
    split at h
    · cases h
    · cases h
    · cases h
    · rename_i goType hstruct
      cases h
      exact ⟨out, goType, hloop, hstruct, rfl⟩

/-- The function `MergeSchemas` panics only on a nil member, on a member whose
resolution panics, or on open additional properties without a type. -/
theorem MergeSchemas_panic (env : Env) (gen : Resolver) (path : List String)
    (ms : List (Option SchemaRef)) (msg : String)
    (h : MergeSchemas env gen ms path = .panic msg) :
    ∃ m ∈ ms, m = none ∨ (∃ msg', gen m path = .panic msg')
      ∨ ∃ s, gen m path = .ok s ∧ s.HasAdditionalProperties = true
          ∧ s.AdditionalPropertiesType = none := by
  unfold MergeSchemas at h
  split at h
  · cases h
  · rename_i msg' hloop
    cases h
    exact mergeSchemasLoop_panic env gen path ms _ _ hloop (by simp [Schema.zero])
  · cases h
  · unfold GenStructFromAllOf at h
    split at h
    · cases h
    · rename_i msg' hs
      cases h
      split at hs
      · cases hs
      · rename_i hl
        cases hs
        obtain ⟨m, hm, hg⟩ := genStructFromAllOfLoop_panic env gen path ms _ _ hl
        rcases hg with hg | hg
        · exact ⟨m, hm, Or.inl hg⟩
        · exact ⟨m, hm, Or.inr (Or.inl hg)⟩
      · cases hs
      · cases hs
    · cases h
    · cases h

/-- The typed branch of `GenerateGoSchema` keeps the fields of `outSchema`
other than `GoType`, `Properties`, `EnumValues` and `SkipOptionalPointer`. -/
theorem goSchemaTyped_ok (gen : Resolver) (schema : openapi3.Schema) (path : List String)
    (out s : Schema) (h : goSchemaTyped gen schema path out = .ok s) :
    s.HasAdditionalProperties = out.HasAdditionalProperties
      ∧ s.AdditionalPropertiesType = out.AdditionalPropertiesType
      ∧ s.RefType = out.RefType ∧ s.AdditionalTypes = out.AdditionalTypes := by
  unfold goSchemaTyped at h
  simp only [] at h
  split at h
  · split at h
    · cases h
    · cases h
    · cases h
    · cases h; exact ⟨rfl, rfl, rfl, rfl⟩
  · split at h
    · split at h
      · cases h; exact ⟨rfl, rfl, rfl, rfl⟩
      · split at h
        · cases h; exact ⟨rfl, rfl, rfl, rfl⟩
        · split at h
          · cases h; exact ⟨rfl, rfl, rfl, rfl⟩
          · cases h
    · split at h
      · split at h
        · cases h; exact ⟨rfl, rfl, rfl, rfl⟩
        · split at h
          · cases h; exact ⟨rfl, rfl, rfl, rfl⟩
          · cases h
      · split at h
        · split at h
          · cases h
          · cases h; exact ⟨rfl, rfl, rfl, rfl⟩
        · split at h
          · split at h
            · cases h
            · cases h
            · cases h
            · split at h
              · cases h; exact ⟨rfl, rfl, rfl, rfl⟩
              · split at h
                · cases h; exact ⟨rfl, rfl, rfl, rfl⟩
                · split at h
                  · cases h; exact ⟨rfl, rfl, rfl, rfl⟩
                  · split at h
                    · cases h; exact ⟨rfl, rfl, rfl, rfl⟩
                    · cases h; exact ⟨rfl, rfl, rfl, rfl⟩
          · cases h

/-- A schema `GenerateGoSchema` returns with open additional properties
carries their type. -/
theorem GenerateGoSchema_open_typed (env : Env) (defs : Defs) :
    ∀ (fuel : Nat) (sref : Option SchemaRef) (path : List String) (s : Schema),
      GenerateGoSchema env defs fuel sref path = .ok s →
      s.HasAdditionalProperties = true → s.AdditionalPropertiesType.isSome = true := by
  intro fuel
  induction fuel with
  | zero => intro sref path s h; simp [GenerateGoSchema] at h
  | succ n ih =>
    intro sref path s h hopen
    cases sref with
    | none =>
      simp only [GenerateGoSchema, Outcome.ok.injEq] at h
      subst h
      simp [Schema.zero] at hopen
    | some sref =>
      obtain ⟨ref, own⟩ := sref
      by_cases href : ref = ""
      · subst href
        cases own with
        | none => simp [GenerateGoSchema, openapi3.SchemaRefOf.Value] at h
        | some schema =>
          have hnode : (⟨"", some schema⟩ : SchemaRef) = .inline (some schema) := rfl
          rw [hnode] at h
          cases hAny : schema.AnyOf with
          | some a =>
            simp only [GenerateGoSchema, openapi3.Ref_inline, openapi3.Value_inline, ne_eq,
              not_true_eq_false, if_false, hAny, Option.isSome_some, if_true,
              Outcome.ok.injEq] at h
            subst h
            simp [Schema.zero] at hopen
          | none =>
            cases hOne : schema.OneOf with
            | some a =>
              simp only [GenerateGoSchema, openapi3.Ref_inline, openapi3.Value_inline, ne_eq,
                not_true_eq_false, if_false, hAny, hOne, Option.isSome_some, Option.isSome_none,
                Bool.false_eq_true, if_true, Outcome.ok.injEq] at h
              subst h
              simp [Schema.zero] at hopen
            | none =>
              cases hAll : schema.AllOf with
              | some allOf =>
                rw [GenerateGoSchema_allOf env defs n schema path allOf hAny hOne hAll] at h
                split at h
                · cases h
                · cases h
                · cases h
                · rename_i merged hm
                  cases h
                  obtain ⟨out, goType, hloop, -, hout⟩ := MergeSchemas_ok env _ path allOf merged hm
                  subst hout
                  have hopen' : out.HasAdditionalProperties = true := hopen
                  show out.AdditionalPropertiesType.isSome = true
                  rcases mergeSchemasLoop_open env _ path allOf _ out hloop hopen' with h0 | h1
                  · simp [Schema.zero] at h0
                  · obtain ⟨m, hmem, sm, hsm, hsmo⟩ := h1
                    have hty := ih m path sm hsm hsmo
                    obtain ⟨-, -, -, i4⟩ := mergeSchemasLoop_ok env _ path allOf _ out hloop
                      (by simp [Schema.zero])
                    obtain ⟨s', hs', -, hagree⟩ := i4 m hmem
                    rw [hsm] at hs'
                    cases hs'
                    have := (hagree hsmo).2
                    simp only [Schema.additionalTypeDecl] at this
                    cases hx : sm.AdditionalPropertiesType with
                    | none => rw [hx] at hty; cases hty
                    | some a =>
                      rw [hx] at this
                      cases hy : out.AdditionalPropertiesType with
                      | none => rw [hy] at this; cases this
                      | some b => rfl
              | none =>
                rw [GenerateGoSchema_plain env defs n schema path hAny hOne hAll] at h
                split at h
                · split at h
                  · cases h
                    simp [Schema.zero] at hopen
                  · obtain ⟨props, apt, goType, -, -, -, hs⟩ :=
                      goSchemaObject_ok env defs _ schema path _ s h
                    subst hs
                    rfl
                · obtain ⟨h1, -, -, -⟩ := goSchemaTyped_ok _ schema path _ s h
                  rw [h1] at hopen
                  simp [Schema.zero] at hopen
      · simp only [GenerateGoSchema, ne_eq, href, not_false_eq_true, if_true] at h
        split at h
        · cases h
        · cases h
          simp [Schema.zero] at hopen
end codegen

namespace codegen
open openapi3 (SchemaRef Defs)
open Examples

/-- A completed call that returned no schema and did not panic returned an error. -/
theorem Outcome_isError_of {α : Type} (o : Outcome α) (hok : ∀ v, o ≠ .ok v)
    (hfuel : o ≠ .outOfFuel) (hpanic : ∀ msg, o ≠ .panic msg) : o.isError = true := by
  cases o with
  | ok v => exact absurd rfl (hok v)
  | error e => rfl
  | panic msg => exact absurd rfl (hpanic msg)
  | outOfFuel => exact absurd rfl hfuel

/-- A completed call that returned no schema failed. -/
theorem Outcome_failed_of {α : Type} (o : Outcome α) (hok : ∀ v, o ≠ .ok v)
    (hfuel : o ≠ .outOfFuel) : o.failed = true := by
  cases o with
  | ok v => exact absurd rfl (hok v)
  | error e => rfl
  | panic msg => rfl
  | outOfFuel => exact absurd rfl hfuel

/-- On an `allOf` node `GenerateGoSchema` fails, or returns an error, exactly
as `MergeSchemas` does on the members. -/
theorem GenerateGoSchema_allOf_outcome (env : Env) (defs : Defs) (n : Nat)
    (schema : openapi3.Schema) (path : List String) (allOf : List (Option SchemaRef))
    (hAny : schema.AnyOf = none) (hOne : schema.OneOf = none) (hAll : schema.AllOf = some allOf) :
    (GenerateGoSchema env defs (n + 1) (some (.inline (some schema))) path).failed
        = (MergeSchemas env (GenerateGoSchema env defs n) allOf path).failed
      ∧ (GenerateGoSchema env defs (n + 1) (some (.inline (some schema))) path).isError
        = (MergeSchemas env (GenerateGoSchema env defs n) allOf path).isError
      ∧ (GenerateGoSchema env defs (n + 1) (some (.inline (some schema))) path).isOk
        = (MergeSchemas env (GenerateGoSchema env defs n) allOf path).isOk := by
  rw [GenerateGoSchema_allOf env defs n schema path allOf hAny hOne hAll]
  cases MergeSchemas env (GenerateGoSchema env defs n) allOf path <;>
    exact ⟨rfl, rfl, rfl⟩

/-- Members that resolve to conflicting properties are never merged. -/
theorem MergeSchemas_conflict_not_ok (env : Env) (gen : Resolver)
    (allOf : List (Option SchemaRef)) (path : List String)
    (mi mj : Option SchemaRef) (si sj : Schema) (p q : Property)
    (hi : mi ∈ allOf) (hj : mj ∈ allOf)
    (hsi : gen mi path = .ok si) (hsj : gen mj path = .ok sj)
    (hp : p ∈ si.Properties) (hq : q ∈ sj.Properties)
    (hname : p.JsonFieldName = q.JsonFieldName)
    (hdiff : p.Schema.TypeDecl ≠ q.Schema.TypeDecl ∨ p.Required ≠ q.Required) :
    ∀ out, MergeSchemas env gen allOf path ≠ .ok out := by
  intro out h
  obtain ⟨o, goType, hloop, -, -⟩ := MergeSchemas_ok env gen path allOf out h
  obtain ⟨hpw, -, -, hmem⟩ := mergeSchemasLoop_ok env gen path allOf _ o hloop
    (by simp [Schema.zero])
  obtain ⟨si', hsi', hpi, -⟩ := hmem mi hi
  obtain ⟨sj', hsj', hqj, -⟩ := hmem mj hj
  rw [hsi] at hsi'; cases hsi'
  rw [hsj] at hsj'; cases hsj'
  have hcompat : Compatible p q :=
    List.Pairwise.forall_of_forall (R := Compatible) (fun _ _ h => Compatible.symm h)
      (fun x _ => Compatible.refl x) hpw (hpi p hp) (hqj q hq)
  have heq := (PropertiesEqual_iff p q).1 (hcompat hname)
  rcases hdiff with hd | hd
  · exact hd heq.2.1
  · exact hd heq.2.2

/-- C4 (amended): when two members of an `allOf` list resolve to schemas that
both hold a property named `x`, and the two properties differ in type
declaration or in required-ness, then `MergeSchemas` (given a recursion budget
that covers every member) returns no schema: it returns an error or panics,
and it returns an error when no member is nil and the resolution of no member
panics; `GenerateGoSchema` on the `allOf` node fails in the same way. -/
theorem allOf_property_conflict_fails (env : Env) (defs : Defs) (fuel : Nat)
    (allOf : List (Option SchemaRef)) (path : List String)
    (mi mj : Option SchemaRef) (si sj : Schema) (p q : Property)
    (hfuel : ∀ m ∈ allOf, openapi3.depthRef? m ≤ fuel)
    (hi : mi ∈ allOf) (hj : mj ∈ allOf)
    (hsi : GenerateGoSchema env defs fuel mi path = .ok si)
    (hsj : GenerateGoSchema env defs fuel mj path = .ok sj)
    (hp : p ∈ si.Properties) (hq : q ∈ sj.Properties)
    (hname : p.JsonFieldName = q.JsonFieldName)
    (hdiff : p.Schema.TypeDecl ≠ q.Schema.TypeDecl ∨ p.Required ≠ q.Required) :
    (MergeSchemas env (GenerateGoSchema env defs fuel) allOf path).failed = true
      ∧ ((∀ m ∈ allOf, m ≠ none ∧ ∀ msg, GenerateGoSchema env defs fuel m path ≠ .panic msg) →
          (MergeSchemas env (GenerateGoSchema env defs fuel) allOf path).isError = true)
      ∧ ∀ schema : openapi3.Schema,
          schema.AnyOf = none → schema.OneOf = none → schema.AllOf = some allOf →
            (GenerateGoSchema env defs (fuel + 1) (some (.inline (some schema))) path).failed
                = true
              ∧ ((∀ m ∈ allOf, m ≠ none
                    ∧ ∀ msg, GenerateGoSchema env defs fuel m path ≠ .panic msg) →
                  (GenerateGoSchema env defs (fuel + 1) (some (.inline (some schema)))
                    path).isError = true) := by
  have hnot := MergeSchemas_conflict_not_ok env (GenerateGoSchema env defs fuel) allOf path
    mi mj si sj p q hi hj hsi hsj hp hq hname hdiff
  have hnofuel : MergeSchemas env (GenerateGoSchema env defs fuel) allOf path ≠ .outOfFuel := by
    intro h
    obtain ⟨m, hm, hg⟩ := MergeSchemas_outOfFuel env _ path allOf h
    exact GenerateGoSchema_ne_outOfFuel env defs fuel m path (hfuel m hm) hg
  have hnopanic : (∀ m ∈ allOf, m ≠ none
      ∧ ∀ msg, GenerateGoSchema env defs fuel m path ≠ .panic msg) →
      ∀ msg, MergeSchemas env (GenerateGoSchema env defs fuel) allOf path ≠ .panic msg := by
    intro hwf msg h
    obtain ⟨m, hm, hg⟩ := MergeSchemas_panic env _ path allOf msg h
    rcases hg with hg | ⟨msg', hg⟩ | ⟨s, hs, hopen, hnone⟩
    · exact (hwf m hm).1 hg
    · exact (hwf m hm).2 msg' hg
    · have := GenerateGoSchema_open_typed env defs fuel m path s hs hopen
      rw [hnone] at this
      cases this
  have hfailed := Outcome_failed_of _ hnot hnofuel
  have herror := fun hwf => Outcome_isError_of _ hnot hnofuel (hnopanic hwf)
  refine ⟨hfailed, herror, ?_⟩
  intro schema hAny hOne hAll
  obtain ⟨e1, e2, -⟩ := GenerateGoSchema_allOf_outcome env defs fuel schema path allOf hAny hOne hAll
  exact ⟨e1.trans hfailed, fun hwf => e2.trans (herror hwf)⟩

/-- C4 (amended) at a concrete input: the `allOf` of a member declaring `x` as a string
and a member declaring `x` as an integer. -/
theorem allOf_property_conflict_fails_witness :
    (MergeSchemas (exampleEnv id) (GenerateGoSchema (exampleEnv id) (fun _ => none) 3)
        [some memberX, some memberXInteger] []).failed = true
      ∧ (MergeSchemas (exampleEnv id) (GenerateGoSchema (exampleEnv id) (fun _ => none) 3)
        [some memberX, some memberXInteger] []).isError = true := by
  have h := allOf_property_conflict_fails (exampleEnv id) (fun _ => none) 3
    [some memberX, some memberXInteger] [] (some memberX) (some memberXInteger) _ _ _ _
    (by decide) (by simp) (by simp) rfl rfl (List.mem_cons_self _ _) (List.mem_cons_self _ _)
    rfl (Or.inl (by decide))
  refine ⟨h.1, h.2.1 ?_⟩
  intro m hm
  simp only [List.mem_cons, List.mem_singleton, List.not_mem_nil, or_false] at hm
  rcases hm with hm | hm <;> subst hm <;> refine ⟨by simp, fun msg h => ?_⟩
  · have : (GenerateGoSchema (exampleEnv id) (fun _ => none) 3 (some memberX) []).isOk = true := by
      decide
    rw [h] at this; cases this
  · have : (GenerateGoSchema (exampleEnv id) (fun _ => none) 3 (some memberXInteger) []).isOk
        = true := by decide
    rw [h] at this; cases this
end codegen

namespace codegen
open openapi3 (SchemaRef Defs)
open Examples

/-- The member loop of `MergeSchemas` succeeds when every member resolves, the
properties do not conflict and the open members agree on the type declaration
of the additional properties; the result holds the properties of all members
in member order and the additional properties of the first open member. -/
theorem mergeSchemasLoop_success (env : Env) (gen : Resolver) (path : List String) (t : String) :
    ∀ (ms : List (Option SchemaRef)) (ss : List Schema) (out : Schema),
      List.Forall₂ (ResolvesTo env gen path) ms ss →
      (out.Properties ++ memberProperties ss).Pairwise Compatible →
      (out.HasAdditionalProperties = true → out.additionalTypeDecl = some t) →
      (∀ s ∈ ss, s.HasAdditionalProperties = true → s.additionalTypeDecl = some t) →
        ∃ out', mergeSchemasLoop env gen path ms out = .ok out'
          ∧ out'.Properties = out.Properties ++ memberProperties ss
          ∧ out'.HasAdditionalProperties
              = (out.HasAdditionalProperties || ss.any (fun s => s.HasAdditionalProperties))
          ∧ out'.AdditionalPropertiesType
              = (if out.HasAdditionalProperties = true then out.AdditionalPropertiesType
                 else match firstOpen ss with
                   | some s => s.AdditionalPropertiesType
                   | none => out.AdditionalPropertiesType) := by
  intro ms ss out hres
  induction hres generalizing out with
  | nil =>
    intro _ _ _
    refine ⟨out, rfl, by simp [memberProperties], by simp, ?_⟩
    simp [firstOpen]
  | @cons m s ms ss hm _ ih =>
    intro hpw hout hss
    obtain ⟨member, hmem, href, hg⟩ := hm
    subst hmem
    have hprops : memberProperties (s :: ss) = s.Properties ++ memberProperties ss := by
      simp [memberProperties]
    rw [hprops, ← List.append_assoc] at hpw
    have hpw1 : (out.Properties ++ s.Properties).Pairwise Compatible :=
      (List.pairwise_append.1 hpw).1
    obtain ⟨hp1, hp2, hp3⟩ := List.pairwise_append.1 hpw1
    have hmp : mergePropertyLoop s.Properties out
        = .ok { out with Properties := out.Properties ++ s.Properties } :=
      (mergePropertyLoop_ok_iff _ _ _).2 ⟨⟨hp3, hp2⟩, rfl⟩
    have hrefType : ∃ refType, (if member.Ref ≠ "" then env.RefPathToGoType member.Ref
        else (.ok "" : Except String String)) = .ok refType := by
      by_cases hr : member.Ref ≠ ""
      · obtain ⟨t', ht'⟩ := href hr
        exact ⟨t', by simp [hr, ht']⟩
      · exact ⟨"", by simp [hr]⟩
    obtain ⟨refType, hrt⟩ := hrefType
    have hss' : ∀ s' ∈ ss, s'.HasAdditionalProperties = true → s'.additionalTypeDecl = some t :=
      fun s' hs' => hss s' (List.mem_cons_of_mem _ hs')
    simp only [mergeSchemasLoop, hrt, hg, hmp]
    cases hsa : s.HasAdditionalProperties with
    | false =>
      simp only [Bool.false_eq_true, if_false]
      obtain ⟨out', h1, h2, h3, h4⟩ := ih { out with Properties := out.Properties ++ s.Properties }
        hpw hout hss'
      refine ⟨out', h1, ?_, ?_, ?_⟩
      · rw [h2, hprops, List.append_assoc]
      · rw [h3]; simp [hsa]
      · rw [h4]; simp [firstOpen, List.find?, hsa]
    | true =>
      have hst := hss s (List.mem_cons_self _ _) hsa
      simp only [if_true]
      cases hoa : out.HasAdditionalProperties with
      | true =>
        have hot := hout hoa
        simp only [if_true]
        simp only [Schema.additionalTypeDecl] at hst hot
        cases hx : s.AdditionalPropertiesType with
        | none => rw [hx] at hst; cases hst
        | some a =>
          cases hy : out.AdditionalPropertiesType with
          | none => rw [hy] at hot; cases hot
          | some b =>
            rw [hx] at hst; rw [hy] at hot
            simp only [Option.map_some', Option.some.injEq] at hst hot
            simp only [hst, hot, ne_eq, not_true_eq_false, if_false]
            obtain ⟨out', h1, h2, h3, h4⟩ :=
              ih { out with Properties := out.Properties ++ s.Properties } hpw hout hss'
            refine ⟨out', ?_, ?_, ?_, ?_⟩
            · rw [← h1]
              congr 1
              simp [hoa, hy]
            · rw [h2, hprops, List.append_assoc]
            · rw [h3]; simp [hoa]
            · rw [h4]; simp [hoa, hy]
      | false =>
        simp only [Bool.false_eq_true, if_false]
        obtain ⟨out', h1, h2, h3, h4⟩ :=
          ih { out with
               Properties := out.Properties ++ s.Properties,
               HasAdditionalProperties := true,
               AdditionalPropertiesType := s.AdditionalPropertiesType }
            hpw (fun _ => hst) hss'
        refine ⟨out', h1, ?_, ?_, ?_⟩
        · rw [h2, hprops, List.append_assoc]
        · rw [h3]; simp [hsa]
        · rw [h4]; simp [firstOpen, List.find?, hsa]

/-- The member loop of `GenStructFromAllOf` succeeds when every member resolves. -/
theorem genStructFromAllOfLoop_success (env : Env) (gen : Resolver) (path : List String) :
    ∀ (ms : List (Option SchemaRef)) (ss : List Schema) (parts : List String),
      List.Forall₂ (ResolvesTo env gen path) ms ss →
        ∃ parts', genStructFromAllOfLoop env gen path ms parts = .ok parts' := by
  intro ms ss parts hres
  induction hres generalizing parts with
  | nil => exact ⟨parts, rfl⟩
  | @cons m s ms ss hm _ ih =>
    obtain ⟨member, hmem, href, hg⟩ := hm
    subst hmem
    simp only [genStructFromAllOfLoop]
    by_cases hr : member.Ref ≠ ""
    · obtain ⟨t', ht'⟩ := href hr
      rw [if_pos hr]
      simp only [ht']
      exact ih _
    · rw [if_neg hr]
      simp only [hg]
      exact ih _

/-- The function `MergeSchemas` succeeds when every member resolves, the
properties do not conflict and the open members agree on the type declaration
of the additional properties. -/
theorem MergeSchemas_success (env : Env) (gen : Resolver) (path : List String) (t : String)
    (ms : List (Option SchemaRef)) (ss : List Schema)
    (hres : List.Forall₂ (ResolvesTo env gen path) ms ss)
    (hpw : (memberProperties ss).Pairwise Compatible)
    (hss : ∀ s ∈ ss, s.HasAdditionalProperties = true → s.additionalTypeDecl = some t) :
    ∃ out, MergeSchemas env gen ms path = .ok out
      ∧ out.Properties = memberProperties ss
      ∧ out.HasAdditionalProperties = ss.any (fun s => s.HasAdditionalProperties)
      ∧ out.AdditionalPropertiesType
          = (match firstOpen ss with
             | some s => s.AdditionalPropertiesType
             | none => none) := by
  obtain ⟨out, h1, h2, h3, h4⟩ := mergeSchemasLoop_success env gen path t ms ss Schema.zero hres
    (by simpa [Schema.zero] using hpw) (by simp [Schema.zero]) hss
  obtain ⟨parts, hparts⟩ := genStructFromAllOfLoop_success env gen path ms ss ["struct \x7b"] hres
  refine ⟨{ out with GoType := stringsJoin (parts ++ ["\x7d"]) "\n" }, ?_, ?_, ?_, ?_⟩
  · simp only [MergeSchemas, h1, GenStructFromAllOf, hparts]
  · simpa [Schema.zero] using h2
  · simpa [Schema.zero] using h3
  · simpa [Schema.zero] using h4

/-- A non-nil member that `GenerateGoSchema` resolves is resolved in the sense
of `ResolvesTo`: for a reference member the translation of the reference
succeeded. -/
theorem resolvesTo_of_ok (env : Env) (defs : Defs) (fuel : Nat) (path : List String)
    (m : Option SchemaRef) (s : Schema) (hm : m ≠ none)
    (h : GenerateGoSchema env defs fuel m path = .ok s) :
    ResolvesTo env (GenerateGoSchema env defs fuel) path m s := by
  cases m with
  | none => exact absurd rfl hm
  | some member =>
    refine ⟨member, rfl, ?_, h⟩
    intro href
    cases fuel with
    | zero => simp [GenerateGoSchema] at h
    | succ n =>
      simp only [GenerateGoSchema] at h
      rw [if_pos href] at h
      cases hr : env.RefPathToGoType member.Ref with
      | error e => rw [hr] at h; cases h
      | ok refType => exact ⟨refType, rfl⟩
end codegen

namespace codegen
open openapi3 (SchemaRef Defs)
open Examples

/-- When `MergeSchemas` can return no schema for a member list, and the
recursion budget covers every member, it fails; it returns an error unless a
member is nil or the resolution of a member panics. -/
theorem MergeSchemas_fails_of_not_ok (env : Env) (defs : Defs) (fuel : Nat)
    (allOf : List (Option SchemaRef)) (path : List String)
    (hfuel : ∀ m ∈ allOf, openapi3.depthRef? m ≤ fuel)
    (hnot : ∀ out, MergeSchemas env (GenerateGoSchema env defs fuel) allOf path ≠ .ok out) :
    (MergeSchemas env (GenerateGoSchema env defs fuel) allOf path).failed = true
      ∧ ((∀ m ∈ allOf, m ≠ none ∧ ∀ msg, GenerateGoSchema env defs fuel m path ≠ .panic msg) →
          (MergeSchemas env (GenerateGoSchema env defs fuel) allOf path).isError = true) := by
  have hnofuel : MergeSchemas env (GenerateGoSchema env defs fuel) allOf path ≠ .outOfFuel := by
    intro h
    obtain ⟨m, hm, hg⟩ := MergeSchemas_outOfFuel env _ path allOf h
    exact GenerateGoSchema_ne_outOfFuel env defs fuel m path (hfuel m hm) hg
  refine ⟨Outcome_failed_of _ hnot hnofuel, fun hwf => Outcome_isError_of _ hnot hnofuel ?_⟩
  intro msg h
  obtain ⟨m, hm, hg⟩ := MergeSchemas_panic env _ path allOf msg h
  rcases hg with hg | ⟨msg', hg⟩ | ⟨s, hs, hopen, hnone⟩
  · exact (hwf m hm).1 hg
  · exact (hwf m hm).2 msg' hg
  · have := GenerateGoSchema_open_typed env defs fuel m path s hs hopen
    rw [hnone] at this
    cases this

/-- Members that resolve with open additional properties of different type
declarations are never merged. -/
theorem MergeSchemas_additional_conflict_not_ok (env : Env) (gen : Resolver)
    (allOf : List (Option SchemaRef)) (path : List String)
    (mi mj : Option SchemaRef) (si sj : Schema)
    (hi : mi ∈ allOf) (hj : mj ∈ allOf)
    (hsi : gen mi path = .ok si) (hsj : gen mj path = .ok sj)
    (hoi : si.HasAdditionalProperties = true) (hoj : sj.HasAdditionalProperties = true)
    (hdiff : si.additionalTypeDecl ≠ sj.additionalTypeDecl) :
    ∀ out, MergeSchemas env gen allOf path ≠ .ok out := by
  intro out h
  obtain ⟨o, goType, hloop, -, -⟩ := MergeSchemas_ok env gen path allOf out h
  obtain ⟨-, -, -, hmem⟩ := mergeSchemasLoop_ok env gen path allOf _ o hloop
    (by simp [Schema.zero])
  obtain ⟨si', hsi', -, hai⟩ := hmem mi hi
  obtain ⟨sj', hsj', -, haj⟩ := hmem mj hj
  rw [hsi] at hsi'; cases hsi'
  rw [hsj] at hsj'; cases hsj'
  exact hdiff ((hai hoi).2.trans (haj hoj).2.symm)

/-- Every element on the right of a pointwise relation has a partner on the left. -/
theorem forall₂_mem_right {α β : Type} {R : α → β → Prop} {l₁ : List α} {l₂ : List β}
    (h : List.Forall₂ R l₁ l₂) : ∀ b ∈ l₂, ∃ a ∈ l₁, R a b := by
  induction h with
  | nil => intro b hb; cases hb
  | cons hab _ ih =>
    intro b hb
    rcases List.mem_cons.1 hb with hb | hb
    · subst hb
      exact ⟨_, List.mem_cons_self _ _, hab⟩
    · obtain ⟨a, ha, hr⟩ := ih b hb
      exact ⟨a, List.mem_cons_of_mem _ ha, hr⟩

/-- C6 (amended): for the members of an `allOf` list and their resolutions by
`GenerateGoSchema`: (1) if two members resolve with open additional properties
whose types differ in type declaration, `MergeSchemas` (given a recursion
budget that covers every member) returns an error or panics, and returns an
error when no member is nil and no resolution panics; (2) if every member is
non-nil and resolves,
the properties do not conflict and all members with open additional properties
agree on the type declaration, `MergeSchemas` succeeds, the merged
`HasAdditionalProperties` is true exactly when some member has open additional
properties, and then `AdditionalPropertiesType` is that of the first such
member; if no member has them it is false. -/
theorem allOf_additional_properties (env : Env) (defs : Defs) (fuel : Nat)
    (allOf : List (Option SchemaRef)) (path : List String) :
    (∀ (mi mj : Option SchemaRef) (si sj : Schema),
        (∀ m ∈ allOf, openapi3.depthRef? m ≤ fuel) → mi ∈ allOf → mj ∈ allOf →
        GenerateGoSchema env defs fuel mi path = .ok si →
        GenerateGoSchema env defs fuel mj path = .ok sj →
        si.HasAdditionalProperties = true → sj.HasAdditionalProperties = true →
        si.additionalTypeDecl ≠ sj.additionalTypeDecl →
          (MergeSchemas env (GenerateGoSchema env defs fuel) allOf path).failed = true
            ∧ ((∀ m ∈ allOf, m ≠ none
                  ∧ ∀ msg, GenerateGoSchema env defs fuel m path ≠ .panic msg) →
                (MergeSchemas env (GenerateGoSchema env defs fuel) allOf path).isError = true))
      ∧ ∀ ss : List Schema,
          List.Forall₂ (fun m s => m ≠ none ∧ GenerateGoSchema env defs fuel m path = .ok s)
            allOf ss →
          (memberProperties ss).Pairwise Compatible →
          (∀ si ∈ ss, ∀ sj ∈ ss, si.HasAdditionalProperties = true →
            sj.HasAdditionalProperties = true → si.additionalTypeDecl = sj.additionalTypeDecl) →
            ∃ out, MergeSchemas env (GenerateGoSchema env defs fuel) allOf path = .ok out
              ∧ (∀ s, firstOpen ss = some s →
                  out.HasAdditionalProperties = true
                    ∧ out.AdditionalPropertiesType = s.AdditionalPropertiesType)
              ∧ (firstOpen ss = none → out.HasAdditionalProperties = false) := by
  constructor
  · intro mi mj si sj hfuel hi hj hsi hsj hoi hoj hdiff
    exact MergeSchemas_fails_of_not_ok env defs fuel allOf path hfuel
      (MergeSchemas_additional_conflict_not_ok env _ allOf path mi mj si sj hi hj hsi hsj
        hoi hoj hdiff)
  · intro ss hres hpw hagree
    have hres' : List.Forall₂ (ResolvesTo env (GenerateGoSchema env defs fuel) path) allOf ss :=
      hres.imp (fun m s h => resolvesTo_of_ok env defs fuel path m s h.1 h.2)
    have htyped : ∀ s ∈ ss, s.HasAdditionalProperties = true →
        s.AdditionalPropertiesType.isSome = true := by
      intro s hs ho
      obtain ⟨m, -, hm⟩ := forall₂_mem_right hres s hs
      exact GenerateGoSchema_open_typed env defs fuel m path s hm.2 ho
    have ht : ∃ t, ∀ s ∈ ss, s.HasAdditionalProperties = true → s.additionalTypeDecl = some t := by
      cases hfo : firstOpen ss with
      | none =>
        refine ⟨"", fun s hs ho => ?_⟩
        have := List.find?_eq_none.1 hfo s hs
        simp [ho] at this
      | some s0 =>
        have hs0 : s0 ∈ ss := List.mem_of_find?_eq_some hfo
        have ho0 : s0.HasAdditionalProperties = true := by
          simpa using List.find?_some hfo
        have hty0 := htyped s0 hs0 ho0
        cases hx : s0.AdditionalPropertiesType with
        | none => rw [hx] at hty0; cases hty0
        | some a =>
          refine ⟨a.TypeDecl, fun s hs ho => ?_⟩
          rw [hagree s hs s0 hs0 ho ho0]
          simp [Schema.additionalTypeDecl, hx]
    obtain ⟨t, ht⟩ := ht
    obtain ⟨out, h1, -, h3, h4⟩ := MergeSchemas_success env _ path t allOf ss hres' hpw ht
    refine ⟨out, h1, ?_, ?_⟩
    · intro s hs
      rw [hs] at h4
      refine ⟨?_, h4⟩
      rw [h3]
      exact List.any_eq_true.2 ⟨s, List.mem_of_find?_eq_some hs, by simpa using List.find?_some hs⟩
    · intro hnone
      rw [h3]
      rw [Bool.eq_false_iff]
      intro hany
      obtain ⟨s, hs, ho⟩ := List.any_eq_true.1 hany
      have := List.find?_eq_none.1 hnone s hs
      exact this ho
end codegen

namespace codegen
open openapi3 (SchemaRef Defs)
open Examples

/-- C6 (amended) at concrete inputs: two members whose additional properties are a
string and a date are not merged; a member without additional properties and
two members whose additional properties are strings are merged, with the
additional properties of the first open member. -/
theorem allOf_additional_properties_witness :
    (MergeSchemas (exampleEnv id) (GenerateGoSchema (exampleEnv id) (fun _ => none) 3)
        [some (openMember "a" ""), some (openMember "b" "date")] []).failed = true
      ∧ ∃ out, MergeSchemas (exampleEnv id) (GenerateGoSchema (exampleEnv id) (fun _ => none) 3)
          [some memberX, some (openMember "a" ""), some (openMember "b" "")] [] = .ok out
        ∧ out.HasAdditionalProperties = true
        ∧ out.AdditionalPropertiesType
            = some { Schema.zero with GoType := "string" } := by
  constructor
  · exact ((allOf_additional_properties (exampleEnv id) (fun _ => none) 3
      [some (openMember "a" ""), some (openMember "b" "date")] []).1
      (some (openMember "a" "")) (some (openMember "b" "date")) _ _
      (by decide) (by simp) (by simp) rfl rfl rfl rfl (by decide)).1
  · obtain ⟨out, h1, h2, -⟩ := (allOf_additional_properties (exampleEnv id) (fun _ => none) 3
      [some memberX, some (openMember "a" ""), some (openMember "b" "")] []).2 _
      (List.Forall₂.cons ⟨by simp, rfl⟩ (List.Forall₂.cons ⟨by simp, rfl⟩
        (List.Forall₂.cons ⟨by simp, rfl⟩ List.Forall₂.nil)))
      (by decide) (by decide)
    obtain ⟨h3, h4⟩ := h2 _ rfl
    exact ⟨out, h1, h3, h4⟩
end codegen

/-! ## The recursion budget does not matter above the depth -/

namespace codegen

open openapi3 (SchemaRef Defs)

/-- The property loop of `GenerateGoSchema` gives the same result with a resolver that agrees with `gen` wherever `gen` completes. -/
theorem goPropertyLoop_mono (env : Env) (defs : Defs) (gen gen' : Resolver)
    (hgen : ∀ x p, gen x p ≠ .outOfFuel → gen' x p = gen x p)
    (schema : openapi3.Schema) (path : List String) :
    ∀ (keys : List String) (acc : List Property),
      goPropertyLoop env defs gen schema path keys acc ≠ .outOfFuel →
        goPropertyLoop env defs gen' schema path keys acc
          = goPropertyLoop env defs gen schema path keys acc := by
  intro keys
  induction keys with
  | nil => intro acc _; rfl
  | cons k ks ih =>
    intro acc h
    simp only [goPropertyLoop] at h ⊢
    cases hg : gen (openapi3.mapIndex schema.Properties k) (path ++ [k]) with
    | outOfFuel => simp [hg] at h
    | error e => rw [hgen _ _ (by rw [hg]; simp)]; simp only [hg]
    | panic e => rw [hgen _ _ (by rw [hg]; simp)]; simp only [hg]
    | ok pSchema =>
      rw [hgen _ _ (by rw [hg]; simp)]
      simp only [hg] at h ⊢
      revert h
      cases openapi3.mapIndex schema.Properties k with
      | none => intro _; rfl
      | some pRef =>
        simp only []
        cases parseValidateRule (openapi3.SchemaRefOf.Value defs pRef)
            (StringInArray k schema.Required) with
        | outOfFuel => intro _; rfl
        | error e => intro _; rfl
        | panic e => intro _; rfl
        | ok v =>
          simp only []
          cases openapi3.SchemaRefOf.Value defs pRef with
          | none => intro _; rfl
          | some value =>
            simp only []
            intro h
            exact ih _ h

/-- The member loop of `MergeSchemas` gives the same result with a resolver that agrees with `gen` wherever `gen` completes. -/
theorem mergeSchemasLoop_mono (env : Env) (gen gen' : Resolver)
    (hgen : ∀ x p, gen x p ≠ .outOfFuel → gen' x p = gen x p) (path : List String) :
    ∀ (ms : List (Option SchemaRef)) (out : Schema),
      mergeSchemasLoop env gen path ms out ≠ .outOfFuel →
        mergeSchemasLoop env gen' path ms out = mergeSchemasLoop env gen path ms out := by
  intro ms
  induction ms with
  | nil => intro out _; rfl
  | cons m rest ih =>
    intro out h
    cases m with
    | none => rfl
    | some member =>
      simp only [mergeSchemasLoop] at h ⊢
      revert h
      cases (if member.Ref ≠ "" then env.RefPathToGoType member.Ref
          else (.ok "" : Except String String)) with
      | error e => intro _; rfl
      | ok refType =>
        simp only []
        cases hg : gen (some member) path with
        | outOfFuel => intro h; exact absurd rfl h
        | error e => intro _; rw [hgen _ _ (by rw [hg]; simp)]; simp only [hg]
        | panic e => intro _; rw [hgen _ _ (by rw [hg]; simp)]; simp only [hg]
        | ok schema =>
          rw [hgen _ _ (by rw [hg]; simp)]
          simp only [hg]
          cases mergePropertyLoop schema.Properties out with
          | error e => intro _; rfl
          | ok out1 =>
            simp only []
            cases schema.HasAdditionalProperties with
            | false =>
              simp only [Bool.false_eq_true, if_false]
              exact ih _
            | true =>
              simp only [if_true]
              cases out1.HasAdditionalProperties with
              | false =>
                simp only [Bool.false_eq_true, if_false]
                exact ih _
              | true =>
                simp only [if_true]
                cases schema.AdditionalPropertiesType with
                | none => intro _; rfl
                | some a =>
                  cases out1.AdditionalPropertiesType with
                  | none => intro _; rfl
                  | some b =>
                    simp only []
                    by_cases hab : a.TypeDecl ≠ b.TypeDecl
                    · rw [if_pos hab, if_pos hab]; intro _; trivial
                    · rw [if_neg hab, if_neg hab]; exact ih _

/-- The member loop of `GenStructFromAllOf` gives the same result with a resolver that agrees with `gen` wherever `gen` completes. -/
theorem genStructFromAllOfLoop_mono (env : Env) (gen gen' : Resolver)
    (hgen : ∀ x p, gen x p ≠ .outOfFuel → gen' x p = gen x p) (path : List String) :
    ∀ (ms : List (Option SchemaRef)) (parts : List String),
      genStructFromAllOfLoop env gen path ms parts ≠ .outOfFuel →
        genStructFromAllOfLoop env gen' path ms parts
          = genStructFromAllOfLoop env gen path ms parts := by
  intro ms
  induction ms with
  | nil => intro parts _; rfl
  | cons m rest ih =>
    intro parts h
    cases m with
    | none => rfl
    | some member =>
      simp only [genStructFromAllOfLoop] at h ⊢
      revert h
      by_cases hr : member.Ref ≠ ""
      · rw [if_pos hr, if_pos hr]
        cases env.RefPathToGoType member.Ref with
        | error e => intro _; rfl
        | ok goType => simp only []; exact ih _
      · rw [if_neg hr, if_neg hr]
        cases hg : gen (some member) path with
        | outOfFuel => intro h; exact absurd rfl h
        | error e => intro _; rw [hgen _ _ (by rw [hg]; simp)]; simp only [hg]
        | panic e => intro _; rw [hgen _ _ (by rw [hg]; simp)]; simp only [hg]
        | ok schema =>
          rw [hgen _ _ (by rw [hg]; simp)]
          simp only [hg]
          exact ih _

/-- The function `MergeSchemas` gives the same result with a resolver that agrees with `gen` wherever `gen` completes. -/
theorem MergeSchemas_mono (env : Env) (gen gen' : Resolver)
    (hgen : ∀ x p, gen x p ≠ .outOfFuel → gen' x p = gen x p) (path : List String)
    (ms : List (Option SchemaRef)) (h : MergeSchemas env gen ms path ≠ .outOfFuel) :
    MergeSchemas env gen' ms path = MergeSchemas env gen ms path := by
  unfold MergeSchemas at h ⊢
  have hloop : mergeSchemasLoop env gen path ms Schema.zero ≠ .outOfFuel := by
    intro h0; rw [h0] at h; exact h rfl
  rw [mergeSchemasLoop_mono env gen gen' hgen path ms _ hloop]
  cases hl : mergeSchemasLoop env gen path ms Schema.zero with
  | outOfFuel => exact absurd hl hloop
  | error e => rfl
  | panic e => rfl
  | ok out =>
    simp only [hl] at h ⊢
    unfold GenStructFromAllOf at h ⊢
    have hs : genStructFromAllOfLoop env gen path ms ["struct \x7b"] ≠ .outOfFuel := by
      intro h0; rw [h0] at h; exact h rfl
    rw [genStructFromAllOfLoop_mono env gen gen' hgen path ms _ hs]

/-- The object branch gives the same result with a resolver that agrees with `gen` wherever `gen` completes. -/
theorem goSchemaObject_mono (env : Env) (defs : Defs) (gen gen' : Resolver)
    (hgen : ∀ x p, gen x p ≠ .outOfFuel → gen' x p = gen x p)
    (schema : openapi3.Schema) (path : List String) (out : Schema)
    (h : goSchemaObject env defs gen schema path out ≠ .outOfFuel) :
    goSchemaObject env defs gen' schema path out = goSchemaObject env defs gen schema path out := by
  unfold goSchemaObject at h ⊢
  have hloop : goPropertyLoop env defs gen schema path (SortedSchemaKeys schema.Properties)
      out.Properties ≠ .outOfFuel := by
    intro h0; rw [h0] at h; exact h rfl
  rw [goPropertyLoop_mono env defs gen gen' hgen schema path _ _ hloop]
  cases hl : goPropertyLoop env defs gen schema path (SortedSchemaKeys schema.Properties)
      out.Properties with
  | outOfFuel => exact absurd hl hloop
  | error e => rfl
  | panic e => rfl
  | ok props =>
    simp only [hl] at h ⊢
    revert h
    cases schema.AdditionalProperties with
    | none => intro _; rfl
    | some ap =>
      simp only []
      cases hg : gen (some ap) path with
      | outOfFuel => intro h; exact absurd rfl h
      | error e => intro _; rw [hgen _ _ (by rw [hg]; simp)]; simp only [hg]
      | panic e => intro _; rw [hgen _ _ (by rw [hg]; simp)]; simp only [hg]
      | ok apt => intro _; rw [hgen _ _ (by rw [hg]; simp)]; simp only [hg]

/-- The typed branch gives the same result with a resolver that agrees with `gen` wherever `gen` completes. -/
theorem goSchemaTyped_mono (gen gen' : Resolver)
    (hgen : ∀ x p, gen x p ≠ .outOfFuel → gen' x p = gen x p)
    (schema : openapi3.Schema) (path : List String) (out : Schema)
    (h : goSchemaTyped gen schema path out ≠ .outOfFuel) :
    goSchemaTyped gen' schema path out = goSchemaTyped gen schema path out := by
  unfold goSchemaTyped at h ⊢
  simp only [] at h ⊢
  by_cases ht : schema.Type_ = "array"
  · rw [if_pos ht] at h ⊢
    rw [if_pos ht]
    revert h
    cases hg : gen schema.Items path with
    | outOfFuel => intro h; exact absurd rfl h
    | error e => intro _; rw [hgen _ _ (by rw [hg]; simp)]; simp only [hg]
    | panic e => intro _; rw [hgen _ _ (by rw [hg]; simp)]; simp only [hg]
    | ok apt => intro _; rw [hgen _ _ (by rw [hg]; simp)]; simp only [hg]
  · rw [if_neg ht, if_neg ht]

/-- A completed `GenerateGoSchema` gives the same result with one more unit of budget. -/
theorem GenerateGoSchema_succ (env : Env) (defs : Defs) :
    ∀ (fuel : Nat) (x : Option SchemaRef) (p : List String),
      GenerateGoSchema env defs fuel x p ≠ .outOfFuel →
        GenerateGoSchema env defs (fuel + 1) x p = GenerateGoSchema env defs fuel x p := by
  intro fuel
  induction fuel with
  | zero => intro x p h; exact absurd rfl h
  | succ n ih =>
    intro x p h
    cases x with
    | none => rfl
    | some sref =>
      simp only [GenerateGoSchema] at h ⊢
      revert h
      by_cases href : sref.Ref ≠ ""
      · rw [if_pos href, if_pos href]; intro _; trivial
      · rw [if_neg href, if_neg href]
        cases openapi3.SchemaRefOf.Value defs sref with
        | none => intro _; rfl
        | some schema =>
          simp only []
          cases schema.AnyOf.isSome with
          | true => intro _; rfl
          | false =>
            simp only [Bool.false_eq_true, if_false]
            cases schema.OneOf.isSome with
            | true => intro _; rfl
            | false =>
              simp only [Bool.false_eq_true, if_false]
              cases schema.AllOf with
              | some allOf =>
                simp only []
                intro h
                have hm : MergeSchemas env (GenerateGoSchema env defs n) allOf p ≠ .outOfFuel := by
                  intro h0; rw [h0] at h; exact h rfl
                rw [MergeSchemas_mono env _ _ ih p allOf hm]
              | none =>
                simp only []
                by_cases ht : schema.Type_ = "" ∨ schema.Type_ = "object"
                · rw [if_pos ht, if_pos ht]
                  by_cases he : schema.Properties.length = 0
                      ∧ (!SchemaHasAdditionalProperties schema) = true
                  · rw [if_pos he, if_pos he]; intro _; trivial
                  · rw [if_neg he, if_neg he]
                    intro h
                    exact goSchemaObject_mono env defs _ _ ih schema p _ h
                · rw [if_neg ht, if_neg ht]
                  intro h
                  exact goSchemaTyped_mono _ _ ih schema p _ h

/-- A completed `GenerateGoSchema` gives the same result with any larger budget. -/
theorem GenerateGoSchema_mono (env : Env) (defs : Defs) (fuel fuel' : Nat) (hle : fuel ≤ fuel')
    (x : Option SchemaRef) (p : List String)
    (h : GenerateGoSchema env defs fuel x p ≠ .outOfFuel) :
    GenerateGoSchema env defs fuel' x p = GenerateGoSchema env defs fuel x p := by
  induction hle with
  | refl => rfl
  | step _ ih =>
    rw [GenerateGoSchema_succ env defs _ x p (by rw [ih]; exact h), ih]

/-- The result of `GenerateGoSchema` does not depend on the budget once the budget covers the depth of the node. -/
theorem GenerateGoSchema_budget_irrelevant (env : Env) (defs : Defs) (fuel fuel' : Nat)
    (x : Option SchemaRef) (p : List String)
    (h : openapi3.depthRef? x ≤ fuel) (h' : openapi3.depthRef? x ≤ fuel') :
    GenerateGoSchema env defs fuel x p = GenerateGoSchema env defs fuel' x p := by
  have e1 := GenerateGoSchema_mono env defs _ fuel h x p
    (GenerateGoSchema_ne_outOfFuel env defs _ x p (le_refl _))
  have e2 := GenerateGoSchema_mono env defs _ fuel' h' x p
    (GenerateGoSchema_ne_outOfFuel env defs _ x p (le_refl _))
  rw [e1, e2]
end codegen

/-! ## Validation rules -/

namespace codegen

open openapi3 (SchemaRef Defs)
open Examples

/-- For a node that is not nil `parseValidateRule` is the loop over the extensions,
started from the rules of the constraints. -/
theorem parseValidateRule_eq (schema : openapi3.Schema) (required : Bool) :
    parseValidateRule (some schema) required
      = if schema.Extensions.length > 0 then customTagLoop schema.Extensions (constraintRules schema)
        else .ok (constraintRules schema) := rfl

/-- The test `len(schema.Extensions) > 0` makes no difference: the loop over no
extension returns the rules it was given. -/
theorem customTagLoop_nil_eq (schema : openapi3.Schema) (required : Bool) :
    parseValidateRule (some schema) required
      = customTagLoop schema.Extensions (constraintRules schema) := by
  rw [parseValidateRule_eq]
  cases h : schema.Extensions with
  | nil => simp [customTagLoop]
  | cons e rest => simp

/-- Without an `x-go-custom-tag` extension the loop returns the rules unchanged. -/
theorem customTagLoop_no_tag (exts : List (String × openapi3.ExtensionValue))
    (h : ∀ e ∈ exts, e.1 ≠ "x-go-custom-tag") (v : List (String × String)) :
    customTagLoop exts v = .ok v := by
  induction exts generalizing v with
  | nil => rfl
  | cons e rest ih =>
    obtain ⟨key, ext⟩ := e
    have hk : key ≠ "x-go-custom-tag" := h (key, ext) (List.mem_cons_self _ _)
    simp only [customTagLoop, if_neg hk]
    exact ih (fun e he => h e (List.mem_cons_of_mem _ he)) v

/-- The loop returns when every `x-go-custom-tag` extension is a string or a list of strings. -/
theorem customTagLoop_wellformed (exts : List (String × openapi3.ExtensionValue))
    (h : ∀ e ∈ exts, e.1 = "x-go-custom-tag" → e.2 ≠ .other) (v : List (String × String)) :
    ∃ w, customTagLoop exts v = .ok w := by
  induction exts generalizing v with
  | nil => exact ⟨v, rfl⟩
  | cons e rest ih =>
    obtain ⟨key, ext⟩ := e
    have hrest : ∀ e ∈ rest, e.1 = "x-go-custom-tag" → e.2 ≠ .other :=
      fun e he => h e (List.mem_cons_of_mem _ he)
    by_cases hk : key = "x-go-custom-tag"
    · have hne := h (key, ext) (List.mem_cons_self _ _) hk
      simp only [customTagLoop, if_pos hk]
      cases ext with
      | str s => exact ih hrest _
      | strs e => exact ih hrest _
      | other => exact absurd rfl hne
    · simp only [customTagLoop, if_neg hk]
      exact ih hrest v

/-- The loop panics when some `x-go-custom-tag` extension is neither a string nor a
list of strings. -/
theorem customTagLoop_malformed (exts : List (String × openapi3.ExtensionValue))
    (h : ∃ e ∈ exts, e.1 = "x-go-custom-tag" ∧ e.2 = .other) (v : List (String × String)) :
    ∃ msg, customTagLoop exts v = .panic msg := by
  induction exts generalizing v with
  | nil => obtain ⟨e, he, _⟩ := h; cases he
  | cons e rest ih =>
    obtain ⟨key, ext⟩ := e
    by_cases hk : key = "x-go-custom-tag"
    · simp only [customTagLoop, if_pos hk]
      cases ext with
      | str s =>
        apply ih
        obtain ⟨e, he, h1, h2⟩ := h
        rcases List.mem_cons.1 he with rfl | he
        · cases h2
        · exact ⟨e, he, h1, h2⟩
      | strs l =>
        apply ih
        obtain ⟨e, he, h1, h2⟩ := h
        rcases List.mem_cons.1 he with rfl | he
        · cases h2
        · exact ⟨e, he, h1, h2⟩
      | other => exact ⟨_, rfl⟩
    · simp only [customTagLoop, if_neg hk]
      apply ih
      obtain ⟨e, he, h1, h2⟩ := h
      rcases List.mem_cons.1 he with rfl | he
      · exact absurd h1 hk
      · exact ⟨e, he, h1, h2⟩

/-- A node without constraints has no rule. -/
theorem constraintRules_nil (schema : openapi3.Schema)
    (h1 : schema.MinLength = 0) (h2 : schema.MaxLength = none) (h3 : schema.Min = none)
    (h4 : schema.Max = none) (h5 : schema.Pattern = "") (h6 : schema.Enum = [])
    (h7 : schema.Type_ = "array" → schema.MinItems = 0 ∧ schema.MaxItems = none) :
    constraintRules schema = [] := by
  have e1 : ∀ v, ruleMinLength schema v = v := by intro v; simp [ruleMinLength, h1]
  have e2 : ∀ v, ruleMaxLength schema v = v := by intro v; simp [ruleMaxLength, h2]
  have e3 : ∀ v, ruleMin schema v = v := by intro v; simp [ruleMin, h3]
  have e4 : ∀ v, ruleMax schema v = v := by intro v; simp [ruleMax, h4]
  have e5 : ∀ v, rulePattern schema v = v := by intro v; simp [rulePattern, h5]
  have e6 : ∀ v, ruleItems schema v = v := by
    intro v
    by_cases ht : schema.Type_ = "array"
    · simp [ruleItems, ht, (h7 ht).1, (h7 ht).2]
    · simp [ruleItems, ht]
  have e7 : ∀ v, ruleEnum schema v = v := by intro v; simp [ruleEnum, h6]
  simp only [constraintRules, e1, e2, e3, e4, e5, e6, e7]

/-- C16: `parseValidateRule` returns the empty mapping for a nil node and for
every node without constraints (`minLength` 0, no `maxLength`, no minimum, no
maximum, empty pattern, empty enum, no `x-go-custom-tag` extension and, for an
array, `minItems` 0 and no `maxItems`), whatever `required` is; and for every
node the result does not depend on anything but the node: two calls return the
same mapping, also with different values of `required`. -/
theorem parseValidateRule_without_constraints (schema : openapi3.Schema) (required : Bool)
    (h1 : schema.MinLength = 0) (h2 : schema.MaxLength = none) (h3 : schema.Min = none)
    (h4 : schema.Max = none) (h5 : schema.Pattern = "") (h6 : schema.Enum = [])
    (h7 : schema.Type_ = "array" → schema.MinItems = 0 ∧ schema.MaxItems = none)
    (h8 : ∀ e ∈ schema.Extensions, e.1 ≠ "x-go-custom-tag") :
    parseValidateRule none required = .ok []
      ∧ parseValidateRule (some schema) required = .ok []
      ∧ ∀ (node : Option openapi3.Schema) (r r' : Bool),
          parseValidateRule node r = parseValidateRule node r' := by
  refine ⟨rfl, ?_, ?_⟩
  · rw [customTagLoop_nil_eq, constraintRules_nil schema h1 h2 h3 h4 h5 h6 h7]
    exact customTagLoop_no_tag _ h8 _
  · intro node r r'
    cases node <;> rfl

/-- Reading the key just assigned. -/
theorem mapGet_mapSet_self (m : List (String × String)) (k x : String) :
    mapGet (mapSet m k x) k = some x := by
  induction m with
  | nil => simp [mapSet, mapGet]
  | cons e rest ih =>
    obtain ⟨k', v'⟩ := e
    by_cases h : k' = k
    · simp [mapSet, mapGet, h]
    · simp [mapSet, mapGet, h, ih]

/-- Reading a key other than the one just assigned. -/
theorem mapGet_mapSet_ne (m : List (String × String)) (k k' x : String) (hne : k' ≠ k) :
    mapGet (mapSet m k' x) k = mapGet m k := by
  induction m with
  | nil => simp [mapSet, mapGet, hne]
  | cons e rest ih =>
    obtain ⟨k'', v'⟩ := e
    by_cases h : k'' = k'
    · subst h
      simp [mapSet, mapGet, hne]
    · simp only [mapSet, if_neg h, mapGet, ih]

/-- The loop over the extensions assigns the key `custom-tag` only. -/
theorem customTagLoop_mapGet (exts : List (String × openapi3.ExtensionValue))
    (v w : List (String × String)) (k : String) (hk : k ≠ "custom-tag")
    (h : customTagLoop exts v = .ok w) : mapGet w k = mapGet v k := by
  induction exts generalizing v with
  | nil => simp only [customTagLoop, Outcome.ok.injEq] at h; rw [h]
  | cons e rest ih =>
    obtain ⟨key, ext⟩ := e
    by_cases hkey : key = "x-go-custom-tag"
    · simp only [customTagLoop, if_pos hkey] at h
      cases ext with
      | str s => rw [ih _ h, mapGet_mapSet_ne _ _ _ _ (Ne.symm hk)]
      | strs l => rw [ih _ h, mapGet_mapSet_ne _ _ _ _ (Ne.symm hk)]
      | other => cases h
    · simp only [customTagLoop, if_neg hkey] at h
      exact ih _ h

/-- The enum rule text: the prefix, then every literal followed by a blank. -/
theorem oneofText_eq (l : List openapi3.EnumValue) (e : String) :
    oneofText l e = e ++ (l.map (fun x => x.sprint ++ " ")).foldr (· ++ ·) "" := by
  induction l generalizing e with
  | nil => simp [oneofText]
  | cons a rest ih =>
    simp only [oneofText, ih, List.map_cons, List.foldr_cons, String.append_assoc]

/-- No step before the enum step assigns the key `oneof`. -/
theorem constraintRules_before_enum (schema : openapi3.Schema) :
    mapGet (ruleItems schema (rulePattern schema (ruleMax schema (ruleMin schema
        (ruleMaxLength schema (ruleMinLength schema [])))))) "oneof" = none := by
  have e1 : ∀ v, mapGet (ruleMinLength schema v) "oneof" = mapGet v "oneof" := by
    intro v; unfold ruleMinLength; split
    · exact mapGet_mapSet_ne _ _ _ _ (by decide)
    · rfl
  have e2 : ∀ v, mapGet (ruleMaxLength schema v) "oneof" = mapGet v "oneof" := by
    intro v; unfold ruleMaxLength; split
    · exact mapGet_mapSet_ne _ _ _ _ (by decide)
    · rfl
  have e3 : ∀ v, mapGet (ruleMin schema v) "oneof" = mapGet v "oneof" := by
    intro v; unfold ruleMin; split
    · split <;> exact mapGet_mapSet_ne _ _ _ _ (by decide)
    · rfl
  have e4 : ∀ v, mapGet (ruleMax schema v) "oneof" = mapGet v "oneof" := by
    intro v; unfold ruleMax; split
    · split <;> exact mapGet_mapSet_ne _ _ _ _ (by decide)
    · rfl
  have e5 : ∀ v, mapGet (rulePattern schema v) "oneof" = mapGet v "oneof" := by
    intro v; unfold rulePattern; split
    · exact mapGet_mapSet_ne _ _ _ _ (by decide)
    · rfl
  have e6 : ∀ v, mapGet (ruleItems schema v) "oneof" = mapGet v "oneof" := by
    intro v
    have hmin : mapGet (if schema.MinItems > 0 then
        mapSet v "minitems" ("min=" ++ Nat.repr schema.MinItems) else v) "oneof"
        = mapGet v "oneof" := by
      split
      · exact mapGet_mapSet_ne _ _ _ _ (by decide)
      · rfl
    by_cases ht : schema.Type_ = "array"
    · cases hm : schema.MaxItems with
      | none => simp only [ruleItems, if_pos ht, hm]; exact hmin
      | some n =>
        simp only [ruleItems, if_pos ht, hm]
        rw [mapGet_mapSet_ne _ _ _ _ (by decide)]; exact hmin
    · simp only [ruleItems, if_neg ht]
  rw [e6, e5, e4, e3, e2, e1]
  rfl

/-- The rules of a node with a non-empty enum that is not an array hold the enum rule. -/
theorem constraintRules_oneof (schema : openapi3.Schema)
    (h : schema.Enum ≠ [] ∧ schema.Type_ ≠ "array") :
    mapGet (constraintRules schema) "oneof"
      = some ("oneof=" ++ (schema.Enum.map (fun x => x.sprint ++ " ")).foldr (· ++ ·) "") := by
  have hlen : schema.Enum.length > 0 := List.length_pos.2 h.1
  unfold constraintRules ruleEnum
  rw [if_pos hlen, if_pos h.2, mapGet_mapSet_self, oneofText_eq]

/-- The rules of a node with an empty enum, or of an array, hold no enum rule. -/
theorem constraintRules_no_oneof (schema : openapi3.Schema)
    (h : ¬ (schema.Enum ≠ [] ∧ schema.Type_ ≠ "array")) :
    mapGet (constraintRules schema) "oneof" = none := by
  unfold constraintRules ruleEnum
  by_cases hl : schema.Enum.length > 0
  · rw [if_pos hl]
    have ht : ¬ schema.Type_ ≠ "array" := fun ht => h ⟨List.length_pos.1 hl, ht⟩
    rw [if_neg ht]
    exact constraintRules_before_enum schema
  · rw [if_neg hl]
    exact constraintRules_before_enum schema

/-- C17: whenever `parseValidateRule` returns a mapping for a node, the mapping
has the key `oneof` if and only if the enum of the node is non-empty and the
type of the node is not `array`; and then the value of the key is `oneof=`
followed by the text of every enum literal, in declared order, each followed
by one blank. -/
theorem oneof_rule_lists_the_enum (schema : openapi3.Schema) (required : Bool)
    (v : List (String × String))
    (h : parseValidateRule (some schema) required = .ok v) :
    (mapGet v "oneof" ≠ none ↔ schema.Enum ≠ [] ∧ schema.Type_ ≠ "array")
      ∧ (schema.Enum ≠ [] ∧ schema.Type_ ≠ "array" →
          mapGet v "oneof"
            = some ("oneof=" ++ (schema.Enum.map (fun x => x.sprint ++ " ")).foldr (· ++ ·) "")) := by
  rw [customTagLoop_nil_eq] at h
  have hv := customTagLoop_mapGet _ _ _ "oneof" (by decide) h
  by_cases hc : schema.Enum ≠ [] ∧ schema.Type_ ≠ "array"
  · rw [constraintRules_oneof schema hc] at hv
    exact ⟨⟨fun _ => hc, fun _ => by rw [hv]; simp⟩, fun _ => hv⟩
  · rw [constraintRules_no_oneof schema hc] at hv
    exact ⟨⟨fun hn => absurd hv hn, fun hc' => absurd hc' hc⟩, fun hc' => absurd hc' hc⟩

/-- C15 (amended): `parseValidateRule` returns the empty mapping for a nil
node; for a node it returns a mapping exactly when every `x-go-custom-tag`
extension is a string or a list of strings, and it panics exactly when some
`x-go-custom-tag` extension is neither. -/
theorem parseValidateRule_outcome (schema : openapi3.Schema) (required : Bool) :
    parseValidateRule none required = .ok []
      ∧ ((∃ v, parseValidateRule (some schema) required = .ok v)
          ↔ ∀ e ∈ schema.Extensions, e.1 = "x-go-custom-tag" → e.2 ≠ .other)
      ∧ ((∃ msg, parseValidateRule (some schema) required = .panic msg)
          ↔ ∃ e ∈ schema.Extensions, e.1 = "x-go-custom-tag" ∧ e.2 = .other) := by
  refine ⟨rfl, ?_, ?_⟩
  · constructor
    · rintro ⟨v, hv⟩ e he hk ho
      rw [customTagLoop_nil_eq] at hv
      obtain ⟨msg, hm⟩ := customTagLoop_malformed _ ⟨e, he, hk, ho⟩ (constraintRules schema)
      rw [hm] at hv; cases hv
    · intro hw
      rw [customTagLoop_nil_eq]
      exact customTagLoop_wellformed _ hw _
  · constructor
    · rintro ⟨msg, hm⟩
      by_contra hne
      rw [customTagLoop_nil_eq] at hm
      have hw : ∀ e ∈ schema.Extensions, e.1 = "x-go-custom-tag" → e.2 ≠ .other := by
        intro e he hk ho
        exact hne ⟨e, he, hk, ho⟩
      obtain ⟨w, hw⟩ := customTagLoop_wellformed _ hw (constraintRules schema)
      rw [hw] at hm; cases hm
    · intro hm
      rw [customTagLoop_nil_eq]
      exact customTagLoop_malformed _ hm _

/-- C15 (as stated, refuted): on a node whose `x-go-custom-tag` extension is
neither a string nor a list of strings `parseValidateRule` panics
(`panic(err)` after the second `json.Unmarshal`). -/
theorem custom_tag_of_another_kind_panics :
    parseValidateRule (some badCustomTag) true
      = .panic "x-go-custom-tag is neither a string nor a list of strings" := by
  decide

/-- C16 at a concrete input: a string node that carries the extension
`x-es-tag` only. -/
theorem parseValidateRule_without_constraints_witness :
    parseValidateRule (some (taggedString "text")) false = .ok [] :=
  (parseValidateRule_without_constraints (taggedString "text") false rfl rfl rfl rfl rfl rfl
    (by decide) (by decide)).2.1

/-- C17 at a concrete input: the field `status` of the fixture, a string with
the enum `[active]`. -/
theorem oneof_rule_lists_the_enum_witness :
    parseValidateRule (some statusField) true = .ok [("oneof", "oneof=active ")]
      ∧ mapGet [("oneof", "oneof=active ")] "oneof" = some "oneof=active " :=
  ⟨by decide,
    (oneof_rule_lists_the_enum statusField true [("oneof", "oneof=active ")] (by decide)).2
      ⟨by simp [statusField], by decide⟩⟩

end codegen

/-! ## The tags of a struct field -/

namespace codegen

open openapi3 (SchemaRef Defs)
open Examples

/-- The loop of `String.intercalate` only appends to its accumulator. -/
theorem intercalate_go_prefix (sep : String) (l : List String) (acc : String) :
    ∃ t, String.intercalate.go acc sep l = acc ++ t := by
  induction l generalizing acc with
  | nil => exact ⟨"", by simp [String.intercalate.go]⟩
  | cons a rest ih =>
    obtain ⟨t, ht⟩ := ih (acc ++ sep ++ a)
    refine ⟨sep ++ a ++ t, ?_⟩
    rw [String.intercalate.go, ht]
    simp only [String.append_assoc]

/-- The join of a non-empty list starts with its first element. -/
theorem stringsJoin_cons_prefix (a : String) (l : List String) (sep : String) :
    ∃ t, stringsJoin (a :: l) sep = a ++ t :=
  intercalate_go_prefix sep l a

/-- The field text is the head, the json tag, the validate tag if the validator is
not empty, and the closing quote. -/
theorem fieldText_eq (env : Env) (p : Property) :
    fieldText env p
      = fieldHead env p ++ " `json:\"" ++ p.JsonFieldName
          ++ (if p.Required || p.Nullable then "" else ",omitempty") ++ "\""
          ++ (if validatorOf env p ≠ "" then " validate:\"" ++ validatorOf env p ++ "\"" else "")
          ++ "`" := by
  have hv : validatorOf env p = (if p.Validation.length > 0 then
      stringsJoin ((if !p.Required || p.Nullable then ["omitempty"] else [])
        ++ (env.mapRange p.Validation).map Prod.snd) ","
    else "") := rfl
  have hf : fieldText env p =
      if p.Required || p.Nullable then
        if validatorOf env p ≠ "" then
          fieldHead env p ++ (" `json:\"" ++ p.JsonFieldName ++ "\" validate:\"" ++ validatorOf env p ++ "\"`")
        else fieldHead env p ++ (" `json:\"" ++ p.JsonFieldName ++ "\"`")
      else
        if validatorOf env p ≠ "" then
          fieldHead env p ++ (" `json:\"" ++ p.JsonFieldName ++ ",omitempty\" validate:\"" ++ validatorOf env p ++ "\"`")
        else fieldHead env p ++ (" `json:\"" ++ p.JsonFieldName ++ ",omitempty\"`") := by
    unfold fieldText fieldHead validatorOf
    by_cases hd : p.Description ≠ "" <;> simp [hd]
  have e1 : ∀ x : String, "\" validate:\"" ++ x = "" ++ ("\"" ++ (" validate:\"" ++ x)) := by
    intro x; rw [← String.append_assoc, ← String.append_assoc]; rfl
  have e2 : ∀ x : String,
      ",omitempty\" validate:\"" ++ x = ",omitempty" ++ ("\"" ++ (" validate:\"" ++ x)) := by
    intro x; rw [← String.append_assoc, ← String.append_assoc]; rfl
  have e3 : ("\"`" : String) = "\"" ++ "`" := by decide
  have e4 : ("\"`" : String) = "" ++ ("\"" ++ ("" ++ "`")) := by decide
  have e5 : (",omitempty\"`" : String) = ",omitempty" ++ ("\"" ++ ("" ++ "`")) := by decide
  rw [hf]
  by_cases h1 : (p.Required || p.Nullable) = true <;> by_cases h2 : validatorOf env p ≠ ""
  · rw [if_pos h1, if_pos h2, if_pos h1, if_pos h2]
    simp only [String.append_assoc]
    rw [e1, e3]
  · rw [if_pos h1, if_neg h2, if_pos h1, if_neg h2]
    simp only [String.append_assoc]
    rw [e4]
  · rw [if_neg h1, if_pos h2, if_neg h1, if_pos h2]
    simp only [String.append_assoc]
    rw [e2, e3]
  · rw [if_neg h1, if_neg h2, if_neg h1, if_neg h2]
    simp only [String.append_assoc]
    rw [e5]

/-- The validator of an optional or nullable property with rules starts with `omitempty`. -/
theorem validatorOf_optional (env : Env) (p : Property) (hv : p.Validation ≠ [])
    (ho : (!p.Required || p.Nullable) = true) :
    ∃ t, validatorOf env p = "omitempty" ++ t := by
  have hl : p.Validation.length > 0 := List.length_pos.2 hv
  unfold validatorOf
  rw [if_pos hl, if_pos ho]
  exact stringsJoin_cons_prefix _ _ _

/-- A text differs from itself prefixed with `*`. -/
theorem star_append_ne (x : String) : "*" ++ x ≠ x := by
  intro h
  have := congrArg String.length h
  rw [String.length_append] at this
  have h1 : ("*" : String).length = 1 := by decide
  omega

/-- C18 (amended): for every property `GenFieldsFromProperties` writes the
head of the field, the json tag, which has `,omitempty` exactly when the
property is neither required nor nullable, and a validate tag exactly when the
joined validator text is not empty. The validator is empty for a property
without rules; for a property with rules that is not required, or nullable, it
is not empty and starts with `omitempty`; for a required property that is not
nullable it is the join of the rule texts alone (which is empty when the only
rule text is empty). `GoTypeDef` is the type declaration prefixed with `*`
exactly when the schema does not set `SkipOptionalPointer` and the property is
not required or is nullable, and the bare type declaration otherwise. -/
theorem field_tags (env : Env) (props : List Property) :
    GenFieldsFromProperties env props
        = props.map (fun p =>
            fieldHead env p ++ " `json:\"" ++ p.JsonFieldName
              ++ (if p.Required || p.Nullable then "" else ",omitempty") ++ "\""
              ++ (if validatorOf env p ≠ "" then " validate:\"" ++ validatorOf env p ++ "\""
                  else "")
              ++ "`")
      ∧ (∀ p : Property, p.Validation = [] → validatorOf env p = "")
      ∧ (∀ p : Property, p.Validation ≠ [] → (!p.Required || p.Nullable) = true →
          validatorOf env p ≠ "" ∧ ∃ t, validatorOf env p = "omitempty" ++ t)
      ∧ (∀ p : Property, p.Validation ≠ [] → (!p.Required || p.Nullable) = false →
          validatorOf env p = stringsJoin ((env.mapRange p.Validation).map Prod.snd) ",")
      ∧ (∀ p : Property, p.GoTypeDef = "*" ++ p.Schema.TypeDecl
          ↔ (!p.Schema.SkipOptionalPointer && (!p.Required || p.Nullable)) = true)
      ∧ (∀ p : Property, (!p.Schema.SkipOptionalPointer && (!p.Required || p.Nullable)) = false →
          p.GoTypeDef = p.Schema.TypeDecl) := by
  refine ⟨?_, ?_, ?_, ?_, ?_, ?_⟩
  · unfold GenFieldsFromProperties
    exact List.map_congr_left (fun p _ => fieldText_eq env p)
  · intro p hv
    simp [validatorOf, hv]
  · intro p hv ho
    obtain ⟨t, ht⟩ := validatorOf_optional env p hv ho
    refine ⟨?_, t, ht⟩
    rw [ht]
    intro h
    have := congrArg String.length h
    rw [String.length_append] at this
    have h1 : ("omitempty" : String).length = 9 := by decide
    have h2 : ("" : String).length = 0 := by decide
    omega
  · intro p hv ho
    have hl : p.Validation.length > 0 := List.length_pos.2 hv
    unfold validatorOf
    rw [if_pos hl, ho]
    simp
  · intro p
    unfold PropertyOf.GoTypeDef
    by_cases h : (!p.Schema.SkipOptionalPointer && (!p.Required || p.Nullable)) = true
    · rw [if_pos h]
      exact ⟨fun _ => h, fun _ => rfl⟩
    · rw [if_neg h]
      exact ⟨fun h' => absurd h'.symm (star_append_ne _), fun h' => absurd h' h⟩
  · intro p h
    unfold PropertyOf.GoTypeDef
    simp [h]

/-- C18 (as stated, refuted): the required property `name`, whose extension
`x-go-custom-tag` is the empty string, has the validation rule `custom-tag`
and its field has no validate tag: the tag is written when the joined rule
text is not empty (`if validator != ""`), not when there is a rule. -/
theorem required_empty_rule_has_no_validate_tag :
    (GenerateGoSchema (exampleEnv id) (fun _ => none) 2
        (some (.inline (some emptyCustomTag))) ["T"]).value?.map
      (fun s => (s.Properties.map (fun p => (p.Required, p.Validation)),
        GenFieldsFromProperties (exampleEnv id) s.Properties))
      = some ([(true, [("custom-tag", "")])], ["    name string `json:\"name\"`"]) := by
  decide

end codegen

/-! ## Primitive types -/

namespace codegen

open openapi3 (SchemaRef Defs)
open Examples

/-- The loop over an enum of strings appends the strings. -/
theorem enumValuesLoop_strings (enum : List openapi3.EnumValue) (values : List String)
    (h : ∀ e ∈ enum, ∃ s, e = .str s) :
    enumValuesLoop enum values = .ok (values ++ enum.map (fun e => e.sprint)) := by
  induction enum generalizing values with
  | nil => simp [enumValuesLoop]
  | cons e rest ih =>
    obtain ⟨s, rfl⟩ := h e (List.mem_cons_self _ _)
    simp only [enumValuesLoop]
    rw [ih _ (fun e he => h e (List.mem_cons_of_mem _ he))]
    simp [openapi3.EnumValue.sprint]

/-- The case `integer` of the switch. -/
theorem goSchemaTyped_integer (gen : Resolver) (schema : openapi3.Schema) (path : List String)
    (out : Schema) (ht : schema.Type_ = "integer") :
    goSchemaTyped gen schema path out
      = match primitiveMapping "integer" schema.Format with
        | some g => .ok { out with GoType := g }
        | none => .error ("invalid integer format: " ++ schema.Format) := by
  unfold goSchemaTyped primitiveMapping
  simp only [ht]
  by_cases h1 : schema.Format = "int64"
  · simp [h1]
  · by_cases h2 : schema.Format = "int32"
    · simp [h2]
    · by_cases h3 : schema.Format = ""
      · simp [h3]
      · simp [h1, h2, h3]

/-- The case `number` of the switch. -/
theorem goSchemaTyped_number (gen : Resolver) (schema : openapi3.Schema) (path : List String)
    (out : Schema) (ht : schema.Type_ = "number") :
    goSchemaTyped gen schema path out
      = match primitiveMapping "number" schema.Format with
        | some g => .ok { out with GoType := g }
        | none => .error ("invalid number format: " ++ schema.Format) := by
  unfold goSchemaTyped primitiveMapping
  simp only [ht]
  by_cases h1 : schema.Format = "double"
  · simp [h1]
  · by_cases h2 : schema.Format = "float"
    · simp [h2]
    · by_cases h3 : schema.Format = ""
      · simp [h3]
      · simp [h1, h2, h3]

/-- The case `boolean` of the switch. -/
theorem goSchemaTyped_boolean (gen : Resolver) (schema : openapi3.Schema) (path : List String)
    (out : Schema) (ht : schema.Type_ = "boolean") :
    goSchemaTyped gen schema path out
      = match primitiveMapping "boolean" schema.Format with
        | some g => .ok { out with GoType := g }
        | none => .error ("invalid format (" ++ schema.Format ++ ") for boolean") := by
  unfold goSchemaTyped primitiveMapping
  simp only [ht]
  by_cases h1 : schema.Format = ""
  · simp [h1]
  · simp [h1]

/-- The case `string` of the switch, for an enum of strings. -/
theorem goSchemaTyped_string (gen : Resolver) (schema : openapi3.Schema) (path : List String)
    (out : Schema) (ht : schema.Type_ = "string")
    (he : ∀ e ∈ schema.Enum, ∃ s, e = .str s) :
    ∃ g, primitiveMapping "string" schema.Format = some g ∧
      goSchemaTyped gen schema path out
        = .ok { out with
                GoType := g,
                EnumValues := out.EnumValues ++ schema.Enum.map (fun e => e.sprint),
                SkipOptionalPointer :=
                  if schema.Format = "json" then true else out.SkipOptionalPointer } := by
  unfold goSchemaTyped primitiveMapping
  simp only [ht, enumValuesLoop_strings _ _ he]
  by_cases h1 : schema.Format = "byte"
  · simp [h1]
  · by_cases h2 : schema.Format = "date"
    · simp [h2]
    · by_cases h3 : schema.Format = "date-time"
      · simp [h3]
      · by_cases h4 : schema.Format = "json"
        · simp [h4]
        · simp [h1, h2, h3, h4]

/-- The result of `GenerateGoSchema` on a primitive node, at every positive budget. -/
theorem GenerateGoSchema_primitive (env : Env) (defs : Defs) (n : Nat) (schema : openapi3.Schema)
    (path : List String)
    (hAny : schema.AnyOf = none) (hOne : schema.OneOf = none) (hAll : schema.AllOf = none)
    (ht : schema.Type_ = "integer" ∨ schema.Type_ = "number" ∨ schema.Type_ = "boolean"
      ∨ schema.Type_ = "string")
    (he : schema.Type_ = "string" → ∀ e ∈ schema.Enum, ∃ s, e = .str s) :
    GenerateGoSchema env defs (n + 1) (some (.inline (some schema))) path
      = match primitiveMapping schema.Type_ schema.Format with
        | some g =>
          .ok { Schema.zero with
                GoType := g,
                EnumValues :=
                  if schema.Type_ = "string" then schema.Enum.map (fun e => e.sprint) else [],
                SkipOptionalPointer := decide (schema.Type_ = "string" ∧ schema.Format = "json") }
        | none =>
          .error (if schema.Type_ = "integer" then "invalid integer format: " ++ schema.Format
            else if schema.Type_ = "number" then "invalid number format: " ++ schema.Format
            else "invalid format (" ++ schema.Format ++ ") for boolean") := by
  have hno : ¬ (schema.Type_ = "" ∨ schema.Type_ = "object") := by
    rcases ht with h | h | h | h <;> rw [h] <;> decide
  rw [GenerateGoSchema_plain env defs n schema path hAny hOne hAll, if_neg hno]
  rcases ht with h | h | h | h
  · rw [goSchemaTyped_integer _ _ _ _ h, h]
    cases primitiveMapping "integer" schema.Format <;> simp [Schema.zero]
  · rw [goSchemaTyped_number _ _ _ _ h, h]
    cases primitiveMapping "number" schema.Format <;> simp [Schema.zero]
  · rw [goSchemaTyped_boolean _ _ _ _ h, h]
    cases primitiveMapping "boolean" schema.Format <;> simp [Schema.zero]
  · obtain ⟨g, hg, hres⟩ := goSchemaTyped_string (GenerateGoSchema env defs n) schema path
      { Schema.zero with RefType := "" } h (he h)
    rw [hres, h, hg]
    by_cases hj : schema.Format = "json" <;> simp [Schema.zero, hj]

/-- C14: for a node without `Ref`, `anyOf`, `oneOf` and `allOf` whose type is
`integer`, `number`, `boolean` or `string` (the enum of a string being
strings), `GenerateGoSchema` at any positive budget returns the schema whose
`GoType` is the scalar of the primitive mapping (`int64`/`int32`/`int`,
`float64`/`float32`, `bool`, `[]byte`/`openapi_types.Date`/`time.Time`/
`json.RawMessage`/`string`), whose enum values are the enum of a string, and
which has nothing else; it returns an error exactly for an integer or a number
with another format and for a boolean with a format; and
`SkipOptionalPointer` is set exactly for a string of the format `json`. -/
theorem primitive_types_map_to_go_types (env : Env) (defs : Defs) (n : Nat)
    (schema : openapi3.Schema) (path : List String)
    (hAny : schema.AnyOf = none) (hOne : schema.OneOf = none) (hAll : schema.AllOf = none)
    (ht : schema.Type_ = "integer" ∨ schema.Type_ = "number" ∨ schema.Type_ = "boolean"
      ∨ schema.Type_ = "string")
    (he : schema.Type_ = "string" → ∀ e ∈ schema.Enum, ∃ s, e = .str s) :
    (∀ g, primitiveMapping schema.Type_ schema.Format = some g →
        GenerateGoSchema env defs (n + 1) (some (.inline (some schema))) path
          = .ok { Schema.zero with
                  GoType := g,
                  EnumValues :=
                    if schema.Type_ = "string" then schema.Enum.map (fun e => e.sprint) else [],
                  SkipOptionalPointer :=
                    decide (schema.Type_ = "string" ∧ schema.Format = "json") })
      ∧ ((∃ err, GenerateGoSchema env defs (n + 1) (some (.inline (some schema))) path
            = .error err)
          ↔ (schema.Type_ = "integer" ∧ schema.Format ≠ "int64" ∧ schema.Format ≠ "int32"
                ∧ schema.Format ≠ "")
            ∨ (schema.Type_ = "number" ∧ schema.Format ≠ "double" ∧ schema.Format ≠ "float"
                ∧ schema.Format ≠ "")
            ∨ (schema.Type_ = "boolean" ∧ schema.Format ≠ ""))
      ∧ (∀ s, GenerateGoSchema env defs (n + 1) (some (.inline (some schema))) path = .ok s →
          (s.SkipOptionalPointer = true ↔ schema.Type_ = "string" ∧ schema.Format = "json")) := by
  have heq := GenerateGoSchema_primitive env defs n schema path hAny hOne hAll ht he
  refine ⟨?_, ?_, ?_⟩
  · intro g hg
    rw [heq, hg]
  · rw [heq]
    rcases ht with h | h | h | h
    · rw [h]
      by_cases h1 : schema.Format = "int64"
      · simp [primitiveMapping, h1]
      · by_cases h2 : schema.Format = "int32"
        · simp [primitiveMapping, h2]
        · by_cases h3 : schema.Format = ""
          · simp [primitiveMapping, h3]
          · simp [primitiveMapping, h1, h2, h3]
    · rw [h]
      by_cases h1 : schema.Format = "double"
      · simp [primitiveMapping, h1]
      · by_cases h2 : schema.Format = "float"
        · simp [primitiveMapping, h2]
        · by_cases h3 : schema.Format = ""
          · simp [primitiveMapping, h3]
          · simp [primitiveMapping, h1, h2, h3]
    · rw [h]
      by_cases h1 : schema.Format = ""
      · simp [primitiveMapping, h1]
      · simp [primitiveMapping, h1]
    · obtain ⟨g, hg, -⟩ := goSchemaTyped_string (GenerateGoSchema env defs n) schema path
        Schema.zero h (he h)
      rw [h, hg]
      simp
  · intro s hs
    rw [heq] at hs
    cases hp : primitiveMapping schema.Type_ schema.Format with
    | none => rw [hp] at hs; cases hs
    | some g =>
      rw [hp] at hs
      simp only [Outcome.ok.injEq] at hs
      rw [← hs]
      simp

/-- C14 at a concrete input: a string of the format `json` with the enum `[a, b]`. -/
theorem primitive_types_map_to_go_types_witness :
    GenerateGoSchema (exampleEnv id) fhirDefs 1 (some (.inline (some rawJson))) ["T"]
      = .ok { Schema.zero with
              GoType := "json.RawMessage", EnumValues := ["a", "b"], SkipOptionalPointer := true } :=
  (primitive_types_map_to_go_types (exampleEnv id) fhirDefs 0 rawJson ["T"] rfl rfl rfl
    (Or.inr (Or.inr (Or.inr rfl))) (fun _ e he => by
      simp only [rawJson, List.mem_cons, List.mem_singleton, List.not_mem_nil, or_false] at he
      rcases he with rfl | rfl
      · exact ⟨"a", rfl⟩
      · exact ⟨"b", rfl⟩)).1 "json.RawMessage" (by decide)

end codegen

/-! ## Index templates of the leaves -/

namespace codegen

open openapi3 (SchemaRef Defs)
open Examples

/-- Without an `x-es-tag` extension the loop of `parseEsType` returns its start value. -/
theorem esTagLoop_no_tag (exts : List (String × openapi3.ExtensionValue))
    (h : ∀ e ∈ exts, e.1 ≠ "x-es-tag") (v : String) :
    esTagLoop exts v = .ok v := by
  induction exts generalizing v with
  | nil => rfl
  | cons e rest ih =>
    obtain ⟨key, ext⟩ := e
    have hk : key ≠ "x-es-tag" := h (key, ext) (List.mem_cons_self _ _)
    simp only [esTagLoop, if_neg hk]
    exact ih (fun e he => h e (List.mem_cons_of_mem _ he)) v

/-- A node without an `x-es-tag` extension has the empty search-type annotation. -/
theorem parseEsType_no_tag (schema : openapi3.Schema)
    (h : ∀ e ∈ schema.Extensions, e.1 ≠ "x-es-tag") :
    parseEsType (some schema) = .ok "" := by
  unfold parseEsType
  simp only []
  split
  · exact esTagLoop_no_tag _ h _
  · rfl

/-- The branch of the typed nodes on a primitive with a valid format: only the
translation of the annotation is recorded. -/
theorem esSchemaTyped_leaf (gen : Resolver) (schema : openapi3.Schema) (path : List String)
    (out : Schema) (e : String)
    (ht : schema.Type_ = "integer" ∨ schema.Type_ = "number" ∨ schema.Type_ = "boolean"
      ∨ schema.Type_ = "string")
    (hi : schema.Type_ = "integer" →
      schema.Format = "int64" ∨ schema.Format = "int32" ∨ schema.Format = "")
    (hn : schema.Type_ = "number" →
      schema.Format = "double" ∨ schema.Format = "float" ∨ schema.Format = "")
    (hb : schema.Type_ = "boolean" → schema.Format = "")
    (he : parseEsType (some schema) = .ok e) :
    esSchemaTyped gen schema path out
      = .ok (if e ≠ "" then
          { out with EsTemplate := stringsJoin ((stringsSplitComma e).map esDirective) "," }
        else out) := by
  unfold esSchemaTyped
  simp only [he]
  rcases ht with h | h | h | h
  · have hf : ¬ (schema.Format ≠ "int64" ∧ schema.Format ≠ "int32" ∧ schema.Format ≠ "") := by
      rcases hi h with h' | h' | h' <;> simp [h']
    simp [h, hf]
  · have hf : ¬ (schema.Format ≠ "double" ∧ schema.Format ≠ "float" ∧ schema.Format ≠ "") := by
      rcases hn h with h' | h' | h' <;> simp [h']
    simp [h, hf]
  · simp [h, hb h]
  · simp [h]

/-- The result of `GenerateEsSchema` on a primitive leaf with a valid format, at
every positive budget. -/
theorem GenerateEsSchema_leaf (defs : Defs) (n : Nat) (schema : openapi3.Schema)
    (path : List String) (e : String)
    (hAny : schema.AnyOf = none) (hOne : schema.OneOf = none) (hAll : schema.AllOf = none)
    (ht : schema.Type_ = "integer" ∨ schema.Type_ = "number" ∨ schema.Type_ = "boolean"
      ∨ schema.Type_ = "string")
    (hi : schema.Type_ = "integer" →
      schema.Format = "int64" ∨ schema.Format = "int32" ∨ schema.Format = "")
    (hn : schema.Type_ = "number" →
      schema.Format = "double" ∨ schema.Format = "float" ∨ schema.Format = "")
    (hb : schema.Type_ = "boolean" → schema.Format = "")
    (he : parseEsType (some schema) = .ok e) :
    GenerateEsSchema defs (n + 1) (some (.inline (some schema))) path
        = .ok { Schema.zero with
                EsTemplate :=
                  if e = "" then ""
                  else stringsJoin ((stringsSplitComma e).map esDirective) "," } := by
  have hno : ¬ (schema.Type_ = "" ∨ schema.Type_ = "object") := by
    rcases ht with h | h | h | h <;> rw [h] <;> decide
  rw [GenerateEsSchema_plain defs n schema path hAny hOne hAll, if_neg hno,
    esSchemaTyped_leaf _ schema path Schema.zero e ht hi hn hb he]
  by_cases h0 : e = ""
  · simp [h0, Schema.zero]
  · simp [h0, Schema.zero]

/-- C19: for a node without `Ref`, `anyOf`, `oneOf` and `allOf` of the type
`string`, `integer`, `number` or `boolean` with a valid format, whose
search-type annotation `parseEsType` reads as `e`, `GenerateEsSchema` at any
positive budget returns the schema that has only the template: empty for the
empty annotation, which is the annotation of a node without `x-es-tag`, and
otherwise the fragments of the comma-separated directives of `e`, in their
order, joined by commas. The fragment of `text` is the type `text` with the
exact-match sub-field `keyword`; the fragment of any other directive `d` but
`fielddata` is exactly `"type": "d"`. -/
theorem leaf_index_template (defs : Defs) (n : Nat) (schema : openapi3.Schema)
    (path : List String) (e : String)
    (hAny : schema.AnyOf = none) (hOne : schema.OneOf = none) (hAll : schema.AllOf = none)
    (ht : schema.Type_ = "integer" ∨ schema.Type_ = "number" ∨ schema.Type_ = "boolean"
      ∨ schema.Type_ = "string")
    (hi : schema.Type_ = "integer" →
      schema.Format = "int64" ∨ schema.Format = "int32" ∨ schema.Format = "")
    (hn : schema.Type_ = "number" →
      schema.Format = "double" ∨ schema.Format = "float" ∨ schema.Format = "")
    (hb : schema.Type_ = "boolean" → schema.Format = "")
    (he : parseEsType (some schema) = .ok e) :
    GenerateEsSchema defs (n + 1) (some (.inline (some schema))) path
        = .ok { Schema.zero with
                EsTemplate :=
                  if e = "" then ""
                  else stringsJoin ((stringsSplitComma e).map esDirective) "," }
      ∧ ((∀ x ∈ schema.Extensions, x.1 ≠ "x-es-tag") → e = "")
      ∧ esDirective "text"
          = "\"type\": \"text\",\"fields\": \x7b\"keyword\": \x7b\"type\": \"keyword\", \"ignore_above\" : 256\x7d\x7d"
      ∧ (∀ d, d ≠ "fielddata" → d ≠ "text" → esDirective d = "\"type\": \"" ++ d ++ "\"") := by
  refine ⟨GenerateEsSchema_leaf defs n schema path e hAny hOne hAll ht hi hn hb he, ?_,
    by decide, ?_⟩
  · intro hx
    have := parseEsType_no_tag schema hx
    rw [he] at this
    exact Outcome.ok.inj this
  · intro d h1 h2
    simp [esDirective, h1, h2]

/-- C19 at a concrete input: a string annotated with the directives `text` and `date`. -/
theorem leaf_index_template_witness :
    GenerateEsSchema fhirDefs 1 (some (.inline (some twoDirectives))) ["f"]
      = .ok { Schema.zero with
              EsTemplate :=
                "\"type\": \"text\",\"fields\": \x7b\"keyword\": \x7b\"type\": \"keyword\", \"ignore_above\" : 256\x7d\x7d,\"type\": \"date\"" } :=
  (leaf_index_template fhirDefs 0 twoDirectives ["f"] "text,date" rfl rfl rfl
    (Or.inr (Or.inr (Or.inr rfl))) (by decide) (by decide) (by decide) (by decide)).1.trans
    rfl

/-- C20 (amended): for a primitive leaf with a valid format whose search-type
annotation `e` has the directive `fielddata`, the template is the join of the
fragments of the directives, among them the fragment of `fielddata`, which is
`"fielddata": "true"`: the key `fielddata` with the string `"true"`, and no
key `"type"`. -/
theorem fielddata_directive_fragment (defs : Defs) (n : Nat) (schema : openapi3.Schema)
    (path : List String) (e : String)
    (hAny : schema.AnyOf = none) (hOne : schema.OneOf = none) (hAll : schema.AllOf = none)
    (ht : schema.Type_ = "integer" ∨ schema.Type_ = "number" ∨ schema.Type_ = "boolean"
      ∨ schema.Type_ = "string")
    (hi : schema.Type_ = "integer" →
      schema.Format = "int64" ∨ schema.Format = "int32" ∨ schema.Format = "")
    (hn : schema.Type_ = "number" →
      schema.Format = "double" ∨ schema.Format = "float" ∨ schema.Format = "")
    (hb : schema.Type_ = "boolean" → schema.Format = "")
    (he : parseEsType (some schema) = .ok e)
    (hf : "fielddata" ∈ stringsSplitComma e) :
    GenerateEsSchema defs (n + 1) (some (.inline (some schema))) path
        = .ok { Schema.zero with
                EsTemplate := stringsJoin ((stringsSplitComma e).map esDirective) "," }
      ∧ "\"fielddata\": \"true\"" ∈ (stringsSplitComma e).map esDirective
      ∧ esDirective "fielddata" = "\"fielddata\": \"true\""
      ∧ countOccurrences "\"type\"".toList (esDirective "fielddata").toList = 0 := by
  have h0 : e ≠ "" := by
    intro h
    rw [h] at hf
    revert hf
    decide
  refine ⟨?_, ?_, by decide, by decide⟩
  · rw [GenerateEsSchema_leaf defs n schema path e hAny hOne hAll ht hi hn hb he, if_neg h0]
  · exact List.mem_map.2 ⟨"fielddata", hf, by decide⟩

/-- C20 (amended) at a concrete input: a string annotated with `keyword,fielddata`. -/
theorem fielddata_directive_fragment_witness :
    GenerateEsSchema fhirDefs 1 (some (.inline (some (taggedString "keyword,fielddata")))) ["f"]
      = .ok { Schema.zero with EsTemplate := "\"type\": \"keyword\",\"fielddata\": \"true\"" } :=
  (fielddata_directive_fragment fhirDefs 0 (taggedString "keyword,fielddata") ["f"]
    "keyword,fielddata" rfl rfl rfl (Or.inr (Or.inr (Or.inr rfl))) (by decide) (by decide)
    (by decide) (by decide) (by decide)).1.trans rfl

/-- C20 (as stated, refuted): the template of a string annotated with
`fielddata` is `"fielddata": "true"`, where the value is the JSON string
`"true"`, which is not the fragment `"fielddata": true` of a boolean flag. -/
theorem fielddata_is_the_string_true :
    GenerateEsSchema fhirDefs 1 (some (.inline (some (taggedString "fielddata")))) ["f"]
        = .ok { Schema.zero with EsTemplate := "\"fielddata\": \"true\"" }
      ∧ "\"fielddata\": \"true\"" ≠ "\"fielddata\": true" :=
  ⟨rfl, by decide⟩

end codegen

/-! ## Auxiliary types of open properties -/

namespace codegen

open openapi3 (SchemaRef Defs)
open Examples

/-- The auxiliary types of a schema: those of its properties, then its own. -/
theorem GetAdditionalTypeDefs_eq (s : Schema) :
    s.GetAdditionalTypeDefs = propertiesTypeDefs s.Properties ++ s.AdditionalTypes := by
  cases s; simp [Schema.GetAdditionalTypeDefs]

/-- The auxiliary types of a property are those of its schema. -/
theorem propertyTypeDefs_eq (p : Property) :
    propertyTypeDefs p = p.Schema.GetAdditionalTypeDefs := by
  cases p; simp [propertyTypeDefs]

/-- An auxiliary type of a property is an auxiliary type of the list of properties. -/
theorem mem_propertiesTypeDefs (props : List Property) (p : Property) (td : TypeDefinition)
    (hp : p ∈ props) (htd : td ∈ p.Schema.GetAdditionalTypeDefs) :
    td ∈ propertiesTypeDefs props := by
  induction props with
  | nil => cases hp
  | cons q rest ih =>
    simp only [propertiesTypeDefs, List.mem_append]
    rcases List.mem_cons.1 hp with rfl | hp
    · left; rw [propertyTypeDefs_eq]; exact htd
    · right; exact ih hp

/-- The nested property schemas of a schema are those of its properties. -/
theorem Schema.nested_eq (s : Schema) : s.nested = nestedOfProperties s.Properties := by
  cases s; simp [Schema.nested]

/-- The nested property schemas of a property: its schema and those nested in it. -/
theorem nestedOfProperty_eq (p : Property) :
    nestedOfProperty p = p.Schema :: nestedOfProperties p.Schema.Properties := by
  cases p; simp [nestedOfProperty, Schema.nested_eq]

/-- Membership in the nested property schemas of a list of properties. -/
theorem mem_nestedOfProperties (props : List Property) (q : Schema) :
    q ∈ nestedOfProperties props
      ↔ ∃ p ∈ props, q = p.Schema ∨ q ∈ nestedOfProperties p.Schema.Properties := by
  induction props with
  | nil => simp [nestedOfProperties]
  | cons p rest ih =>
    simp only [nestedOfProperties, List.mem_append, nestedOfProperty_eq, List.mem_cons, ih]
    constructor
    · rintro (h | ⟨p', hp', h⟩)
      · exact ⟨p, Or.inl rfl, h⟩
      · exact ⟨p', Or.inr hp', h⟩
    · rintro ⟨p', hp' | hp', h⟩
      · subst hp'; exact Or.inl h
      · exact Or.inr ⟨p', hp', h⟩

/-- The hoisting step written in the property loop is `hoisted`. -/
theorem hoisted_eq (env : Env) (pp : List String) (cs : Schema) :
    (if cs.HasAdditionalProperties && cs.RefType == "" then
        { cs with
          AdditionalTypes := cs.AdditionalTypes ++
            [{ TypeName := env.PathToTypeName pp, JsonName := stringsJoin (env.PathToTypeNameLeaves pp) ".",
               ResponseName := "", Schema := cs }],
          RefType := env.PathToTypeName pp }
      else cs) = hoisted env pp cs := rfl

/-- Inversion of a successful property loop: every appended property has a key
of the loop as its name and the hoisted result of the resolver as its schema. -/
theorem goPropertyLoop_schema (env : Env) (defs : Defs) (gen : Resolver)
    (schema : openapi3.Schema) (path : List String) :
    ∀ (keys : List String) (acc props : List Property),
    goPropertyLoop env defs gen schema path keys acc = .ok props →
      ∀ p ∈ props, p ∈ acc ∨ (p.JsonFieldName ∈ keys ∧
        ∃ cs, gen (openapi3.mapIndex schema.Properties p.JsonFieldName)
                (path ++ [p.JsonFieldName]) = .ok cs
          ∧ p.Schema = hoisted env (path ++ [p.JsonFieldName]) cs) := by
  intro keys
  induction keys with
  | nil =>
    intro acc props h p hp
    simp only [goPropertyLoop, Outcome.ok.injEq] at h
    subst h
    exact Or.inl hp
  | cons k ks ih =>
    intro acc props h p hp
    simp only [goPropertyLoop] at h
    cases hg : gen (openapi3.mapIndex schema.Properties k) (path ++ [k]) with
    | error e => simp only [hg] at h; cases h
    | panic e => simp only [hg] at h; cases h
    | outOfFuel => simp only [hg] at h; cases h
    | ok cs =>
      simp only [hg] at h
      split at h
      · cases h
      · split at h
        · cases h
        · cases h
        · cases h
        · split at h
          · cases h
          · rcases ih _ _ h p hp with hacc | ⟨hk, cs', hcs, hs⟩
            · rcases List.mem_append.1 hacc with h1 | h2
              · exact Or.inl h1
              · right
                simp only [List.mem_singleton] at h2
                subst h2
                exact ⟨List.mem_cons_self _ _, cs, hg, rfl⟩
            · exact Or.inr ⟨List.mem_cons_of_mem _ hk, cs', hcs, hs⟩

/-- The hoisting step on an open schema without a reference name. -/
theorem hoisted_open (env : Env) (pp : List String) (cs : Schema)
    (h : cs.HasAdditionalProperties = true ∧ cs.RefType = "") :
    hoisted env pp cs
      = { cs with
          AdditionalTypes := cs.AdditionalTypes ++
            [{ TypeName := env.PathToTypeName pp, JsonName := stringsJoin (env.PathToTypeNameLeaves pp) ".",
               ResponseName := "", Schema := cs }],
          RefType := env.PathToTypeName pp } := by
  unfold hoisted
  simp [h.1, h.2]

/-- The hoisting step leaves every other schema unchanged. -/
theorem hoisted_closed (env : Env) (pp : List String) (cs : Schema)
    (h : ¬ (cs.HasAdditionalProperties = true ∧ cs.RefType = "")) :
    hoisted env pp cs = cs := by
  unfold hoisted
  have : (cs.HasAdditionalProperties && cs.RefType == "") = false := by
    cases hh : cs.HasAdditionalProperties
    · simp
    · have : cs.RefType ≠ "" := fun hr => h ⟨hh, hr⟩
      simp [this]
  simp [this]

/-- The hoisting step in general: when `GenerateGoSchema` resolves an object
node with properties at the path `path`, every property `p` of the result
carries the resolution `cs` of its node at the path `path ++ [p]`. If `cs` has
open additional properties and an empty `RefType`, the schema of `p` refers to
the name `PathToTypeName (path ++ [p])` (its `RefType`, and its type
declaration when the name is not empty) and `GetAdditionalTypeDefs` of the
parent contains a type definition with that name, with `cs` as schema, and with
the segments of the path as `PathToTypeName` has left them, joined by `.`, as
`JsonName`. Otherwise the schema of `p` is `cs` unchanged: no type definition
is added and the type declaration is kept. -/
theorem open_property_is_hoisted (env : Env) (defs : Defs) (fuel : Nat)
    (schema : openapi3.Schema) (path : List String) (s : Schema)
    (hAny : schema.AnyOf = none) (hOne : schema.OneOf = none) (hAll : schema.AllOf = none)
    (hType : schema.Type_ = "" ∨ schema.Type_ = "object")
    (hne : ¬ (schema.Properties.length = 0 ∧ !SchemaHasAdditionalProperties schema))
    (h : GenerateGoSchema env defs fuel (some (.inline (some schema))) path = .ok s) :
    ∀ p ∈ s.Properties, ∃ cs,
      GenerateGoSchema env defs fuel (openapi3.mapIndex schema.Properties p.JsonFieldName)
          (path ++ [p.JsonFieldName]) = .ok cs
        ∧ (cs.HasAdditionalProperties = true ∧ cs.RefType = "" →
            p.Schema.RefType = env.PathToTypeName (path ++ [p.JsonFieldName])
              ∧ (env.PathToTypeName (path ++ [p.JsonFieldName]) ≠ "" →
                  p.Schema.TypeDecl = env.PathToTypeName (path ++ [p.JsonFieldName]))
              ∧ ∃ td ∈ s.GetAdditionalTypeDefs,
                  td.TypeName = env.PathToTypeName (path ++ [p.JsonFieldName])
                    ∧ td.JsonName
                        = stringsJoin (env.PathToTypeNameLeaves (path ++ [p.JsonFieldName])) "."
                    ∧ td.Schema = cs)
        ∧ (¬ (cs.HasAdditionalProperties = true ∧ cs.RefType = "") → p.Schema = cs) := by
  cases fuel with
  | zero => simp [GenerateGoSchema] at h
  | succ n =>
    rw [GenerateGoSchema_plain env defs n schema path hAny hOne hAll] at h
    rw [if_pos hType, if_neg hne] at h
    obtain ⟨props, apt, goType, hloop, -, -, hs⟩ := goSchemaObject_ok env defs _ schema path _ s h
    have hprops : s.Properties = props := by rw [hs]
    intro p hp
    rw [hprops] at hp
    rcases goPropertyLoop_schema env defs _ schema path _ _ _ hloop p hp with hacc | ⟨-, cs, hcs, hsch⟩
    · simp [Schema.zero] at hacc
    · refine ⟨cs, ?_, ?_, ?_⟩
      · rw [GenerateGoSchema_succ env defs n _ _ (by rw [hcs]; simp), hcs]
      · intro hopen
        rw [hoisted_open env _ cs hopen] at hsch
        refine ⟨by rw [hsch], ?_, ?_⟩
        · intro hname
          rw [hsch]
          simp [Schema.TypeDecl, Schema.IsRef, hname]
        · refine ⟨{ TypeName := env.PathToTypeName (path ++ [p.JsonFieldName]),
                    JsonName :=
                      stringsJoin (env.PathToTypeNameLeaves (path ++ [p.JsonFieldName])) ".",
                    ResponseName := "", Schema := cs }, ?_, rfl, rfl, rfl⟩
          rw [GetAdditionalTypeDefs_eq, hprops]
          apply List.mem_append_left
          apply mem_propertiesTypeDefs props p _ hp
          rw [GetAdditionalTypeDefs_eq, hsch]
          apply List.mem_append_right
          simp
      · intro hclosed
        rw [hsch, hoisted_closed env _ cs hclosed]

/-- The hoisting step at a concrete input: the object whose property `m` is an
open map of strings, at the path `P`. -/
theorem open_property_is_hoisted_witness :
    ∃ s, GenerateGoSchema (exampleEnv id) (fun _ => none) 3 (some (holder "string")) ["P"] = .ok s
      ∧ s.Properties.map (fun p => p.JsonFieldName) = ["m"]
      ∧ ∀ p ∈ s.Properties, ∃ cs,
          GenerateGoSchema (exampleEnv id) (fun _ => none) 3
              (openapi3.mapIndex (holderSchema "string").Properties p.JsonFieldName)
              (["P"] ++ [p.JsonFieldName]) = .ok cs
            ∧ (cs.HasAdditionalProperties = true ∧ cs.RefType = "" →
                p.Schema.RefType = (exampleEnv id).PathToTypeName (["P"] ++ [p.JsonFieldName])
                  ∧ ((exampleEnv id).PathToTypeName (["P"] ++ [p.JsonFieldName]) ≠ "" →
                      p.Schema.TypeDecl
                        = (exampleEnv id).PathToTypeName (["P"] ++ [p.JsonFieldName]))
                  ∧ ∃ td ∈ s.GetAdditionalTypeDefs,
                      td.TypeName = (exampleEnv id).PathToTypeName (["P"] ++ [p.JsonFieldName])
                        ∧ td.JsonName
                            = stringsJoin ((exampleEnv id).PathToTypeNameLeaves
                                (["P"] ++ [p.JsonFieldName])) "."
                        ∧ td.Schema = cs)
            ∧ (¬ (cs.HasAdditionalProperties = true ∧ cs.RefType = "") → p.Schema = cs) :=
  ⟨_, rfl, rfl,
    open_property_is_hoisted (exampleEnv id) (fun _ => none) 3 (holderSchema "string") ["P"] _
      rfl rfl rfl (Or.inr rfl) (by decide) rfl⟩

/-- The auxiliary types of properties whose schemas have no properties of their own. -/
theorem propertiesTypeDefs_flat (props : List Property)
    (h : props.all (fun p => p.Schema.Properties.isEmpty) = true) :
    propertiesTypeDefs props = (props.map (fun p => p.Schema.AdditionalTypes)).flatten := by
  induction props with
  | nil => rfl
  | cons p rest ih =>
    simp only [List.all_cons, Bool.and_eq_true] at h
    have hp : p.Schema.Properties = [] := List.isEmpty_iff.1 h.1
    simp only [propertiesTypeDefs, propertyTypeDefs_eq, GetAdditionalTypeDefs_eq, hp, ih h.2,
      List.map_cons, List.flatten_cons, List.nil_append]

/-- C13 (as stated, refuted by the code): for the `allOf` of two inline members
that both declare the property `m`, an open map of strings in one and of
integers in the other, `GenerateGoSchema` succeeds at the path `P` and
`GetAdditionalTypeDefs` returns two type definitions with the same name `P_m`
(and different struct types): both members are resolved under the same path. -/
theorem allOf_members_share_a_type_name :
    ∃ s, GenerateGoSchema (exampleEnv id) (fun _ => none) 4
          (some (.inline (some twoHolders))) ["P"] = .ok s
      ∧ s.GetAdditionalTypeDefs.map (fun t => (t.TypeName, t.JsonName, t.Schema.GoType))
          = [("P_m", "P.m",
                "struct \x7b\nAdditionalProperties map[string]string `json:\"-\"`\n\x7d"),
              ("P_m", "P.m",
                "struct \x7b\nAdditionalProperties map[string]int `json:\"-\"`\n\x7d")] := by
  have h : (GenerateGoSchema (exampleEnv id) (fun _ => none) 4
      (some (.inline (some twoHolders))) ["P"]).value?.map
        (fun s => (s.Properties.all (fun p => p.Schema.Properties.isEmpty),
          ((s.Properties.map (fun p => p.Schema.AdditionalTypes)).flatten
            ++ s.AdditionalTypes).map (fun t => (t.TypeName, t.JsonName, t.Schema.GoType))))
      = some (true,
          [("P_m", "P.m",
              "struct \x7b\nAdditionalProperties map[string]string `json:\"-\"`\n\x7d"),
            ("P_m", "P.m",
              "struct \x7b\nAdditionalProperties map[string]int `json:\"-\"`\n\x7d")]) := by
    decide
  cases hg : GenerateGoSchema (exampleEnv id) (fun _ => none) 4
      (some (.inline (some twoHolders))) ["P"] with
  | ok s =>
    rw [hg] at h
    simp only [Outcome.value?, Option.map_some', Option.some.injEq, Prod.mk.injEq] at h
    refine ⟨s, rfl, ?_⟩
    rw [GetAdditionalTypeDefs_eq, propertiesTypeDefs_flat _ h.1]
    exact h.2
  | error e => rw [hg] at h; simp [Outcome.value?] at h
  | panic e => rw [hg] at h; simp [Outcome.value?] at h
  | outOfFuel => rw [hg] at h; simp [Outcome.value?] at h

end codegen

/-! ## Reference names -/

namespace codegen

open openapi3 (SchemaRef Defs)
open Examples

/-- Where the properties of a merged schema come from: the initial schema or a
resolved member. -/
theorem mergeSchemasLoop_properties_from (env : Env) (gen : Resolver) (path : List String) :
    ∀ (ms : List (Option SchemaRef)) (out out' : Schema),
      mergeSchemasLoop env gen path ms out = .ok out' →
      ∀ p ∈ out'.Properties,
        p ∈ out.Properties ∨ ∃ m ∈ ms, ∃ s, gen m path = .ok s ∧ p ∈ s.Properties := by
  intro ms
  induction ms with
  | nil =>
    intro out out' h p hp
    simp only [mergeSchemasLoop, Outcome.ok.injEq] at h
    subst h
    exact Or.inl hp
  | cons m rest ih =>
    intro out out' h p hp
    simp only [mergeSchemasLoop] at h
    split at h
    · cases h
    · rename_i member
      split at h
      · cases h
      · cases hg : gen (some member) path with
        | error e => simp only [hg] at h; cases h
        | panic e => simp only [hg] at h; cases h
        | outOfFuel => simp only [hg] at h; cases h
        | ok schema =>
          simp only [hg] at h
          cases hmp : mergePropertyLoop schema.Properties out with
          | error e => simp only [hmp] at h; cases h
          | ok out1 =>
            simp only [hmp] at h
            obtain ⟨-, hout1⟩ := (mergePropertyLoop_ok_iff _ _ _).1 hmp
            have hprops1 : out1.Properties = out.Properties ++ schema.Properties := by
              rw [hout1]
            have step : ∀ o, o.Properties = out1.Properties →
                mergeSchemasLoop env gen path rest o = .ok out' →
                p ∈ out.Properties ∨ ∃ m' ∈ some member :: rest, ∃ s, gen m' path = .ok s
                  ∧ p ∈ s.Properties := by
              intro o ho hloop
              rcases ih o out' hloop p hp with h1 | ⟨m', hm', s, hs⟩
              · rw [ho, hprops1] at h1
                rcases List.mem_append.1 h1 with h1 | h1
                · exact Or.inl h1
                · exact Or.inr ⟨some member, List.mem_cons_self _ _, schema, hg, h1⟩
              · exact Or.inr ⟨m', List.mem_cons_of_mem _ hm', s, hs⟩
            split at h
            · split at h
              · split at h
                · split at h
                  · cases h
                  · exact step _ rfl h
                · cases h
              · exact step { out1 with
                    HasAdditionalProperties := true,
                    AdditionalPropertiesType := schema.AdditionalPropertiesType } rfl h
            · exact step _ rfl h

/-- The typed branch keeps the properties of `outSchema`, or, for an array, takes
those of the resolved items. -/
theorem goSchemaTyped_properties (gen : Resolver) (schema : openapi3.Schema)
    (path : List String) (out s : Schema) (h : goSchemaTyped gen schema path out = .ok s) :
    s.Properties = out.Properties
      ∨ ∃ a, gen schema.Items path = .ok a ∧ s.Properties = a.Properties := by
  unfold goSchemaTyped at h
  simp only [] at h
  by_cases ht : schema.Type_ = "array"
  · rw [if_pos ht] at h
    cases hg : gen schema.Items path with
    | error e => simp only [hg] at h; cases h
    | panic e => simp only [hg] at h; cases h
    | outOfFuel => simp only [hg] at h; cases h
    | ok a =>
      simp only [hg] at h
      cases h
      exact Or.inr ⟨a, rfl, rfl⟩
  · rw [if_neg ht] at h
    left
    repeat' split at h
    all_goals (cases h; try rfl)

/-- The hoisting step keeps the properties. -/
theorem hoisted_properties (env : Env) (pp : List String) (cs : Schema) :
    (hoisted env pp cs).Properties = cs.Properties := by
  unfold hoisted
  split <;> rfl

/-- A hoisted schema with a reference name has open additional properties and
holds the type definition of that name. -/
theorem hoisted_named (env : Env) (pp : List String) (cs : Schema) (hcs : cs.RefType = "")
    (h : (hoisted env pp cs).RefType ≠ "") :
    (hoisted env pp cs).HasAdditionalProperties = true
      ∧ ∃ td ∈ (hoisted env pp cs).AdditionalTypes, td.TypeName = (hoisted env pp cs).RefType := by
  by_cases ho : cs.HasAdditionalProperties = true ∧ cs.RefType = ""
  · rw [hoisted_open env pp cs ho]
    refine ⟨ho.1, _, List.mem_append_right _ (List.mem_singleton_self _), rfl⟩
  · rw [hoisted_closed env pp cs ho] at h
    exact absurd hcs h

/-- The reference names in a result of `GenerateGoSchema`, by induction on the budget. -/
theorem GenerateGoSchema_named (env : Env) (defs : Defs) :
    ∀ (fuel : Nat) (sref : Option SchemaRef) (path : List String) (s : Schema),
      GenerateGoSchema env defs fuel sref path = .ok s →
        s.RefType = ""
          ∧ ∀ q ∈ nestedOfProperties s.Properties, q.RefType ≠ "" →
              q.HasAdditionalProperties = true
                ∧ ∃ td ∈ q.AdditionalTypes, td.TypeName = q.RefType := by
  intro fuel
  induction fuel with
  | zero => intro sref path s h; simp [GenerateGoSchema] at h
  | succ n ih =>
    intro sref path s h
    have fromChild : ∀ (x : Option SchemaRef) (pth : List String) (a : Schema),
        GenerateGoSchema env defs n x pth = .ok a →
        ∀ p ∈ a.Properties, ∀ q, (q = p.Schema ∨ q ∈ nestedOfProperties p.Schema.Properties) →
          q.RefType ≠ "" →
            q.HasAdditionalProperties = true
              ∧ ∃ td ∈ q.AdditionalTypes, td.TypeName = q.RefType := by
      intro x pth a ha p hp q hq
      exact (ih x pth a ha).2 q ((mem_nestedOfProperties _ _).2 ⟨p, hp, hq⟩)
    cases sref with
    | none =>
      simp only [GenerateGoSchema, Outcome.ok.injEq] at h
      subst h
      exact ⟨rfl, by simp [Schema.zero, nestedOfProperties]⟩
    | some sref =>
      simp only [GenerateGoSchema] at h
      revert h
      by_cases href : sref.Ref ≠ ""
      · rw [if_pos href]
        cases env.RefPathToGoType sref.Ref with
        | error e => intro h; cases h
        | ok t =>
          intro h
          simp only [Outcome.ok.injEq] at h
          subst h
          exact ⟨rfl, by simp [Schema.zero, nestedOfProperties]⟩
      · rw [if_neg href]
        cases openapi3.SchemaRefOf.Value defs sref with
        | none => intro h; cases h
        | some schema =>
          simp only []
          cases schema.AnyOf.isSome with
          | true =>
            intro h
            simp only [if_true, Outcome.ok.injEq] at h
            subst h
            exact ⟨rfl, by simp [Schema.zero, nestedOfProperties]⟩
          | false =>
            simp only [Bool.false_eq_true, if_false]
            cases schema.OneOf.isSome with
            | true =>
              intro h
              simp only [if_true, Outcome.ok.injEq] at h
              subst h
              exact ⟨rfl, by simp [Schema.zero, nestedOfProperties]⟩
            | false =>
              simp only [Bool.false_eq_true, if_false]
              cases schema.AllOf with
              | some allOf =>
                simp only []
                cases hm : MergeSchemas env (GenerateGoSchema env defs n) allOf path with
                | error e => intro h; cases h
                | panic e => intro h; cases h
                | outOfFuel => intro h; cases h
                | ok merged =>
                  intro h
                  simp only [Outcome.ok.injEq] at h
                  subst h
                  refine ⟨rfl, ?_⟩
                  obtain ⟨out, goType, hloop, -, hmerged⟩ := MergeSchemas_ok env _ path allOf _ hm
                  intro q hq
                  obtain ⟨p, hp, hq⟩ := (mem_nestedOfProperties _ _).1 hq
                  have hp' : p ∈ out.Properties := by
                    rw [hmerged] at hp; exact hp
                  rcases mergeSchemasLoop_properties_from env _ path allOf _ _ hloop p hp'
                    with h0 | ⟨m, -, a, ha, hpa⟩
                  · simp [Schema.zero] at h0
                  · exact fromChild m path a ha p hpa q hq
              | none =>
                simp only []
                by_cases ht : schema.Type_ = "" ∨ schema.Type_ = "object"
                · rw [if_pos ht]
                  by_cases he : schema.Properties.length = 0
                      ∧ (!SchemaHasAdditionalProperties schema) = true
                  · rw [if_pos he]
                    intro h
                    simp only [Outcome.ok.injEq] at h
                    subst h
                    exact ⟨rfl, by simp [Schema.zero, nestedOfProperties]⟩
                  · rw [if_neg he]
                    intro h
                    obtain ⟨props, apt, goType, hloop, -, -, hs⟩ :=
                      goSchemaObject_ok env defs _ schema path _ s h
                    subst hs
                    refine ⟨rfl, ?_⟩
                    intro q hq
                    obtain ⟨p, hp, hq⟩ := (mem_nestedOfProperties _ _).1 hq
                    rcases goPropertyLoop_schema env defs _ schema path _ _ _ hloop p hp
                      with hacc | ⟨-, cs, hcs, hsch⟩
                    · simp [Schema.zero] at hacc
                    · obtain ⟨hcs0, hcsn⟩ := ih _ _ cs hcs
                      rcases hq with hq | hq
                      · intro hne
                        rw [hq, hsch] at hne ⊢
                        exact hoisted_named env _ cs hcs0 hne
                      · rw [hsch, hoisted_properties] at hq
                        exact hcsn q hq
                · rw [if_neg ht]
                  intro h
                  obtain ⟨-, -, hr, -⟩ := goSchemaTyped_ok _ schema path _ s h
                  refine ⟨by rw [hr], ?_⟩
                  intro q hq
                  obtain ⟨p, hp, hq⟩ := (mem_nestedOfProperties _ _).1 hq
                  rcases goSchemaTyped_properties _ schema path _ s h with h0 | ⟨a, ha, hpa⟩
                  · rw [h0] at hp; simp [Schema.zero] at hp
                  · rw [hpa] at hp
                    exact fromChild _ path a ha p hp q hq

/-- C11 (amended): the schema a successful `GenerateGoSchema` returns has an
empty `RefType`, also for a reference node (whose name is the `GoType`); and a
property schema nested in it has a non-empty `RefType` only as the result of
the hoisting step: it then has open additional properties
(`HasAdditionalProperties` is true) and its `AdditionalTypes` hold the type
definition of that name. -/
theorem reference_names_come_from_hoisting (env : Env) (defs : Defs) (fuel : Nat)
    (sref : Option SchemaRef) (path : List String) (s : Schema)
    (h : GenerateGoSchema env defs fuel sref path = .ok s) :
    s.RefType = ""
      ∧ ∀ q ∈ s.nested, q.RefType ≠ "" →
          q.HasAdditionalProperties = true
            ∧ ∃ td ∈ q.AdditionalTypes, td.TypeName = q.RefType := by
  rw [Schema.nested_eq]
  exact GenerateGoSchema_named env defs fuel sref path s h

/-- C11 (amended) at a concrete input: the object whose property `m` is an open
map of strings. -/
theorem reference_names_come_from_hoisting_witness :
    ∃ s, GenerateGoSchema (exampleEnv id) (fun _ => none) 3 (some (holder "string")) ["P"] = .ok s
      ∧ s.Properties.map (fun p => p.Schema.RefType) = ["P_m"]
      ∧ s.RefType = ""
      ∧ ∀ q ∈ s.nested, q.RefType ≠ "" →
          q.HasAdditionalProperties = true
            ∧ ∃ td ∈ q.AdditionalTypes, td.TypeName = q.RefType :=
  ⟨_, rfl, rfl,
    reference_names_come_from_hoisting (exampleEnv id) (fun _ => none) 3
      (some (holder "string")) ["P"] _ rfl⟩

/-- C11 (as stated, refuted): the schema of the property `m`, an open map, has
the non-empty `RefType` `P_m` together with `HasAdditionalProperties = true`
and a non-empty `AdditionalTypes`, and does not resolve a reference node; and
the schema resolving the reference node `Item` has the empty `RefType`. -/
theorem named_schema_has_content :
    (GenerateGoSchema (exampleEnv id) (fun _ => none) 3 (some (holder "string")) ["P"]).value?.map
        (fun s => s.Properties.map (fun p =>
          (p.Schema.RefType, p.Schema.HasAdditionalProperties,
            p.Schema.AdditionalTypes.map (fun t => t.TypeName))))
        = some [("P_m", true, ["P_m"])]
      ∧ (GenerateGoSchema (exampleEnv id) pairDefs 1 (some (.ref "Item")) ["P"]).value?.map
          (fun s => (s.GoType, s.RefType)) = some ("Item", "") := by
  decide

end codegen

/-! ## Repeated names -/

namespace codegen

open openapi3 (SchemaRef Defs)
open Examples

/-- The scan of `isDuplicate` answers true exactly when an entry still to come is
recorded already or occurs twice among the entries still to come. -/
theorem isDuplicate_scan_iff (refs keys : List String) :
    isDuplicate.scan refs keys = true ↔ (∃ x ∈ refs, x ∈ keys) ∨ ¬ refs.Nodup := by
  induction refs generalizing keys with
  | nil => simp [isDuplicate.scan]
  | cons entry rest ih =>
    have hc : keys.contains entry = true ↔ entry ∈ keys := by simp
    simp only [isDuplicate.scan]
    by_cases hk : entry ∈ keys
    · rw [if_pos (hc.2 hk)]
      simp only [true_iff]
      exact Or.inl ⟨entry, List.mem_cons_self _ _, hk⟩
    · rw [if_neg (fun h => hk (hc.1 h)), ih, List.nodup_cons]
      constructor
      · rintro (⟨x, hx, hxk⟩ | hn)
        · rcases List.mem_cons.1 hxk with rfl | hxk
          · exact Or.inr (fun h => h.1 hx)
          · exact Or.inl ⟨x, List.mem_cons_of_mem _ hx, hxk⟩
        · exact Or.inr (fun h => hn h.2)
      · rintro (⟨x, hx, hxk⟩ | hn)
        · rcases List.mem_cons.1 hx with rfl | hx
          · exact absurd hxk hk
          · exact Or.inl ⟨x, hx, List.mem_cons_of_mem _ hxk⟩
        · by_cases he : entry ∈ rest
          · exact Or.inl ⟨entry, he, List.mem_cons_self _ _⟩
          · exact Or.inr (fun h => hn ⟨he, h⟩)

/-- The function `isDuplicate` answers true exactly on a list with a repetition. -/
theorem isDuplicate_iff_not_nodup (refs : List String) :
    isDuplicate refs = true ↔ ¬ refs.Nodup := by
  unfold isDuplicate
  rw [isDuplicate_scan_iff]
  simp

/-- C27: `isDuplicate refs` is true if and only if some string stands at two
distinct positions of `refs`; it is false for the empty list and for every
list of pairwise distinct names; and once it is true it stays true for every
extension `refs ++ more`. -/
theorem isDuplicate_detects_repeated_names (refs : List String) :
    (isDuplicate refs = true
        ↔ ∃ i j : Fin refs.length, i ≠ j ∧ refs.get i = refs.get j)
      ∧ isDuplicate [] = false
      ∧ (refs.Nodup → isDuplicate refs = false)
      ∧ (isDuplicate refs = true → ∀ more : List String, isDuplicate (refs ++ more) = true) := by
  refine ⟨?_, rfl, ?_, ?_⟩
  · rw [isDuplicate_iff_not_nodup, List.nodup_iff_injective_get]
    unfold Function.Injective
    constructor
    · intro h
      by_contra hne
      apply h
      intro i j hij
      by_contra hij'
      exact hne ⟨i, j, hij', hij⟩
    · rintro ⟨i, j, hij, hget⟩ h
      exact hij (h hget)
  · intro hn
    cases h : isDuplicate refs with
    | false => rfl
    | true => exact absurd hn ((isDuplicate_iff_not_nodup refs).1 h)
  · intro h more
    rw [isDuplicate_iff_not_nodup] at h ⊢
    intro hn
    exact h (List.Nodup.of_append_left hn)

end codegen

/-! ## The method MergeProperty -/

namespace codegen

open openapi3 (SchemaRef Defs)
open Examples

/-- The result of `MergeProperty` read off the state of its receiver. -/
theorem MergeProperty_state_eq (s : Schema) (p : Property) :
    s.MergeProperty p
      = match MergeProperty.state s p with
        | (s', none) => .ok s'
        | (_, some err) => .error err := by
  unfold Schema.MergeProperty MergeProperty.state
  cases MergeProperty.conflict p s.Properties <;> rfl

/-- Two properties conflict when they have the same name and `PropertiesEqual` is false. -/
theorem not_compatible_iff (e p : Property) :
    ¬ Compatible e p ↔ e.JsonFieldName = p.JsonFieldName ∧ PropertiesEqual e p = false := by
  unfold Compatible
  simp

/-- C29: `MergeProperty p` on `s` returns an error if and only if `s.Properties`
holds a property `e` with the name of `p` for which `PropertiesEqual e p` is
false, which for two properties of the same name means a different type
declaration or a different required-ness. With an error the receiver is left
as it was; without, its `Properties` are the old list with `p` appended at the
end and every other field is unchanged. -/
theorem MergeProperty_fails_exactly_on_conflict (s : Schema) (p : Property) :
    ((∃ err, s.MergeProperty p = .error err)
        ↔ ∃ e ∈ s.Properties, e.JsonFieldName = p.JsonFieldName ∧ PropertiesEqual e p = false)
      ∧ (∀ e : Property, e.JsonFieldName = p.JsonFieldName →
          (PropertiesEqual e p = false
            ↔ e.Schema.TypeDecl ≠ p.Schema.TypeDecl ∨ e.Required ≠ p.Required))
      ∧ (∀ err, s.MergeProperty p = .error err →
          MergeProperty.state s p = (s, some err))
      ∧ (∀ s', s.MergeProperty p = .ok s' →
          MergeProperty.state s p = (s', none)
            ∧ s' = { s with Properties := s.Properties ++ [p] }
            ∧ s'.Properties = s.Properties ++ [p]
            ∧ s'.GoType = s.GoType ∧ s'.RefType = s.RefType ∧ s'.EsTemplate = s.EsTemplate
            ∧ s'.EnumValues = s.EnumValues
            ∧ s'.HasAdditionalProperties = s.HasAdditionalProperties
            ∧ s'.AdditionalPropertiesType = s.AdditionalPropertiesType
            ∧ s'.AdditionalTypes = s.AdditionalTypes
            ∧ s'.SkipOptionalPointer = s.SkipOptionalPointer) := by
  refine ⟨?_, ?_, ?_, ?_⟩
  · have hok := MergeProperty_ok_iff s p { s with Properties := s.Properties ++ [p] }
    constructor
    · rintro ⟨err, herr⟩
      by_contra hne
      have hall : ∀ e ∈ s.Properties, Compatible e p := by
        intro e he
        by_contra hc
        exact hne ⟨e, he, (not_compatible_iff e p).1 hc⟩
      rw [hok.2 ⟨hall, rfl⟩] at herr
      cases herr
    · rintro ⟨e, he, hn, hp⟩
      cases h : s.MergeProperty p with
      | error err => exact ⟨err, rfl⟩
      | ok s' =>
        have := ((MergeProperty_ok_iff s p s').1 h).1 e he
        exact absurd this ((not_compatible_iff e p).2 ⟨hn, hp⟩)
  · intro e hn
    have := PropertiesEqual_iff e p
    constructor
    · intro hf
      by_contra hne
      simp only [not_or, not_not] at hne
      rw [this.2 ⟨hn, hne.1, hne.2⟩] at hf
      cases hf
    · intro hd
      cases h : PropertiesEqual e p with
      | false => rfl
      | true =>
        have := this.1 h
        rcases hd with hd | hd
        · exact absurd this.2.1 hd
        · exact absurd this.2.2 hd
  · intro err h
    unfold Schema.MergeProperty at h
    unfold MergeProperty.state
    cases hc : MergeProperty.conflict p s.Properties with
    | none => rw [hc] at h; cases h
    | some name =>
      rw [hc] at h
      simp only [Except.error.injEq] at h
      rw [← h]
  · intro s' h
    have hs := ((MergeProperty_ok_iff s p s').1 h).2
    refine ⟨?_, hs, ?_⟩
    · unfold Schema.MergeProperty at h
      unfold MergeProperty.state
      cases hc : MergeProperty.conflict p s.Properties with
      | none =>
        rw [hc] at h
        simp only [Except.ok.injEq] at h
        rw [← h]
      | some name => rw [hc] at h; cases h
    · subst hs
      exact ⟨rfl, rfl, rfl, rfl, rfl, rfl, rfl, rfl, rfl⟩

end codegen

/-! ## The invariant of merging -/

namespace codegen

open openapi3 (SchemaRef Defs)
open Examples

/-- In a list of properties that are pairwise free of conflict any two properties
of the same name have the same type declaration and the same required-ness. -/
theorem pairwise_compatible_same (l : List Property) (h : l.Pairwise Compatible) :
    ∀ a ∈ l, ∀ b ∈ l, a.JsonFieldName = b.JsonFieldName →
      a.Schema.TypeDecl = b.Schema.TypeDecl ∧ a.Required = b.Required := by
  intro a ha b hb hn
  have hc : Compatible a b :=
    List.Pairwise.forall_of_forall (R := Compatible) (fun _ _ h => Compatible.symm h)
      (fun x _ => Compatible.refl x) h ha hb
  exact ((PropertiesEqual_iff a b).1 (hc hn)).2

/-- A successful sequence of `MergeProperty` calls keeps the properties pairwise
free of conflict. -/
theorem mergePropertyLoop_pairwise (ps : List Property) (out out' : Schema)
    (h : mergePropertyLoop ps out = .ok out') (hpw : out.Properties.Pairwise Compatible) :
    out'.Properties.Pairwise Compatible := by
  obtain ⟨⟨h1, h2⟩, hs⟩ := (mergePropertyLoop_ok_iff ps out out').1 h
  rw [hs]
  exact List.pairwise_append.2 ⟨hpw, h2, h1⟩

/-- C30: after a successful sequence of `MergeProperty` calls from the empty
schema (the properties `ps`, in order), and in every schema a successful
`MergeSchemas` returns, any two properties with the same `JsonFieldName` have
the same type declaration and the same `Required` flag. -/
theorem merged_properties_agree_by_name (env : Env) (gen : Resolver) (path : List String)
    (ms : List (Option SchemaRef)) (out : Schema) (ps : List Property) (s : Schema)
    (hps : mergePropertyLoop ps Schema.zero = .ok s)
    (hms : MergeSchemas env gen ms path = .ok out) :
    (s.Properties = ps
        ∧ ∀ a ∈ s.Properties, ∀ b ∈ s.Properties, a.JsonFieldName = b.JsonFieldName →
            a.Schema.TypeDecl = b.Schema.TypeDecl ∧ a.Required = b.Required)
      ∧ ∀ a ∈ out.Properties, ∀ b ∈ out.Properties, a.JsonFieldName = b.JsonFieldName →
          a.Schema.TypeDecl = b.Schema.TypeDecl ∧ a.Required = b.Required := by
  refine ⟨⟨?_, ?_⟩, ?_⟩
  · rw [((mergePropertyLoop_ok_iff ps _ s).1 hps).2]
    simp [Schema.zero]
  · exact pairwise_compatible_same _
      (mergePropertyLoop_pairwise ps _ s hps (by simp [Schema.zero]))
  · obtain ⟨o, goType, hloop, -, ho⟩ := MergeSchemas_ok env gen path ms out hms
    have := (mergeSchemasLoop_ok env gen path ms _ o hloop (by simp [Schema.zero])).1
    rw [ho]
    exact pairwise_compatible_same _ this

/-- C30 at a concrete input: the `allOf` of two members that both declare the
string `x`, whose merged schema holds `x` twice. -/
theorem merged_properties_agree_by_name_witness :
    ∃ out, MergeSchemas (exampleEnv id) (GenerateGoSchema (exampleEnv id) (fun _ => none) 3)
        [some memberX, some memberX] ["P"] = .ok out
      ∧ out.Properties.map (fun p => p.JsonFieldName) = ["x", "x"]
      ∧ ∀ a ∈ out.Properties, ∀ b ∈ out.Properties, a.JsonFieldName = b.JsonFieldName →
          a.Schema.TypeDecl = b.Schema.TypeDecl ∧ a.Required = b.Required :=
  ⟨_, rfl, rfl,
    (merged_properties_agree_by_name (exampleEnv id)
      (GenerateGoSchema (exampleEnv id) (fun _ => none) 3) ["P"]
      [some memberX, some memberX] _ [twoRules, twoRules] _ rfl rfl).2⟩

end codegen

/-! ## The properties of an allOf -/

namespace codegen

open openapi3 (SchemaRef Defs)
open Examples

/-- Inversion of a successful member loop of `MergeSchemas`: every member is
resolved, and the merged properties are the initial ones followed by the
properties of the resolved members, in member order. -/
theorem mergeSchemasLoop_resolved (env : Env) (gen : Resolver) (path : List String) :
    ∀ (ms : List (Option SchemaRef)) (out out' : Schema),
      mergeSchemasLoop env gen path ms out = .ok out' →
      ∃ ss, List.Forall₂ (fun m s => m ≠ none ∧ gen m path = .ok s) ms ss
        ∧ out'.Properties = out.Properties ++ memberProperties ss := by
  intro ms
  induction ms with
  | nil =>
    intro out out' h
    simp only [mergeSchemasLoop, Outcome.ok.injEq] at h
    subst h
    exact ⟨[], List.Forall₂.nil, by simp [memberProperties]⟩
  | cons m rest ih =>
    intro out out' h
    simp only [mergeSchemasLoop] at h
    split at h
    · cases h
    · rename_i member
      split at h
      · cases h
      · cases hg : gen (some member) path with
        | error e => simp only [hg] at h; cases h
        | panic e => simp only [hg] at h; cases h
        | outOfFuel => simp only [hg] at h; cases h
        | ok schema =>
          simp only [hg] at h
          cases hmp : mergePropertyLoop schema.Properties out with
          | error e => simp only [hmp] at h; cases h
          | ok out1 =>
            simp only [hmp] at h
            obtain ⟨-, hout1⟩ := (mergePropertyLoop_ok_iff _ _ _).1 hmp
            have hprops1 : out1.Properties = out.Properties ++ schema.Properties := by
              rw [hout1]
            have step : ∀ o, o.Properties = out1.Properties →
                mergeSchemasLoop env gen path rest o = .ok out' →
                ∃ ss, List.Forall₂ (fun m s => m ≠ none ∧ gen m path = .ok s)
                    (some member :: rest) ss
                  ∧ out'.Properties = out.Properties ++ memberProperties ss := by
              intro o ho hloop
              obtain ⟨ss, hss, hp⟩ := ih o out' hloop
              refine ⟨schema :: ss, List.Forall₂.cons ⟨by simp, hg⟩ hss, ?_⟩
              rw [hp, ho, hprops1]
              simp [memberProperties]
            split at h
            · split at h
              · split at h
                · split at h
                  · cases h
                  · exact step _ rfl h
                · cases h
              · exact step { out1 with
                    HasAdditionalProperties := true,
                    AdditionalPropertiesType := schema.AdditionalPropertiesType } rfl h
            · exact step _ rfl h

/-- The schema `GenerateGoSchema` returns for a reference node has no properties. -/
theorem GenerateGoSchema_ref_properties (env : Env) (defs : Defs) (fuel : Nat)
    (sref : SchemaRef) (path : List String) (s : Schema) (href : sref.Ref ≠ "")
    (h : GenerateGoSchema env defs fuel (some sref) path = .ok s) : s.Properties = [] := by
  cases fuel with
  | zero => simp [GenerateGoSchema] at h
  | succ n =>
    simp only [GenerateGoSchema] at h
    rw [if_pos href] at h
    cases hr : env.RefPathToGoType sref.Ref with
    | error e => rw [hr] at h; cases h
    | ok t =>
      rw [hr] at h
      simp only [Outcome.ok.injEq] at h
      rw [← h]
      rfl

/-- The properties of the resolved members are those of the members that are not
references. -/
theorem memberProperties_inline (env : Env) (defs : Defs) (fuel : Nat) (path : List String)
    (ms : List (Option SchemaRef)) (ss : List Schema)
    (h : List.Forall₂ (fun m s => m ≠ none ∧ GenerateGoSchema env defs fuel m path = .ok s)
      ms ss) :
    memberProperties ss = memberProperties (inlineResolutions ms ss) := by
  induction h with
  | nil => rfl
  | @cons m s ms ss hm _ ih =>
    cases m with
    | none => exact absurd rfl hm.1
    | some member =>
      by_cases href : member.Ref = ""
      · have : inlineResolutions (some member :: ms) (s :: ss) = s :: inlineResolutions ms ss := by
          simp [inlineResolutions, href]
        rw [this]
        simp only [memberProperties, List.map_cons, List.flatten_cons] at ih ⊢
        rw [ih]
      · have : inlineResolutions (some member :: ms) (s :: ss) = inlineResolutions ms ss := by
          simp [inlineResolutions, href]
        rw [this, ← ih]
        have hp := GenerateGoSchema_ref_properties env defs fuel member path s href hm.2
        simp [memberProperties, hp]

end codegen

/-! ## The allOf with an annotation -/

namespace codegen

open openapi3 (SchemaRef Defs)
open Examples

/-- The equation of `GenerateEsSchema` on an `allOf` node. -/
theorem GenerateEsSchema_allOf (defs : Defs) (n : Nat) (schema : openapi3.Schema)
    (path : List String) (allOf : List (Option SchemaRef))
    (hAny : schema.AnyOf = none) (hOne : schema.OneOf = none) (hAll : schema.AllOf = some allOf) :
    GenerateEsSchema defs (n + 1) (some (.inline (some schema))) path
      = match parseEsType (some schema) with
        | .error err => .error err
        | .panic msg => .panic msg
        | .outOfFuel => .outOfFuel
        | .ok tag =>
          match MergeSchemasForEs (GenerateEsSchema defs n) allOf path tag with
          | .error err => .error (errorsWrap err "error merging schemas")
          | .panic msg => .panic msg
          | .outOfFuel => .outOfFuel
          | .ok mergedSchema => .ok mergedSchema := by
  simp only [GenerateEsSchema, openapi3.Ref_inline, openapi3.Value_inline, ne_eq,
    not_true_eq_false, if_false, hAny, hOne, hAll, Option.isSome_none, Bool.false_eq_true]

/-- The tagged `allOf` in general: for an `allOf` node whose own search-type
annotation is not empty, `GenerateEsSchema` at any positive budget returns the same schema for
every member list, table of definitions and path, without resolving a member:
the schema whose only content is the template
`"type": "nested","type": "nested"`, in which the fragment of the nested
type stands twice (once from `GenEsTemplateFromAllOf`, once more from
`MergeSchemasForEs`). -/
theorem tagged_allOf_is_nested_twice (defs : Defs) (n : Nat) (schema : openapi3.Schema)
    (path : List String) (allOf : List (Option SchemaRef)) (tag : String)
    (hAny : schema.AnyOf = none) (hOne : schema.OneOf = none) (hAll : schema.AllOf = some allOf)
    (he : parseEsType (some schema) = .ok tag) (htag : tag ≠ "") :
    GenerateEsSchema defs (n + 1) (some (.inline (some schema))) path
      = .ok { Schema.zero with EsTemplate := "\"type\": \"nested\",\"type\": \"nested\"" } := by
  rw [GenerateEsSchema_allOf defs n schema path allOf hAny hOne hAll, he]
  simp only [MergeSchemasForEs, GenEsTemplateFromAllOf, if_pos htag]
  rfl

/-- The tagged `allOf` at a concrete input, whose only member does not resolve
(an integer of an invalid format). -/
theorem tagged_allOf_is_nested_twice_witness :
    GenerateEsSchema fhirDefs 1 (some (.inline (some taggedAllOf))) ["P"]
      = .ok { Schema.zero with EsTemplate := "\"type\": \"nested\",\"type\": \"nested\"" } :=
  tagged_allOf_is_nested_twice fhirDefs 0 taggedAllOf ["P"] _ "text" rfl rfl rfl
    (by decide) (by decide)

/-- C21 (as stated, refuted by the code): the template of the tagged `allOf`
is `"type": "nested","type": "nested"`; the fragment `"type": "nested"`,
which `GenEsTemplateFromAllOf` returns once, occurs in it twice:
`MergeSchemasForEs` prefixes it again. -/
theorem tagged_allOf_has_type_twice :
    (GenerateEsSchema fhirDefs 2 (some (.inline (some taggedAllOf))) ["P"]).value?.map
        (fun s => (s.EsTemplate,
          countOccurrences "\"type\": \"nested\"".toList s.EsTemplate.toList))
      = some ("\"type\": \"nested\",\"type\": \"nested\"", 2) := by
  decide

end codegen

/-! ## The allOf without annotation -/

namespace codegen

open openapi3 (SchemaRef Defs)
open Examples

/-- An append of strings is empty exactly when both strings are. -/
theorem string_append_eq_empty (a b : String) : a ++ b = "" ↔ a = "" ∧ b = "" := by
  simp only [String.ext_iff, String.data_append]
  exact List.append_eq_nil

/-- The loop of `String.intercalate` with the empty separator gives the empty
string exactly when the accumulator and all elements are empty. -/
theorem intercalate_go_empty (l : List String) (acc : String) :
    String.intercalate.go acc "" l = "" ↔ acc = "" ∧ ∀ x ∈ l, x = "" := by
  induction l generalizing acc with
  | nil => simp [String.intercalate.go]
  | cons a rest ih =>
    rw [String.intercalate.go, ih, string_append_eq_empty, string_append_eq_empty]
    simp [and_assoc]

/-- The join without separator is empty exactly when every element is empty. -/
theorem stringsJoin_empty_iff (l : List String) :
    stringsJoin l "" = "" ↔ ∀ x ∈ l, x = "" := by
  cases l with
  | nil => simp [stringsJoin, String.intercalate]
  | cons a rest =>
    simp only [stringsJoin, String.intercalate, intercalate_go_empty]
    simp

/-- Every element occurs in the result of the loop of `String.intercalate`. -/
theorem intercalate_go_mem (sep : String) (l : List String) (acc t : String) (ht : t ∈ l) :
    ∃ pre post, String.intercalate.go acc sep l = pre ++ t ++ post := by
  induction l generalizing acc with
  | nil => cases ht
  | cons a rest ih =>
    rw [String.intercalate.go]
    rcases List.mem_cons.1 ht with rfl | h
    · obtain ⟨post, hpost⟩ := intercalate_go_prefix sep rest (acc ++ sep ++ t)
      exact ⟨acc ++ sep, post, hpost⟩
    · exact ih _ h

/-- Every element of a list occurs in its join. -/
theorem stringsJoin_mem (sep : String) (l : List String) (t : String) (ht : t ∈ l) :
    ∃ pre post, stringsJoin l sep = pre ++ t ++ post := by
  cases l with
  | nil => cases ht
  | cons a rest =>
    simp only [stringsJoin, String.intercalate]
    rcases List.mem_cons.1 ht with rfl | h
    · obtain ⟨post, hpost⟩ := intercalate_go_prefix sep rest t
      exact ⟨"", post, by rw [hpost]; simp⟩
    · exact intercalate_go_mem sep rest a t h

/-- The member loop of `GenEsTemplateFromAllOf` on members that all resolve
appends their templates in member order. -/
theorem esAllOfLoop_success (gen : Resolver) (path : List String) :
    ∀ (ms : List (Option SchemaRef)) (ss : List Schema) (props : List String),
      List.Forall₂ (fun m s => gen m path = .ok s) ms ss →
        esAllOfLoop gen path ms props = .ok (props ++ ss.map (fun s => s.EsTemplate)) := by
  intro ms ss props h
  induction h generalizing props with
  | nil => simp [esAllOfLoop]
  | @cons m s ms ss hm _ ih =>
    simp only [esAllOfLoop, hm, Schema.EsTemplateDecl]
    rw [ih]
    simp

/-- The member loop of `GenEsTemplateFromAllOf` returns the error of the first
member that does not resolve. -/
theorem esAllOfLoop_error (gen : Resolver) (path : List String) :
    ∀ (pre : List (Option SchemaRef)) (ss : List Schema) (m : Option SchemaRef)
      (post : List (Option SchemaRef)) (props : List String) (err : String),
      List.Forall₂ (fun m s => gen m path = .ok s) pre ss →
      gen m path = .error err →
        esAllOfLoop gen path (pre ++ m :: post) props = .error err := by
  intro pre ss m post props err h herr
  induction h generalizing props with
  | nil => simp only [List.nil_append, esAllOfLoop, herr]
  | @cons m' s ms ss hm _ ih =>
    simp only [List.cons_append, esAllOfLoop, hm]
    exact ih _

/-- C22: for an `allOf` node without search-type annotation, `GenerateEsSchema`
resolves the members in member order. When all resolve, the result has only
the template, which is empty when every member's template is empty and
otherwise is `"type": "nested",` followed by the members' templates joined by
newlines in member order, so that every non-empty template of a member occurs
in it. When a member returns an error after the members before it resolved,
that error is returned (wrapped by `MergeSchemasForEs` and `GenerateEsSchema`). -/
theorem allOf_templates_are_concatenated (defs : Defs) (n : Nat) (schema : openapi3.Schema)
    (path : List String) (ms : List (Option SchemaRef))
    (hAny : schema.AnyOf = none) (hOne : schema.OneOf = none) (hAll : schema.AllOf = some ms)
    (he : parseEsType (some schema) = .ok "") :
    (∀ ss, List.Forall₂ (fun m s => GenerateEsSchema defs n m path = .ok s) ms ss →
        GenerateEsSchema defs (n + 1) (some (.inline (some schema))) path
            = .ok { Schema.zero with
                    EsTemplate :=
                      if stringsJoin (ss.map (fun s => s.EsTemplate)) "" = "" then ""
                      else "\"type\": \"nested\","
                        ++ stringsJoin (ss.map (fun s => s.EsTemplate)) "\n" }
          ∧ (stringsJoin (ss.map (fun s => s.EsTemplate)) "" = ""
              ↔ ∀ s ∈ ss, s.EsTemplate = "")
          ∧ ∀ s ∈ ss, s.EsTemplate ≠ "" →
              ∃ pre post,
                "\"type\": \"nested\"," ++ stringsJoin (ss.map (fun s => s.EsTemplate)) "\n"
                  = pre ++ s.EsTemplate ++ post)
      ∧ ∀ pre ss m post err, ms = pre ++ m :: post →
          List.Forall₂ (fun m s => GenerateEsSchema defs n m path = .ok s) pre ss →
          GenerateEsSchema defs n m path = .error err →
            GenerateEsSchema defs (n + 1) (some (.inline (some schema))) path
              = .error (errorsWrap
                  (errorsWrap err "unable to generate aggregate indices for AllOf")
                  "error merging schemas") := by
  have heq := GenerateEsSchema_allOf defs n schema path ms hAny hOne hAll
  rw [he] at heq
  simp only [MergeSchemasForEs, GenEsTemplateFromAllOf, ne_eq, not_true_eq_false, if_false]
    at heq
  constructor
  · intro ss hss
    refine ⟨?_, ?_, ?_⟩
    · rw [heq, esAllOfLoop_success _ path ms ss [] hss]
      simp only [List.nil_append]
      by_cases hj : stringsJoin (ss.map (fun s => s.EsTemplate)) "" = ""
      · simp [hj]
      · have hne : stringsJoin (ss.map (fun s => s.EsTemplate)) "\n" ≠ "" := by
          intro h0
          apply hj
          have hmem : ∀ x ∈ ss.map (fun s => s.EsTemplate), x = "" := by
            intro x hx
            obtain ⟨pre, post, hpp⟩ := stringsJoin_mem "\n" _ x hx
            rw [h0] at hpp
            have := (string_append_eq_empty _ _).1 hpp.symm
            exact ((string_append_eq_empty _ _).1 this.1).2
          exact (stringsJoin_empty_iff _).2 hmem
        simp [hj, hne]
    · rw [stringsJoin_empty_iff]
      simp
    · intro s hs _
      obtain ⟨pre, post, hpp⟩ := stringsJoin_mem "\n" (ss.map (fun s => s.EsTemplate))
        s.EsTemplate (List.mem_map.2 ⟨s, hs, rfl⟩)
      refine ⟨"\"type\": \"nested\"," ++ pre, post, ?_⟩
      rw [hpp]
      simp only [String.append_assoc]
  · intro pre ss m post err hms hss herr
    rw [heq, hms, esAllOfLoop_error _ path pre ss m post [] err hss herr]

/-- C22 at a concrete input: a keyword-tagged string, an untagged string and a
date-tagged string as members. -/
theorem allOf_templates_are_concatenated_witness :
    GenerateEsSchema fhirDefs 2 (some (.inline (some plainAllOf))) ["P"]
      = .ok { Schema.zero with
              EsTemplate := "\"type\": \"nested\",\"type\": \"keyword\"\n\n\"type\": \"date\"" } :=
  (((allOf_templates_are_concatenated fhirDefs 1 plainAllOf ["P"] _ rfl rfl rfl (by decide)).1
    [{ Schema.zero with EsTemplate := "\"type\": \"keyword\"" }, Schema.zero,
      { Schema.zero with EsTemplate := "\"type\": \"date\"" }]
    (List.Forall₂.cons rfl (List.Forall₂.cons rfl (List.Forall₂.cons rfl List.Forall₂.nil)))).1).trans
    rfl

end codegen

/-! ## Arrays of objects -/

namespace codegen

open openapi3 (SchemaRef Defs)
open Examples

/-- The template of a successful object branch of `GenerateEsSchema` is the
template of its properties. -/
theorem esSchemaObject_template (defs : Defs) (gen : Resolver) (schema : openapi3.Schema)
    (path : List String) (out s : Schema)
    (h : esSchemaObject defs gen schema path out = .ok s) (hout : out.EsTemplate = "") :
    s.EsTemplate = GenEsTemplateFromSchema s := by
  unfold esSchemaObject at h
  split at h
  · cases h
  · cases h
  · cases h
  · rename_i props hloop
    simp only [] at h
    split at h
    · cases h
      rfl
    · rename_i hd
      cases h
      simp only [ne_eq, not_not] at hd
      show out.EsTemplate = _
      rw [hout]
      exact hd.symm

/-- A non-empty template of properties is the `properties` object of the fields. -/
theorem GenEsTemplateFromSchema_ne_empty (s : Schema) (h : GenEsTemplateFromSchema s ≠ "") :
    GenEsTemplateFromSchema s
      = stringsJoin (["\"properties\": \x7b"]
          ++ [stringsJoin (GenEsTemplateFromProperties s.Properties) ",\n"] ++ ["\x7d"]) "\n" := by
  unfold GenEsTemplateFromSchema at h ⊢
  simp only [] at h ⊢
  by_cases hj : stringsJoin (GenEsTemplateFromProperties s.Properties) "" = ""
  · rw [if_pos hj] at h; exact absurd rfl h
  · rw [if_neg hj]

/-- The branch of the typed nodes on an array whose items resolve. -/
theorem esSchemaTyped_array (gen : Resolver) (schema : openapi3.Schema) (path : List String)
    (out a : Schema) (e : String) (ht : schema.Type_ = "array")
    (he : parseEsType (some schema) = .ok e) (hi : gen schema.Items path = .ok a) :
    esSchemaTyped gen schema path out
      = .ok (if a.EsTemplate ≠ "" then
          { out with
            EsTemplate := "\"type\": \"nested\"," ++ a.EsTemplate, Properties := a.Properties }
        else if e ≠ "" then
          { out with
            EsTemplate := stringsJoin ((stringsSplitComma e).map esDirective) ",",
            Properties := a.Properties }
        else { out with Properties := a.Properties }) := by
  unfold esSchemaTyped
  simp only [he, if_pos ht, hi, Schema.EsTemplateDecl]
  by_cases h1 : a.EsTemplate ≠ "" <;> by_cases h2 : e ≠ "" <;> simp [h1, h2]

/-- C23: for an array node (without `Ref`, `anyOf`, `oneOf`, `allOf`) whose items
resolve to a schema with the non-empty template `T`, `GenerateEsSchema`
returns the schema with the template `"type": "nested",` followed by `T`,
whatever the annotation `e` of the array itself, and with the properties of
the items. When the items are an inline object, `T` is the `properties` object
holding the fields of the item's properties. -/
theorem array_of_templated_items_is_nested (defs : Defs) (n : Nat) (schema : openapi3.Schema)
    (path : List String) (e : String) (a : Schema)
    (hAny : schema.AnyOf = none) (hOne : schema.OneOf = none) (hAll : schema.AllOf = none)
    (ht : schema.Type_ = "array") (he : parseEsType (some schema) = .ok e)
    (hi : GenerateEsSchema defs n schema.Items path = .ok a) (hT : a.EsTemplate ≠ "") :
    GenerateEsSchema defs (n + 1) (some (.inline (some schema))) path
        = .ok { Schema.zero with
                EsTemplate := "\"type\": \"nested\"," ++ a.EsTemplate,
                Properties := a.Properties }
      ∧ ∀ item : openapi3.Schema, schema.Items = some (.inline (some item)) →
          item.AnyOf = none → item.OneOf = none → item.AllOf = none →
          item.Type_ = "" ∨ item.Type_ = "object" →
            a.EsTemplate
              = stringsJoin (["\"properties\": \x7b"]
                  ++ [stringsJoin (GenEsTemplateFromProperties a.Properties) ",\n"]
                  ++ ["\x7d"]) "\n" := by
  have hno : ¬ (schema.Type_ = "" ∨ schema.Type_ = "object") := by rw [ht]; decide
  constructor
  · rw [GenerateEsSchema_plain defs n schema path hAny hOne hAll, if_neg hno,
      esSchemaTyped_array _ schema path Schema.zero a e ht he hi, if_pos hT]
  · intro item hitem h1 h2 h3 hty
    rw [hitem] at hi
    cases n with
    | zero => simp [GenerateEsSchema] at hi
    | succ k =>
      rw [GenerateEsSchema_plain defs k item path h1 h2 h3, if_pos hty] at hi
      by_cases hemp : item.Properties.length = 0 ∧ !SchemaHasAdditionalProperties item
      · rw [if_pos hemp] at hi
        simp only [Outcome.ok.injEq] at hi
        rw [← hi] at hT
        exact absurd rfl hT
      · rw [if_neg hemp] at hi
        have htpl := esSchemaObject_template defs _ item path _ a hi rfl
        rw [htpl] at hT ⊢
        exact GenEsTemplateFromSchema_ne_empty a hT

/-- C23 at a concrete input: an array, itself annotated `keyword`, of the inline
object with the text-tagged field `code`. -/
theorem array_of_templated_items_is_nested_witness :
    GenerateEsSchema fhirDefs 3 (some (.inline (some arrayOfItems))) ["P"]
      = .ok { Schema.zero with
              EsTemplate := "\"type\": \"nested\",\"properties\": \x7b\n\"code\": \x7b\"type\": \"text\",\"fields\": \x7b\"keyword\": \x7b\"type\": \"keyword\", \"ignore_above\" : 256\x7d\x7d\x7d\n\x7d",
              Properties :=
                [{ Description := "", JsonFieldName := "code",
                   Schema := { Schema.zero with EsTemplate := textFragment },
                   Required := false, Nullable := false, Validation := [], EsTag := "text" }] } :=
  ((array_of_templated_items_is_nested fhirDefs 2 arrayOfItems ["P"] "keyword" _ rfl rfl rfl rfl
    (by decide) rfl (by decide)).1).trans rfl

end codegen

/-! ## Arrays of scalars -/

namespace codegen

open openapi3 (SchemaRef Defs)
open Examples

/-- C24 (as stated, refuted by the code): the items of the array are
keyword-tagged strings, scalars with the template `"type": "keyword"`, and
the template of the array is `"type": "nested","type": "keyword"`: the
array branch wraps every non-empty template of the items as nested, the
template of a tagged scalar included. -/
theorem array_of_tagged_scalars_is_nested :
    GenerateEsSchema fhirDefs 1 (some (.inline (some (taggedString "keyword")))) ["P"]
        = .ok { Schema.zero with EsTemplate := "\"type\": \"keyword\"" }
      ∧ GenerateEsSchema fhirDefs 2 (some (.inline (some arrayOfKeywords))) ["P"]
        = .ok { Schema.zero with EsTemplate := "\"type\": \"nested\",\"type\": \"keyword\"" } :=
  ⟨rfl, rfl⟩

end codegen

/-! ## Type and format errors on both paths -/

namespace codegen

open openapi3 (SchemaRef Defs)
open Examples

/-- The loop of `parseEsType` returns when every `x-es-tag` extension is a string
or a list of strings. -/
theorem esTagLoop_wellformed (exts : List (String × openapi3.ExtensionValue))
    (h : ∀ e ∈ exts, e.1 = "x-es-tag" → e.2 ≠ .other) (v : String) :
    ∃ w, esTagLoop exts v = .ok w := by
  induction exts generalizing v with
  | nil => exact ⟨v, rfl⟩
  | cons e rest ih =>
    obtain ⟨key, ext⟩ := e
    have hrest : ∀ e ∈ rest, e.1 = "x-es-tag" → e.2 ≠ .other :=
      fun e he => h e (List.mem_cons_of_mem _ he)
    by_cases hk : key = "x-es-tag"
    · have hne := h (key, ext) (List.mem_cons_self _ _) hk
      simp only [esTagLoop, if_pos hk]
      cases ext with
      | str s => exact ih hrest _
      | strs e => exact ih hrest _
      | other => exact absurd rfl hne
    · simp only [esTagLoop, if_neg hk]
      exact ih hrest v

/-- The function `parseEsType` returns the annotation of a node whose `x-es-tag`
extensions are strings or lists of strings. -/
theorem parseEsType_wellformed (schema : openapi3.Schema)
    (h : ∀ e ∈ schema.Extensions, e.1 = "x-es-tag" → e.2 ≠ .other) :
    ∃ e, parseEsType (some schema) = .ok e := by
  unfold parseEsType
  simp only []
  split
  · exact esTagLoop_wellformed _ h _
  · exact ⟨"", rfl⟩

/-- The typed branch of `GenerateEsSchema` returns an error exactly under the
type and format conditions, with their message. -/
theorem esSchemaTyped_error_iff (gen : Resolver) (schema : openapi3.Schema) (path : List String)
    (out : Schema) (e : String) (hna : schema.Type_ ≠ "array")
    (he : parseEsType (some schema) = .ok e) (err : String) :
    esSchemaTyped gen schema path out = .error err
      ↔ invalidFormat schema.Type_ schema.Format = some err := by
  unfold esSchemaTyped invalidFormat
  simp only [he, if_neg hna]
  by_cases h1 : schema.Type_ = "integer"
  · rw [if_pos h1, if_pos h1]
    by_cases hf : schema.Format ≠ "int64" ∧ schema.Format ≠ "int32" ∧ schema.Format ≠ ""
    · rw [if_pos hf, if_pos hf]; simp
    · rw [if_neg hf, if_neg hf]; simp
  · rw [if_neg h1, if_neg h1]
    by_cases h2 : schema.Type_ = "number"
    · rw [if_pos h2, if_pos h2]
      by_cases hf : schema.Format ≠ "double" ∧ schema.Format ≠ "float" ∧ schema.Format ≠ ""
      · rw [if_pos hf, if_pos hf]; simp
      · rw [if_neg hf, if_neg hf]; simp
    · rw [if_neg h2, if_neg h2]
      by_cases h3 : schema.Type_ = "boolean"
      · rw [if_pos h3, if_pos h3]
        by_cases hf : schema.Format ≠ ""
        · rw [if_pos hf, if_pos hf]; simp
        · rw [if_neg hf, if_neg hf]; simp
      · rw [if_neg h3, if_neg h3]
        by_cases h4 : schema.Type_ = "string"
        · rw [if_pos h4, if_pos h4]; simp
        · rw [if_neg h4, if_neg h4]; simp

/-- The typed branch of `GenerateGoSchema` returns an error exactly under the
type and format conditions, with their message. -/
theorem goSchemaTyped_error_iff (gen : Resolver) (schema : openapi3.Schema) (path : List String)
    (out : Schema) (hna : schema.Type_ ≠ "array")
    (hs : schema.Type_ = "string" → ∀ e ∈ schema.Enum, ∃ s, e = .str s) (err : String) :
    goSchemaTyped gen schema path out = .error err
      ↔ invalidFormat schema.Type_ schema.Format = some err := by
  by_cases h1 : schema.Type_ = "integer"
  · rw [goSchemaTyped_integer _ _ _ _ h1, h1]
    unfold primitiveMapping invalidFormat
    by_cases f1 : schema.Format = "int64"
    · simp [f1]
    · by_cases f2 : schema.Format = "int32"
      · simp [f2]
      · by_cases f3 : schema.Format = ""
        · simp [f3]
        · simp [f1, f2, f3]
  · by_cases h2 : schema.Type_ = "number"
    · rw [goSchemaTyped_number _ _ _ _ h2, h2]
      unfold primitiveMapping invalidFormat
      by_cases f1 : schema.Format = "double"
      · simp [f1]
      · by_cases f2 : schema.Format = "float"
        · simp [f2]
        · by_cases f3 : schema.Format = ""
          · simp [f3]
          · simp [f1, f2, f3]
    · by_cases h3 : schema.Type_ = "boolean"
      · rw [goSchemaTyped_boolean _ _ _ _ h3, h3]
        unfold primitiveMapping invalidFormat
        by_cases f1 : schema.Format = ""
        · simp [f1]
        · simp [f1]
      · by_cases h4 : schema.Type_ = "string"
        · obtain ⟨g, -, hres⟩ := goSchemaTyped_string gen schema path out h4 (hs h4)
          rw [hres, h4]
          simp [invalidFormat]
        · unfold goSchemaTyped invalidFormat
          simp only [if_neg hna, if_neg h1, if_neg h2, if_neg h3, if_neg h4]
          simp

/-- The type and format conditions, spelled out. -/
theorem invalidFormat_isSome_iff (t f : String) :
    (∃ err, invalidFormat t f = some err)
      ↔ (t = "integer" ∧ f ≠ "int64" ∧ f ≠ "int32" ∧ f ≠ "")
        ∨ (t = "number" ∧ f ≠ "double" ∧ f ≠ "float" ∧ f ≠ "")
        ∨ (t = "boolean" ∧ f ≠ "")
        ∨ (t ≠ "integer" ∧ t ≠ "number" ∧ t ≠ "boolean" ∧ t ≠ "string") := by
  unfold invalidFormat
  by_cases h1 : t = "integer"
  · subst h1
    by_cases hf : f ≠ "int64" ∧ f ≠ "int32" ∧ f ≠ ""
    · rw [if_pos rfl, if_pos hf]; simp [hf]
    · rw [if_pos rfl, if_neg hf]; simp [hf]
  · by_cases h2 : t = "number"
    · subst h2
      by_cases hf : f ≠ "double" ∧ f ≠ "float" ∧ f ≠ ""
      · rw [if_neg h1, if_pos rfl, if_pos hf]; simp [hf]
      · rw [if_neg h1, if_pos rfl, if_neg hf]; simp [hf]
    · by_cases h3 : t = "boolean"
      · subst h3
        by_cases hf : f ≠ ""
        · rw [if_neg h1, if_neg h2, if_pos rfl, if_pos hf]; simp [hf]
        · rw [if_neg h1, if_neg h2, if_pos rfl, if_neg hf]; simp [hf]
      · by_cases h4 : t = "string"
        · rw [if_neg h1, if_neg h2, if_neg h3, if_pos h4]; simp [h4]
        · rw [if_neg h1, if_neg h2, if_neg h3, if_neg h4]; simp [h1, h2, h3, h4]

/-- C25 (amended): for a node without `Ref`, `anyOf`, `oneOf` and `allOf` whose type is
neither empty, `object` nor `array` (the enum of a string being strings, the
`x-es-tag` extensions being strings or lists of strings), `GenerateEsSchema`
returns an error if and only if `GenerateGoSchema` returns that error, at any
positive budgets; and this is the case exactly for an integer with a format
other than `int64`, `int32` and empty, a number with a format other than
`double`, `float` and empty, a boolean with a format, and a type that is none
of `integer`, `number`, `boolean` and `string`. -/
theorem index_template_fails_like_go_type (env : Env) (defs : Defs) (n m : Nat)
    (schema : openapi3.Schema) (path : List String)
    (hAny : schema.AnyOf = none) (hOne : schema.OneOf = none) (hAll : schema.AllOf = none)
    (h1 : schema.Type_ ≠ "") (h2 : schema.Type_ ≠ "object") (h3 : schema.Type_ ≠ "array")
    (hs : schema.Type_ = "string" → ∀ e ∈ schema.Enum, ∃ s, e = .str s)
    (hx : ∀ x ∈ schema.Extensions, x.1 = "x-es-tag" → x.2 ≠ .other) :
    (∀ err, GenerateEsSchema defs (n + 1) (some (.inline (some schema))) path = .error err
        ↔ GenerateGoSchema env defs (m + 1) (some (.inline (some schema))) path = .error err)
      ∧ ((∃ err, GenerateGoSchema env defs (m + 1) (some (.inline (some schema))) path
            = .error err)
          ↔ (schema.Type_ = "integer" ∧ schema.Format ≠ "int64" ∧ schema.Format ≠ "int32"
                ∧ schema.Format ≠ "")
            ∨ (schema.Type_ = "number" ∧ schema.Format ≠ "double" ∧ schema.Format ≠ "float"
                ∧ schema.Format ≠ "")
            ∨ (schema.Type_ = "boolean" ∧ schema.Format ≠ "")
            ∨ (schema.Type_ ≠ "integer" ∧ schema.Type_ ≠ "number" ∧ schema.Type_ ≠ "boolean"
                ∧ schema.Type_ ≠ "string")) := by
  have hno : ¬ (schema.Type_ = "" ∨ schema.Type_ = "object") := by
    rintro (h | h)
    · exact h1 h
    · exact h2 h
  obtain ⟨e, he⟩ := parseEsType_wellformed schema hx
  have hes : ∀ err, GenerateEsSchema defs (n + 1) (some (.inline (some schema))) path = .error err
      ↔ invalidFormat schema.Type_ schema.Format = some err := by
    intro err
    rw [GenerateEsSchema_plain defs n schema path hAny hOne hAll, if_neg hno]
    exact esSchemaTyped_error_iff _ schema path _ e h3 he err
  have hgo : ∀ err, GenerateGoSchema env defs (m + 1) (some (.inline (some schema))) path
      = .error err ↔ invalidFormat schema.Type_ schema.Format = some err := by
    intro err
    rw [GenerateGoSchema_plain env defs m schema path hAny hOne hAll, if_neg hno]
    exact goSchemaTyped_error_iff _ schema path _ h3 hs err
  refine ⟨fun err => (hes err).trans (hgo err).symm, ?_⟩
  rw [← invalidFormat_isSome_iff]
  constructor
  · rintro ⟨err, h⟩; exact ⟨err, (hgo err).1 h⟩
  · rintro ⟨err, h⟩; exact ⟨err, (hgo err).2 h⟩

/-- C25 (amended) at a concrete input: the integer of the format `wide`, on which
`GenerateGoSchema` returns the error `invalid integer format: wide`. -/
theorem index_template_fails_like_go_type_witness :
    GenerateEsSchema fhirDefs 1 (some (.inline (some wideInteger))) ["P"]
      = .error "invalid integer format: wide" :=
  ((index_template_fails_like_go_type (exampleEnv id) fhirDefs 0 0 wideInteger ["P"]
    rfl rfl rfl (by decide) (by decide) (by decide)
    (fun h => absurd h (by decide))
    (fun x hx _ => by
      simp only [wideInteger, List.mem_singleton] at hx
      rw [hx]
      exact fun h => by cases h)).1
      "invalid integer format: wide").2 rfl

end codegen

/-! ## Additional properties on the index path -/

namespace codegen

open openapi3 (SchemaRef Defs)
open Examples

/-- C26 (as stated, refuted by the code): `Open` is the object with the
text-tagged field `code`. When its additional properties are the reference to
`Open` itself, the template of the reference to `Open` is the bare
`"type": "nested"`; with the additional properties removed it is the nested
object with the field `code`. The walk of the cycle guard follows
`additionalProperties`, which the resolver never resolves. -/
theorem additional_properties_change_the_template :
    (GenerateEsSchema (openDefs (some (.ref "Open"))) 5 (some (.ref "Open")) ["P"]).value?.map
        (fun s => s.EsTemplate)
        = some "\"type\": \"nested\""
      ∧ (GenerateEsSchema (openDefs none) 5 (some (.ref "Open")) ["P"]).value?.map
          (fun s => s.EsTemplate)
        = some "\"type\": \"nested\",\"properties\": \x7b\n\"code\": \x7b\"type\": \"text\",\"fields\": \x7b\"keyword\": \x7b\"type\": \"keyword\", \"ignore_above\" : 256\x7d\x7d\x7d\n\x7d" := by
  decide

end codegen

/-! ## Arrays without items behind a reference -/

namespace codegen

open openapi3 (SchemaRef Defs)
open Examples

/-- C31 (as stated, refuted by the code): `Arr` is an array without an items
schema and `Holder` an object whose property `tags` is such an array. On the
reference to `Arr` and on the reference to `Holder`, `GenerateEsSchema` panics
at every budget that covers the walk of the cycle guard: `isInfinityObject`
calls itself on the absent items node and reads `ref.Value` of the nil
pointer. On the array itself, not referenced, it returns the empty schema. -/
theorem reference_to_array_without_items_panics (n : Nat) :
    GenerateEsSchema bareArrayDefs (n + 3) (some (.ref "Arr")) ["P"]
        = .panic "nil pointer dereference"
      ∧ GenerateEsSchema bareArrayDefs (n + 4) (some (.ref "Holder")) ["P"]
        = .panic "nil pointer dereference"
      ∧ GenerateEsSchema bareArrayDefs (n + 2) (some (.inline (some bareArray))) ["P"]
        = .ok Schema.zero :=
  ⟨rfl, rfl, rfl⟩

end codegen

/-! ## Conflicts behind a member that panics -/

namespace codegen

open openapi3 (SchemaRef Defs)
open Examples

/-- C4 (as stated, refuted): the first and the third member both declare `x`, as a
string and as an integer, and between them stands a member whose string
property has the enum `[1]`. `MergeSchemas` and `GenerateGoSchema` on the
`allOf` node do not return an error: the assertion `enumValue.(string)` panics
while the second member is resolved. -/
theorem conflicting_allOf_can_panic :
    (GenerateGoSchema (exampleEnv id) (fun _ => none) 3 (some memberX) ["P"]).value?.map
        (fun s => s.Properties.map (fun p => (p.JsonFieldName, p.Schema.TypeDecl)))
        = some [("x", "string")]
      ∧ (GenerateGoSchema (exampleEnv id) (fun _ => none) 3 (some memberXInteger) ["P"]).value?.map
          (fun s => s.Properties.map (fun p => (p.JsonFieldName, p.Schema.TypeDecl)))
        = some [("x", "int")]
      ∧ MergeSchemas (exampleEnv id) (GenerateGoSchema (exampleEnv id) (fun _ => none) 3)
          [some memberX, some badEnumMember, some memberXInteger] ["P"]
        = .panic "interface conversion: interface is not string"
      ∧ GenerateGoSchema (exampleEnv id) (fun _ => none) 4
          (some (.inline (some
            { openapi3.Schema.zero with
              AllOf := some [some memberX, some badEnumMember, some memberXInteger] }))) ["P"]
        = .panic "interface conversion: interface is not string" :=
  ⟨by decide, by decide, rfl, rfl⟩

/-- C6 (as stated, refuted): the first and the third member resolve with open
additional properties of the types `string` and `openapi_types.Date`, and
between them stands a member whose string property has the enum `[1]`.
`MergeSchemas` does not return an error: it panics while the second member is
resolved. -/
theorem open_allOf_can_panic :
    (GenerateGoSchema (exampleEnv id) (fun _ => none) 3 (some (openMember "a" "")) ["P"]).value?.map
        (fun s => (s.HasAdditionalProperties, s.additionalTypeDecl))
        = some (true, some "string")
      ∧ (GenerateGoSchema (exampleEnv id) (fun _ => none) 3
          (some (openMember "b" "date")) ["P"]).value?.map
          (fun s => (s.HasAdditionalProperties, s.additionalTypeDecl))
        = some (true, some "openapi_types.Date")
      ∧ MergeSchemas (exampleEnv id) (GenerateGoSchema (exampleEnv id) (fun _ => none) 3)
          [some (openMember "a" ""), some badEnumMember, some (openMember "b" "date")] ["P"]
        = .panic "interface conversion: interface is not string" :=
  ⟨by decide, by decide, rfl⟩

end codegen

/-! ## An undecodable annotation on the index path -/

namespace codegen

open openapi3 (SchemaRef Defs)
open Examples

/-- C25 (as stated, refuted): on the integer of the format `bogus` whose
`x-es-tag` is neither a string nor a list of strings, `GenerateGoSchema`
returns the format error, while `GenerateEsSchema` returns no error: it panics
in `parseEsType`, which runs before the type switch. -/
theorem undecodable_tag_panics_before_the_format_error :
    GenerateGoSchema (exampleEnv id) fhirDefs 1 (some (.inline (some bogusInteger))) ["P"]
        = .error "invalid integer format: bogus"
      ∧ GenerateEsSchema fhirDefs 1 (some (.inline (some bogusInteger))) ["P"]
        = .panic "x-es-tag is neither a string nor a list of strings" :=
  ⟨rfl, rfl⟩

end codegen

/-! ## The properties and the struct text of an allOf -/

namespace codegen

open openapi3 (SchemaRef Defs)
open Examples

/-- The schema `GenerateGoSchema` returns for a reference node has the translated
reference as its `GoType`. -/
theorem GenerateGoSchema_ref_result (env : Env) (defs : Defs) (fuel : Nat)
    (sref : SchemaRef) (path : List String) (s : Schema) (href : sref.Ref ≠ "")
    (h : GenerateGoSchema env defs fuel (some sref) path = .ok s) :
    env.RefPathToGoType sref.Ref = .ok s.GoType := by
  cases fuel with
  | zero => simp [GenerateGoSchema] at h
  | succ n =>
    simp only [GenerateGoSchema] at h
    rw [if_pos href] at h
    cases hr : env.RefPathToGoType sref.Ref with
    | error e => rw [hr] at h; cases h
    | ok t =>
      rw [hr] at h
      simp only [Outcome.ok.injEq] at h
      rw [← h]

/-- The member loop of `GenStructFromAllOf` on members that all resolve appends
the lines of every member, in member order. -/
theorem genStructFromAllOfLoop_resolved (env : Env) (defs : Defs) (fuel : Nat)
    (path : List String) (ms : List (Option SchemaRef)) (ss : List Schema)
    (h : List.Forall₂ (fun m s => m ≠ none ∧ GenerateGoSchema env defs fuel m path = .ok s)
      ms ss) :
    ∀ acc, genStructFromAllOfLoop env (GenerateGoSchema env defs fuel) path ms acc
      = .ok (acc ++ (List.zipWith (memberStructParts env) ms ss).flatten) := by
  induction h with
  | nil => intro acc; simp [genStructFromAllOfLoop]
  | @cons m s ms ss hm _ ih =>
    intro acc
    cases m with
    | none => exact absurd rfl hm.1
    | some member =>
      simp only [genStructFromAllOfLoop]
      by_cases href : member.Ref ≠ ""
      · rw [if_pos href, GenerateGoSchema_ref_result env defs fuel member path s href hm.2]
        simp only []
        rw [ih]
        simp [memberStructParts, href]
      · rw [if_neg href, hm.2]
        simp only []
        rw [ih]
        simp [memberStructParts, href]

/-- C28: when `MergeSchemas` succeeds on a member list, every member is resolved
by `GenerateGoSchema` at the same path, and the `Properties` of the merged
schema are the concatenation, in member order, of the properties of the
resolved members, which is the concatenation over the members that are not
references: the schema resolved for a reference member has no properties. A
reference member appears in the struct text only: the `GoType` of the merged
schema is `struct {`, the lines of the members in member order and `}`, joined
by newlines, where the lines of a reference member are the comment
`// Embedded struct due to allOf(ref)` and the translated name of the
reference, and the lines of another member are the comment and the fields of
its properties. -/
theorem allOf_properties_of_inline_members (env : Env) (defs : Defs) (fuel : Nat)
    (ms : List (Option SchemaRef)) (path : List String) (out : Schema)
    (h : MergeSchemas env (GenerateGoSchema env defs fuel) ms path = .ok out) :
    ∃ ss, List.Forall₂ (fun m s => m ≠ none ∧ GenerateGoSchema env defs fuel m path = .ok s) ms ss
      ∧ out.Properties = memberProperties ss
      ∧ out.Properties = memberProperties (inlineResolutions ms ss)
      ∧ (∀ member ∈ ms.filterMap id, member.Ref ≠ "" →
          ∀ s, GenerateGoSchema env defs fuel (some member) path = .ok s →
            s.Properties = [] ∧ env.RefPathToGoType member.Ref = .ok s.GoType
              ∧ memberStructParts env (some member) s
                  = ["   // Embedded struct due to allOf(" ++ member.Ref ++ ")",
                     "   " ++ s.GoType])
      ∧ out.GoType
          = stringsJoin (["struct \x7b"] ++ (List.zipWith (memberStructParts env) ms ss).flatten
              ++ ["\x7d"]) "\n" := by
  obtain ⟨o, goType, hloop, hstruct, ho⟩ := MergeSchemas_ok env _ path ms out h
  obtain ⟨ss, hss, hp⟩ := mergeSchemasLoop_resolved env _ path ms _ o hloop
  have hout : out.Properties = memberProperties ss := by
    rw [ho]
    simpa [Schema.zero] using hp
  refine ⟨ss, hss, hout, ?_, ?_, ?_⟩
  · rw [hout]
    exact memberProperties_inline env defs fuel path ms ss hss
  · intro member _ href s hs
    exact ⟨GenerateGoSchema_ref_properties env defs fuel member path s href hs,
      GenerateGoSchema_ref_result env defs fuel member path s href hs,
      by simp [memberStructParts, href]⟩
  · unfold GenStructFromAllOf at hstruct
    rw [genStructFromAllOfLoop_resolved env defs fuel path ms ss hss] at hstruct
    simp only [Outcome.ok.injEq] at hstruct
    rw [ho, ← hstruct]

/-- C28 at a concrete input: the reference to `Item`, whose property `code` is a
string, and an inline member declaring `code` as an integer are merged without
conflict into the single property `code` of the inline member; the struct
embeds `Item` by name and declares the field of the inline member. -/
theorem allOf_properties_of_inline_members_witness :
    ∃ out, MergeSchemas (exampleEnv id) (GenerateGoSchema (exampleEnv id) pairDefs 3)
        [some (.ref "Item"), some memberCodeInteger] ["P"] = .ok out
      ∧ out.Properties.map (fun p => (p.JsonFieldName, p.Schema.GoType)) = [("code", "int")]
      ∧ out.GoType = "struct \x7b\n   // Embedded struct due to allOf(Item)\n   Item\n   // Embedded fields due to inline allOf schema\n    code *int `json:\"code,omitempty\"`\n\x7d"
      ∧ ∃ ss, List.Forall₂
          (fun m s => m ≠ none ∧ GenerateGoSchema (exampleEnv id) pairDefs 3 m ["P"] = .ok s)
          [some (.ref "Item"), some memberCodeInteger] ss
        ∧ out.Properties = memberProperties ss
        ∧ out.Properties
            = memberProperties (inlineResolutions [some (.ref "Item"), some memberCodeInteger] ss)
        ∧ (∀ member ∈ [some (openapi3.SchemaRefOf.ref "Item"), some memberCodeInteger].filterMap id,
            member.Ref ≠ "" →
            ∀ s, GenerateGoSchema (exampleEnv id) pairDefs 3 (some member) ["P"] = .ok s →
              s.Properties = [] ∧ (exampleEnv id).RefPathToGoType member.Ref = .ok s.GoType
                ∧ memberStructParts (exampleEnv id) (some member) s
                    = ["   // Embedded struct due to allOf(" ++ member.Ref ++ ")",
                       "   " ++ s.GoType])
        ∧ out.GoType
            = stringsJoin (["struct \x7b"]
                ++ (List.zipWith (memberStructParts (exampleEnv id))
                      [some (.ref "Item"), some memberCodeInteger] ss).flatten
                ++ ["\x7d"]) "\n" :=
  ⟨_, rfl, rfl, rfl,
    allOf_properties_of_inline_members (exampleEnv id) pairDefs 3
      [some (.ref "Item"), some memberCodeInteger] ["P"] _ rfl⟩

end codegen

/-! ## The JsonName of a hoisted type -/

namespace codegen

open openapi3 (SchemaRef Defs)
open Examples

/-- C12 (as stated, refuted by the code): with a `PathToTypeName` that camel-cases
the slice in place, the open map `m` at the path `P` is hoisted under the name
`P_M`, which is its type declaration, and the `JsonName` of its type
definition is `P.M`, not the segments `P`, `m` joined by `.`: the join is
computed from the slice after `PathToTypeName` has rewritten it. -/
theorem hoisted_json_name_is_rewritten :
    ∃ s, GenerateGoSchema camelEnv (fun _ => none) 3 (some (holder "string")) ["P"] = .ok s
      ∧ s.Properties.map (fun p => (p.JsonFieldName, p.Schema.TypeDecl)) = [("m", "P_M")]
      ∧ s.GetAdditionalTypeDefs.map (fun t => (t.TypeName, t.JsonName)) = [("P_M", "P.M")]
      ∧ stringsJoin (["P"] ++ ["m"]) "." = "P.m" := by
  have h : (GenerateGoSchema camelEnv (fun _ => none) 3 (some (holder "string")) ["P"]).value?.map
        (fun s => (s.Properties.all (fun p => p.Schema.Properties.isEmpty),
          s.Properties.map (fun p => (p.JsonFieldName, p.Schema.TypeDecl)),
          ((s.Properties.map (fun p => p.Schema.AdditionalTypes)).flatten
            ++ s.AdditionalTypes).map (fun t => (t.TypeName, t.JsonName))))
      = some (true, [("m", "P_M")], [("P_M", "P.M")]) := by
    decide
  cases hg : GenerateGoSchema camelEnv (fun _ => none) 3 (some (holder "string")) ["P"] with
  | ok s =>
    rw [hg] at h
    simp only [Outcome.value?, Option.map_some', Option.some.injEq, Prod.mk.injEq] at h
    refine ⟨s, rfl, h.2.1, ?_, by decide⟩
    rw [GetAdditionalTypeDefs_eq, propertiesTypeDefs_flat _ h.1]
    exact h.2.2
  | error e => rw [hg] at h; simp [Outcome.value?] at h
  | panic e => rw [hg] at h; simp [Outcome.value?] at h
  | outOfFuel => rw [hg] at h; simp [Outcome.value?] at h

end codegen
